import Mathlib

/-! Bearer-token authentication of the homepage server.

A shallow embedding of `src/lib/jwt-auth.js` (class `JWTAuth`), of
`src/server.js` (the gates of the handlers, the multipart parser, the upload
handlers, the routing of API and static paths, the deletion from the gallery)
and of the post and comment store of `src/html/blog/blog-manager.js`.

Modelling conventions.

* A JavaScript string is a Lean `String`, a sequence of Unicode scalar
  values (lone surrogates are not represented).  String functions of the
  source work on the character list `String.data`.
* A JavaScript number is an `Int`; `NaN` is `none` of `Option Int`.  Values
  beyond 2^53 and fractions are outside the model, but for the new id of
  `addUser`, whose sum of doubles is rounded as JavaScript rounds it
  (`plusOne`).
* A value of a request body is a `Json`; a call that throws on such a value
  returns `none` (`hashPasswordValue`, `loginValue`).
* `Date.now()` enters as the parameter `now`, already in whole seconds
  (`Math.floor(Date.now() / 1000)`).
* The Node.js built-ins the class calls (`crypto`, `Buffer`, `JSON`) are the
  fields of a record `Node`; theorems hold for every such record and name
  the facts about the built-ins they rest on.  `refNode` is a concrete
  record (real UTF-8, base64, HMAC-SHA256, JSON over integers) on which the
  functions evaluate.
* The user file `data/users.json` enters as the list of its user records.
* A `Buffer` is the list of its bytes, `List Nat`; `indexOf` answers `none`
  for -1.  The `while` loop of `parseMultipart` runs on fuel, and is shown to
  end with a result for every body.
-/

set_option autoImplicit false

namespace Homepage

/-! ## JavaScript values -/

/-- The values JSON text denotes: what `JSON.parse` returns and what
`JSON.stringify` is given.  Fields of an object are listed in the order
JavaScript enumerates them. -/
inductive Json where
  | null
  | bool (b : Bool)
  | num (n : Int)
  | str (s : String)
  | arr (items : List Json)
  | obj (fields : List (String × Json))

mutual
/-- Equality of JSON values is decidable. -/
def Json.decEq : (a b : Json) → Decidable (a = b)
  | Json.null, Json.null => isTrue rfl
  | Json.bool x, Json.bool y => decidable_of_iff (x = y) (by simp)
  | Json.num x, Json.num y => decidable_of_iff (x = y) (by simp)
  | Json.str x, Json.str y => decidable_of_iff (x = y) (by simp)
  | Json.arr xs, Json.arr ys =>
    match Json.decEqItems xs ys with
    | isTrue h => isTrue (by rw [h])
    | isFalse h => isFalse (fun e => h (by injection e))
  | Json.obj xs, Json.obj ys =>
    match Json.decEqFields xs ys with
    | isTrue h => isTrue (by rw [h])
    | isFalse h => isFalse (fun e => h (by injection e))
  | Json.null, Json.bool _ => isFalse (fun h => Json.noConfusion h)
  | Json.null, Json.num _ => isFalse (fun h => Json.noConfusion h)
  | Json.null, Json.str _ => isFalse (fun h => Json.noConfusion h)
  | Json.null, Json.arr _ => isFalse (fun h => Json.noConfusion h)
  | Json.null, Json.obj _ => isFalse (fun h => Json.noConfusion h)
  | Json.bool _, Json.null => isFalse (fun h => Json.noConfusion h)
  | Json.bool _, Json.num _ => isFalse (fun h => Json.noConfusion h)
  | Json.bool _, Json.str _ => isFalse (fun h => Json.noConfusion h)
  | Json.bool _, Json.arr _ => isFalse (fun h => Json.noConfusion h)
  | Json.bool _, Json.obj _ => isFalse (fun h => Json.noConfusion h)
  | Json.num _, Json.null => isFalse (fun h => Json.noConfusion h)
  | Json.num _, Json.bool _ => isFalse (fun h => Json.noConfusion h)
  | Json.num _, Json.str _ => isFalse (fun h => Json.noConfusion h)
  | Json.num _, Json.arr _ => isFalse (fun h => Json.noConfusion h)
  | Json.num _, Json.obj _ => isFalse (fun h => Json.noConfusion h)
  | Json.str _, Json.null => isFalse (fun h => Json.noConfusion h)
  | Json.str _, Json.bool _ => isFalse (fun h => Json.noConfusion h)
  | Json.str _, Json.num _ => isFalse (fun h => Json.noConfusion h)
  | Json.str _, Json.arr _ => isFalse (fun h => Json.noConfusion h)
  | Json.str _, Json.obj _ => isFalse (fun h => Json.noConfusion h)
  | Json.arr _, Json.null => isFalse (fun h => Json.noConfusion h)
  | Json.arr _, Json.bool _ => isFalse (fun h => Json.noConfusion h)
  | Json.arr _, Json.num _ => isFalse (fun h => Json.noConfusion h)
  | Json.arr _, Json.str _ => isFalse (fun h => Json.noConfusion h)
  | Json.arr _, Json.obj _ => isFalse (fun h => Json.noConfusion h)
  | Json.obj _, Json.null => isFalse (fun h => Json.noConfusion h)
  | Json.obj _, Json.bool _ => isFalse (fun h => Json.noConfusion h)
  | Json.obj _, Json.num _ => isFalse (fun h => Json.noConfusion h)
  | Json.obj _, Json.str _ => isFalse (fun h => Json.noConfusion h)
  | Json.obj _, Json.arr _ => isFalse (fun h => Json.noConfusion h)
/-- Equality of lists of JSON values is decidable. -/
def Json.decEqItems : (a b : List Json) → Decidable (a = b)
  | [], [] => isTrue rfl
  | [], _ :: _ => isFalse (fun h => List.noConfusion h)
  | _ :: _, [] => isFalse (fun h => List.noConfusion h)
  | x :: xs, y :: ys =>
    match Json.decEq x y, Json.decEqItems xs ys with
    | isTrue h1, isTrue h2 => isTrue (by rw [h1, h2])
    | isFalse h1, _ => isFalse (fun e => h1 (by injection e))
    | _, isFalse h2 => isFalse (fun e => h2 (by injection e))
/-- Equality of field lists is decidable. -/
def Json.decEqFields : (a b : List (String × Json)) → Decidable (a = b)
  | [], [] => isTrue rfl
  | [], _ :: _ => isFalse (fun h => List.noConfusion h)
  | _ :: _, [] => isFalse (fun h => List.noConfusion h)
  | (k, x) :: xs, (l, y) :: ys =>
    match String.decEq k l, Json.decEq x y, Json.decEqFields xs ys with
    | isTrue h0, isTrue h1, isTrue h2 => isTrue (by rw [h0, h1, h2])
    | isFalse h0, _, _ => isFalse (fun e => h0 (by injection e with e1 e2; injection e1))
    | _, isFalse h1, _ => isFalse (fun e => h1 (by injection e with e1 e2; injection e1))
    | _, _, isFalse h2 => isFalse (fun e => h2 (by injection e))
end

instance : DecidableEq Json := Json.decEq

/-- The Node.js built-ins used by `JWTAuth`. -/
structure Node where
  /-- The call chain `crypto.createHmac('sha256', key).update(data).digest('base64')`. -/
  hmacSha256 : String → String → String
  /-- The call chain `crypto.createHash('sha256').update(data).digest('hex')`. -/
  sha256Hex : String → String
  /-- The call chain `Buffer.from(s).toString('base64')`. -/
  toBase64 : String → String
  /-- The call chain `Buffer.from(s, 'base64').toString()`; it never throws. -/
  fromBase64 : String → String
  /-- The built-in `JSON.stringify(v)`. -/
  stringify : Json → String
  /-- The built-in `JSON.parse(s)`; `none` when it throws a `SyntaxError`. -/
  parse : String → Option Json
  /-- The coercion `ToNumber(v)` for a string, array or object `v`, as the
  operator `<` applies it; `none` is `NaN`. -/
  toNumber : Json → Option Int
  /-- The call `buf.toString()`: the text of UTF-8 bytes. -/
  bufferToString : List Nat → String

/-- The property read `v[k]` for a name `k` that no prototype defines (`exp`,
`id`, `role`, `isAdmin`): the own field of an object, `undefined` (`none`)
otherwise. -/
def getProp : Json → String → Option Json
  | Json.obj fields, k => (fields.find? (fun kv => kv.1 = k)).map (fun kv => kv.2)
  | _, _ => none

/-- The property write `o[k] = v` on the field list of an object, for a name
`k` that is not an array index: an existing field keeps its place and takes
the new value, a new field goes last. -/
def setProp : List (String × Json) → String → Json → List (String × Json)
  | [], k, v => [(k, v)]
  | (k0, v0) :: rest, k, v =>
    if k0 = k then (k, v) :: rest else (k0, v0) :: setProp rest k v

/-- The own enumerable fields that the spread `{...v}` copies. -/
def spread : Json → List (String × Json)
  | Json.obj fields => fields
  | Json.arr items => items.enum.map (fun ix => (toString ix.1, ix.2))
  | Json.str s => s.data.enum.map (fun ix => (toString ix.1, Json.str ⟨[ix.2]⟩))
  | _ => []

/-- JavaScript truthiness of a property value (`none` is `undefined`). -/
def truthy : Option Json → Bool
  | none => false
  | some Json.null => false
  | some (Json.bool b) => b
  | some (Json.num n) => decide (n ≠ 0)
  | some (Json.str s) => decide (s ≠ "")
  | some (Json.arr _) => true
  | some (Json.obj _) => true

/-- The comparison `v < now` of a value with a number. -/
def lessThan (N : Node) : Json → Int → Bool
  | Json.null, now => decide (0 < now)
  | Json.bool b, now => decide ((if b then 1 else 0) < now)
  | Json.num n, now => decide (n < now)
  | v, now =>
    match N.toNumber v with
    | some n => decide (n < now)
    | none => false

/-- The comparison `v === 'text'` of a property value with a string literal. -/
def strictEqStr : Option Json → String → Bool
  | some (Json.str s), t => decide (s = t)
  | _, _ => false

/-- The comparison `n === v` of a stored number with a property value. -/
def strictEqNum (n : Int) : Option Json → Bool
  | some (Json.num m) => decide (n = m)
  | _ => false

/-! ## String helpers of the source -/

/-- The property `str.length`: the number of UTF-16 code units. -/
def jsLength (s : List Char) : Nat :=
  (s.map (fun c => if c.toNat < 65536 then 1 else 2)).sum

/-- The call `str.split(sep)` for a one-character separator. -/
def splitOn (sep : Char) : List Char → List (List Char)
  | [] => [[]]
  | c :: cs =>
    if c = sep then [] :: splitOn sep cs
    else
      match splitOn sep cs with
      | [] => [[c]]
      | p :: ps => (c :: p) :: ps

/-- The call `str.replace(/c/g, d)` for single characters `c` and `d`. -/
def replaceChar (c d : Char) (s : List Char) : List Char :=
  s.map (fun x => if x = c then d else x)

/-- The call `str.replace(/c/g, '')` for a single character `c`. -/
def removeChar (c : Char) (s : List Char) : List Char :=
  s.filter (fun x => decide (x ≠ c))

/-- The call `str.endsWith(c)` for a one-character string `c`. -/
def endsWith (s : String) (c : Char) : Bool :=
  decide (s.data.getLast? = some c)

/-- The call `str.startsWith(p)`. -/
def startsWith (s p : String) : Bool :=
  decide (s.data.take p.data.length = p.data)

/-- White space that `parseInt` skips (ECMAScript WhiteSpace and LineTerminator). -/
def isStrWhiteSpace (c : Char) : Bool :=
  let n := c.toNat
  decide (n = 9 ∨ n = 10 ∨ n = 11 ∨ n = 12 ∨ n = 13 ∨ n = 32 ∨ n = 160 ∨ n = 5760
    ∨ (8192 ≤ n ∧ n ≤ 8202) ∨ n = 8232 ∨ n = 8233 ∨ n = 8239 ∨ n = 8287 ∨ n = 12288
    ∨ n = 65279)

/-- The value of a digit or letter in radixes up to 36. -/
def digitValue (c : Char) : Nat :=
  let n := c.toNat
  if 48 ≤ n ∧ n ≤ 57 then n - 48
  else if 97 ≤ n ∧ n ≤ 122 then n - 87
  else if 65 ≤ n ∧ n ≤ 90 then n - 55
  else 36

/-- The built-in `parseInt(s)` without a radix argument: leading white space
is skipped, a sign and a `0x` mark are read, then the longest run of digits;
`NaN` (`none`) when that run is empty. -/
def parseInt (s : String) : Option Int :=
  let t := s.data.dropWhile isStrWhiteSpace
  let signed : Int × List Char :=
    match t with
    | '-' :: r => (-1, r)
    | '+' :: r => (1, r)
    | _ => (1, t)
  let based : Nat × List Char :=
    match signed.2 with
    | '0' :: 'x' :: r => (16, r)
    | '0' :: 'X' :: r => (16, r)
    | r => (10, r)
  let digits := based.2.takeWhile (fun c => decide (digitValue c < based.1))
  if digits = [] then none
  else some (signed.1 * (digits.foldl (fun acc c => acc * based.1 + digitValue c) 0 : Nat))

namespace Ref

/-- The UTF-8 bytes of a character. -/
def utf8OfChar (c : Char) : List Nat :=
  let n := c.toNat
  if n < 128 then [n]
  else if n < 2048 then [192 + n / 64, 128 + n % 64]
  else if n < 65536 then [224 + n / 4096, 128 + n / 64 % 64, 128 + n % 64]
  else [240 + n / 262144, 128 + n / 4096 % 64, 128 + n / 64 % 64, 128 + n % 64]

/-- The UTF-8 bytes of a string. -/
def utf8Encode (s : List Char) : List Nat :=
  s.flatMap utf8OfChar

end Ref

/-! ## `JWTAuth`: tokens -/

/-- The method `base64urlEscape(str)`. -/
def base64urlEscape (str : String) : String :=
  ⟨removeChar '=' (replaceChar '/' '_' (replaceChar '+' '-' str.data))⟩

/-- The method `base64urlUnescape(str)`: `new Array(5 - str.length % 4).join('=')`
is `4 - str.length % 4` signs `=`. -/
def base64urlUnescape (str : String) : String :=
  let padded := str.data ++ List.replicate (5 - jsLength str.data % 4 - 1) '='
  ⟨replaceChar '_' '/' (replaceChar '-' '+' padded)⟩

/-- The header object of `generateToken`, `this.algorithm` being `'HS256'`. -/
def jwtHeader : Json :=
  Json.obj [("alg", Json.str "HS256"), ("typ", Json.str "JWT")]

/-- The expiry time `exp` that `generateToken` computes from `expiresIn`
(`none` is `NaN`). -/
def expiry (now : Int) (expiresIn : String) : Option Int :=
  if endsWith expiresIn 'h' then
    (parseInt expiresIn).map (fun n => now + n * 3600)
  else if endsWith expiresIn 'd' then
    (parseInt expiresIn).map (fun n => now + n * 24 * 3600)
  else
    some (now + 24 * 3600)

/-- A computed number as a field value; `JSON.stringify` writes `NaN` as `null`. -/
def numberValue : Option Int → Json
  | some n => Json.num n
  | none => Json.null

/-- The object `jwtPayload` of `generateToken`: the spread of `payload` with
`iat` and `exp` written into it. -/
def jwtPayload (now : Int) (payload : List (String × Json)) (expiresIn : String) :
    List (String × Json) :=
  setProp (setProp payload "iat" (Json.num now)) "exp" (numberValue (expiry now expiresIn))

/-- The text that is signed: the encoded header and the encoded payload
joined by a dot. -/
def signingInput (N : Node) (claims : Json) : String :=
  base64urlEscape (N.toBase64 (N.stringify jwtHeader)) ++ "." ++
    base64urlEscape (N.toBase64 (N.stringify claims))

/-- The method `generateToken(payload, expiresIn)` under the secret `secret`
at the time `now`. -/
def generateToken (N : Node) (secret : String) (now : Int)
    (payload : List (String × Json)) (expiresIn : String) : String :=
  let encodedHeader := base64urlEscape (N.toBase64 (N.stringify jwtHeader))
  let encodedPayload :=
    base64urlEscape (N.toBase64 (N.stringify (Json.obj (jwtPayload now payload expiresIn))))
  let signature := N.hmacSha256 secret (encodedHeader ++ "." ++ encodedPayload)
  let encodedSignature := base64urlEscape signature
  encodedHeader ++ "." ++ encodedPayload ++ "." ++ encodedSignature

/-- The result of `verifyToken`: `{ valid: true, payload }` or
`{ valid: false, error }`. -/
inductive Verification where
  | valid (payload : Json)
  | invalid (error : String)
  deriving DecidableEq

/-- The last steps of `verifyToken`, on the parsed payload: reading
`payload.exp` throws on `null`, which the `catch` turns into the parsing
error. -/
def checkExpiry (N : Node) (now : Int) : Json → Verification
  | Json.null => Verification.invalid "Token parsing failed"
  | payload =>
    if truthy (getProp payload "exp") &&
        (match getProp payload "exp" with
         | some e => lessThan N e now
         | none => false) then
      Verification.invalid "Token expired"
    else Verification.valid payload

/-- The method `verifyToken(token)` under the secret `secret` at the time `now`. -/
def verifyToken (N : Node) (secret : String) (now : Int) (token : String) : Verification :=
  match splitOn '.' token.data with
  | [encodedHeader, encodedPayload, encodedSignature] =>
    let expectedSignature :=
      N.hmacSha256 secret (String.mk encodedHeader ++ "." ++ String.mk encodedPayload)
    let expectedEncodedSignature := base64urlEscape expectedSignature
    if String.mk encodedSignature ≠ expectedEncodedSignature then
      Verification.invalid "Invalid signature"
    else
      match N.parse (N.fromBase64 (base64urlUnescape (String.mk encodedPayload))) with
      | none => Verification.invalid "Token parsing failed"
      | some payload => checkExpiry N now payload
  | _ => Verification.invalid "Invalid token format"

/-! ## `JWTAuth`: users and requests -/

/-- A record of the `users` array of `data/users.json`. -/
structure User where
  id : Int
  username : String
  passwordHash : String
  role : String
  permissions : List String
  email : String
  createdAt : String
  lastLogin : Option String
  isActive : Bool
  deriving DecidableEq

/-- The method `findUserByUsername(username)` on the loaded user list. -/
def findUserByUsername (users : List User) (username : String) : Option User :=
  users.find? (fun user => decide (user.username = username) && user.isActive)

/-- The method `findUserById(id)` on the loaded user list; `id` is the value
read from the token, compared with `===`. -/
def findUserById (users : List User) (id : Option Json) : Option User :=
  users.find? (fun user => strictEqNum user.id id && user.isActive)

/-- The result of `authenticateRequest`: `{ authenticated: true, user }` or
`{ authenticated: false, error }`. -/
inductive AuthResult where
  | authenticated (user : Json)
  | rejected (error : String)
  deriving DecidableEq

/-- The method `authenticateRequest(req)`; `authorization` is
`req.headers.authorization`, `none` when the header is absent. -/
def authenticateRequest (N : Node) (secret : String) (users : List User) (now : Int)
    (authorization : Option String) : AuthResult :=
  match authorization with
  | none => AuthResult.rejected "No token provided"
  | some authHeader =>
    if authHeader = "" || !startsWith authHeader "Bearer " then
      AuthResult.rejected "No token provided"
    else
      let token : String := ⟨authHeader.data.drop 7⟩
      match verifyToken N secret now token with
      | Verification.invalid error => AuthResult.rejected error
      | Verification.valid payload =>
        match findUserById users (getProp payload "id") with
        | none => AuthResult.rejected "User not found or inactive"
        | some user =>
          AuthResult.authenticated
            (Json.obj (setProp (spread payload) "isAdmin"
              (Json.bool (decide (user.role = "admin")))))

/-! ## `server.js`: the admin gates -/

/-- What a handler does with the result of `authenticateRequest`: it answers
with an error status, or it goes on to its action. -/
inductive Gate where
  | refused (status : Nat) (error : String)
  | passed
  deriving DecidableEq

/-- The test `!authResult.authenticated || (!authResult.user.isAdmin &&
authResult.user.role !== 'admin')` of the handlers of `/api/users`,
`/api/images`, `/api/images/upload` and of `DELETE /api/images/:filename`. -/
def adminOrRoleDenied : AuthResult → Bool
  | AuthResult.rejected _ => true
  | AuthResult.authenticated user =>
    !truthy (getProp user "isAdmin") && !strictEqStr (getProp user "role") "admin"

/-- The test `!authResult.authenticated || !authResult.user.isAdmin` of the
handler of `POST /api/images/:filename/rename`. -/
def adminDenied : AuthResult → Bool
  | AuthResult.rejected _ => true
  | AuthResult.authenticated user => !truthy (getProp user "isAdmin")

/-- The routes of `server.js` that are reserved to administrators. -/
inductive AdminRoute where
  | usersGet
  | usersPost
  | imagesGet
  | imagesPost
  | imagesUploadPost
  | imagesDelete
  | imagesRenamePost
  deriving DecidableEq

/-- The first statement of the handler of an administrator route. -/
def adminGate (route : AdminRoute) (authResult : AuthResult) : Gate :=
  match route with
  | AdminRoute.usersGet | AdminRoute.usersPost =>
    if adminOrRoleDenied authResult then Gate.refused 401 "Admin access required"
    else Gate.passed
  | AdminRoute.imagesGet | AdminRoute.imagesPost | AdminRoute.imagesUploadPost
  | AdminRoute.imagesDelete =>
    if adminOrRoleDenied authResult then Gate.refused 403 "Forbidden" else Gate.passed
  | AdminRoute.imagesRenamePost =>
    if adminDenied authResult then Gate.refused 403 "Forbidden" else Gate.passed

/-! ## `JWTAuth`: login -/

/-- The method `hashPassword(password)` for a string `password`. -/
def hashPassword (N : Node) (password : String) : String :=
  N.sha256Hex password

/-- The method `verifyPassword(password, hash)` for a string `password`. -/
def verifyPassword (N : Node) (password hash : String) : Bool :=
  decide (hashPassword N password = hash)

/-- The user file that `initUserData` writes when none exists; `createdAt`
is `new Date().toISOString()`. -/
def defaultUsers (N : Node) (createdAt : String) : List User :=
  [{ id := 1, username := "admin", passwordHash := hashPassword N "cbdt2025",
     role := "admin", permissions := ["read", "write", "admin"],
     email := "admin@example.com", createdAt := createdAt, lastLogin := none,
     isActive := true }]

/-- The assignment `userData.users[userIndex].lastLogin = ...` of
`updateLastLogin`, `userIndex` being the first index whose `id` is `userId`. -/
def setLastLogin (isoNow : String) (userId : Int) : List User → List User
  | [] => []
  | user :: rest =>
    if user.id = userId then { user with lastLogin := some isoNow } :: rest
    else user :: setLastLogin isoNow userId rest

/-- The method `updateLastLogin(userId)` as a change of the user file;
`writable` tells whether `fs.writeFileSync` succeeds (`saveUsers` catches a
failure, and the file stays as it was). -/
def updateLastLogin (users : List User) (writable : Bool) (isoNow : String) (userId : Int) :
    List User :=
  if writable then setLastLogin isoNow userId users else users

/-- The result of `login`: `{ success: true, token, user }` or
`{ success: false, error }`. -/
inductive LoginResult where
  | success (token : String) (user : Json)
  | failure (error : String)
  deriving DecidableEq

/-- The claims that `login` hands to `generateToken`. -/
def loginClaims (user : User) : List (String × Json) :=
  [("id", Json.num user.id), ("username", Json.str user.username),
   ("role", Json.str user.role),
   ("permissions", Json.arr (user.permissions.map Json.str))]

/-- The `user` object of a successful `login`. -/
def loginUser (user : User) : Json :=
  Json.obj [("id", Json.num user.id), ("username", Json.str user.username),
    ("role", Json.str user.role),
    ("permissions", Json.arr (user.permissions.map Json.str)),
    ("email", Json.str user.email)]

/-- The method `login(username, password)` for strings `username` and
`password`: its result and the user file after it.  `now` is the time of
`generateToken`, `isoNow` the text of `new Date().toISOString()` in
`updateLastLogin`.  `loginValue` below is the method on any values. -/
def login (N : Node) (secret : String) (users : List User) (now : Int) (isoNow : String)
    (writable : Bool) (username password : String) : LoginResult × List User :=
  match findUserByUsername users username with
  | none => (LoginResult.failure "Invalid credentials", users)
  | some user =>
    if !verifyPassword N password user.passwordHash then
      (LoginResult.failure "Invalid credentials", users)
    else
      (LoginResult.success (generateToken N secret now (loginClaims user) "24h")
          (loginUser user),
        updateLastLogin users writable isoNow user.id)

/-- The method `hashPassword(password)` on a value of a request body:
`crypto.createHash('sha256').update(password)` throws a `TypeError` unless
`password` is a string; `none` is the throw. -/
def hashPasswordValue (N : Node) : Json → Option String
  | Json.str password => some (hashPassword N password)
  | _ => none

/-- The method `findUserByUsername(username)` on a value of a request body:
`user.username === username` holds for a string only. -/
def findUserByValue (users : List User) : Json → Option User
  | Json.str username => findUserByUsername users username
  | _ => none

/-- The method `login(username, password)` on the values of a request body;
`none` is the rejection of its promise, when `verifyPassword` throws. -/
def loginValue (N : Node) (secret : String) (users : List User) (now : Int) (isoNow : String)
    (writable : Bool) (username password : Json) : Option (LoginResult × List User) :=
  match findUserByValue users username with
  | none => some (LoginResult.failure "Invalid credentials", users)
  | some user =>
    match hashPasswordValue N password with
    | none => none
    | some passwordHash =>
      if passwordHash ≠ user.passwordHash then
        some (LoginResult.failure "Invalid credentials", users)
      else
        some (LoginResult.success (generateToken N secret now (loginClaims user) "24h")
            (loginUser user),
          updateLastLogin users writable isoNow user.id)

/-- An answer of the server: the status and the JSON body. -/
structure Response where
  status : Nat
  body : Json
  deriving DecidableEq

/-- The handler of `POST /api/auth/login` on the text of the request body:
its answer and the user file after it.  The `catch` answers 400 'Invalid
JSON' to every throw: of `JSON.parse`, of the destructuring of `null`, and
of `auth.login`. -/
def loginRoute (N : Node) (secret : String) (users : List User) (now : Int) (isoNow : String)
    (writable : Bool) (body : String) : Response × List User :=
  match N.parse body with
  | none => ({ status := 400, body := Json.obj [("error", Json.str "Invalid JSON")] }, users)
  | some Json.null =>
    ({ status := 400, body := Json.obj [("error", Json.str "Invalid JSON")] }, users)
  | some data =>
    if !truthy (getProp data "username") || !truthy (getProp data "password") then
      ({ status := 400,
         body := Json.obj [("error", Json.str "Username and password are required")] }, users)
    else
      match loginValue N secret users now isoNow writable
          ((getProp data "username").getD Json.null)
          ((getProp data "password").getD Json.null) with
      | none =>
        ({ status := 400, body := Json.obj [("error", Json.str "Invalid JSON")] }, users)
      | some (LoginResult.success token user, users1) =>
        ({ status := 200,
           body := Json.obj [("success", Json.bool true), ("token", Json.str token),
             ("user", user)] }, users1)
      | some (LoginResult.failure error, users1) =>
        ({ status := 401, body := Json.obj [("error", Json.str error)] }, users1)

/-! ## `server.js`: the multipart parser -/

/-- The call `Buffer.from(str)`: the UTF-8 bytes of a string. -/
def bufferFrom (str : String) : List Nat :=
  Ref.utf8Encode str.data

/-- A part object of `parseMultipart`. -/
structure Part where
  name : String
  data : List Nat
  filename : Option String
  contentType : Option String
  deriving DecidableEq

/-- The test that `needle` stands at the head of `hay`. -/
def startsWithBytes (needle hay : List Nat) : Bool :=
  decide (hay.take needle.length = needle)

/-- The first position, counted from `pos`, at which `needle` stands in `hay`. -/
def findFrom (needle : List Nat) : List Nat → Nat → Option Nat
  | [], pos => if needle = [] then some pos else none
  | b :: rest, pos =>
    if startsWithBytes needle (b :: rest) then some pos else findFrom needle rest (pos + 1)

/-- The call `buf.indexOf(needle, start)`; `none` is -1. -/
def indexOf (needle buf : List Nat) (start : Nat) : Option Nat :=
  findFrom needle (buf.drop (min start buf.length)) (min start buf.length)

/-- The call `buf.slice(start, stop)`. -/
def slice (buf : List Nat) (start stop : Nat) : List Nat :=
  (buf.take stop).drop start

/-- The comparison `a < b` of two results of `indexOf`, -1 being `none`. -/
def indexLess : Option Nat → Option Nat → Bool
  | none, some _ => true
  | some a, some b => decide (a < b)
  | _, none => false

/-- The bytes of `'\r\n\r\n'`. -/
def blankLine : List Nat := [13, 10, 13, 10]

/-- The match of `/key([^"]+)"/` at the head of a text, `key` being the
literal text up to and with the opening quote: the captured run. -/
def quotedAt (key s : List Char) : Option (List Char) :=
  if s.take key.length = key then
    let run := (s.drop key.length).takeWhile (fun c => decide (c ≠ '"'))
    if run ≠ [] ∧ (s.drop (key.length + run.length)).head? = some '"' then some run
    else none
  else none

/-- The leftmost match of a pattern in a text, `matchAt` being the match
of the pattern at the head of a text: what `str.match(regexp)` captures. -/
def firstMatch (matchAt : List Char → Option (List Char)) : List Char → Option (List Char)
  | [] => none
  | c :: cs =>
    match matchAt (c :: cs) with
    | some run => some run
    | none => firstMatch matchAt cs

/-- The call `str.match(/key([^"]+)"/)`: the capture of the leftmost match. -/
def matchQuoted (key : List Char) (s : List Char) : Option (List Char) :=
  firstMatch (quotedAt key) s

/-- The match of `/key([^\r\n]+)/` at the head of a text: the captured run. -/
def lineAt (key s : List Char) : Option (List Char) :=
  if s.take key.length = key then
    let run := (s.drop key.length).takeWhile (fun c => decide (c ≠ '\r' ∧ c ≠ '\n'))
    if run ≠ [] then some run else none
  else none

/-- The call `str.match(/key([^\r\n]+)/)`: the capture of the leftmost match. -/
def matchLine (key : List Char) (s : List Char) : Option (List Char) :=
  firstMatch (lineAt key) s

/-- The literal text of `/name="([^"]+)"/` before the capture. -/
def nameKey : List Char := ['n', 'a', 'm', 'e', '=', '"']

/-- The literal text of `/filename="([^"]+)"/` before the capture. -/
def filenameKey : List Char := ['f', 'i', 'l', 'e', 'n', 'a', 'm', 'e', '=', '"']

/-- The literal text of `/Content-Type: ([^\r\n]+)/` before the capture. -/
def contentTypeKey : List Char :=
  ['C', 'o', 'n', 't', 'e', 'n', 't', '-', 'T', 'y', 'p', 'e', ':', ' ']

/-- The body of `if (start > 0)` in `parseMultipart`, on the bytes
`partData` between two delimiters: the part that is pushed, if any. -/
def readPart (N : Node) (partData : List Nat) : Option Part :=
  match indexOf blankLine partData 0 with
  | none => none
  | some headerEnd =>
    let headerStr := N.bufferToString (partData.take headerEnd)
    let content := partData.drop (headerEnd + 4)
    match matchQuoted nameKey headerStr.data with
    | none => none
    | some name =>
      some { name := ⟨name⟩, data := content,
             filename := (matchQuoted filenameKey headerStr.data).map String.mk,
             contentType := (matchLine contentTypeKey headerStr.data).map String.mk }

/-- The parts after one more segment has been looked at. -/
def pushPart (N : Node) (parts : List Part) (partData : List Nat) : List Part :=
  match readPart N partData with
  | some part => parts ++ [part]
  | none => parts

/-- The `while` loop of `parseMultipart`, entered with the current `start`,
`end` and `parts`; `fuel` bounds the number of iterations, and `none` tells
that it did not suffice. -/
def parseLoop (N : Node) (body boundaryBuffer endBoundaryBuffer : List Nat) :
    Nat → Nat → Option Nat → List Part → Option (List Part)
  | _, _, none, parts => some parts
  | 0, _, some _, _ => none
  | fuel + 1, start, some stop, parts =>
    let parts1 := if start > 0 then pushPart N parts (slice body start stop) else parts
    let start1 := stop + boundaryBuffer.length + 2
    let stop1 := indexOf boundaryBuffer body start1
    if indexLess (indexOf endBoundaryBuffer body start1) stop1 || stop1 = none then some parts1
    else parseLoop N body boundaryBuffer endBoundaryBuffer fuel start1 stop1 parts1

/-- The function `parseMultipart(body, boundary)`.  Every iteration moves
`start` forward, so `body.length + 1` iterations suffice. -/
def parseMultipart (N : Node) (body : List Nat) (boundary : String) : Option (List Part) :=
  parseLoop N body (bufferFrom ("--" ++ boundary)) (bufferFrom ("--" ++ boundary ++ "--"))
    (body.length + 1) 0 (indexOf (bufferFrom ("--" ++ boundary)) body 0) []

/-! ## `server.js`: uploads -/

/-- What an upload handler does with the parsed parts: it answers with an
error, or it writes files (path or original name, and content). -/
inductive UploadAnswer where
  | rejected (status : Nat) (error : String)
  | written (files : List (String × List Nat))
  deriving DecidableEq

/-- The list `allowedTypes` of `POST /api/upload/image`. -/
def allowedTypes : List String :=
  ["image/jpeg", "image/jpg", "image/png", "image/gif", "image/webp"]

/-- The constant `maxSize` of `POST /api/upload/image`. -/
def maxSize : Nat := 5 * 1024 * 1024

/-- The test `part.filename && part.contentType &&
part.contentType.startsWith('image/')`. -/
def isImagePart (part : Part) : Bool :=
  match part.filename, part.contentType with
  | some filename, some contentType =>
    decide (filename ≠ "") && decide (contentType ≠ "") && startsWith contentType "image/"
  | _, _ => false

/-- The handler of `POST /api/upload/image` once the body is parsed: the
file it writes is named by `generateSafeFilename`, here by the original
name. -/
def uploadImage (parts : List Part) : UploadAnswer :=
  match parts.find? isImagePart with
  | none => UploadAnswer.rejected 400 "No image file found"
  | some imagePart =>
    if !allowedTypes.contains (imagePart.contentType.getD "") then
      UploadAnswer.rejected 400 "Unsupported image format. Allowed: jpg, png, gif, webp"
    else if imagePart.data.length > maxSize then
      UploadAnswer.rejected 400 "Image size too large. Maximum size is 5MB"
    else UploadAnswer.written [(imagePart.filename.getD "", imagePart.data)]

/-- The handler of `POST /api/images/upload` once the body is parsed: every
part with a filename is written under that name. -/
def imagesUpload (parts : List Part) : UploadAnswer :=
  UploadAnswer.written
    (parts.filterMap (fun part =>
      match part.filename with
      | some filename => if filename ≠ "" then some (filename, part.data) else none
      | none => none))

/-! ## `server.js`: static files -/

/-- The segments of a normalised absolute path: empty and `.` segments go,
`..` removes the segment before it and is dropped at the root. -/
def normalizeSegments : List (List Char) → List (List Char) → List (List Char)
  | stack, [] => stack.reverse
  | stack, seg :: rest =>
    if seg = [] ∨ seg = ['.'] then normalizeSegments stack rest
    else if seg = ['.', '.'] then normalizeSegments (stack.drop 1) rest
    else normalizeSegments (seg :: stack) rest

/-- The call `segments.join('/')`. -/
def joinSlash : List (List Char) → List Char
  | [] => []
  | [x] => x
  | x :: y :: rest => x ++ '/' :: joinSlash (y :: rest)

/-- The call `path.join(dir, rel)` of POSIX for an absolute `dir`. -/
def pathJoin (dir rel : String) : String :=
  let joined := if rel.data = [] then dir.data else dir.data ++ '/' :: rel.data
  let segments := normalizeSegments [] (splitOn '/' joined)
  if segments = [] then "/"
  else ⟨'/' :: joinSlash segments ++ (if joined.getLast? = some '/' then ['/'] else [])⟩

/-- The constant `UPLOAD_DIR`, `root` being `__dirname`. -/
def uploadDir (root : String) : String :=
  pathJoin root "uploads"

/-- What the request callback does with a path: it hands it to the API
routes, answers 403, or looks the file up (`fs.stat`) and serves it. -/
inductive StaticAnswer where
  | api
  | forbidden
  | stat (filePath : String)
  deriving DecidableEq

/-- The request callback of `http.createServer` on the `pathname` of a
request other than `OPTIONS`; in the `/uploads/` branches `pathname` starts
with `'/uploads/'`, which `replace('/uploads/', '')` removes. -/
def routeStatic (root pathname : String) : StaticAnswer :=
  if startsWith pathname "/uploads/" then
    StaticAnswer.stat (pathJoin (uploadDir root) ⟨pathname.data.drop 9⟩)
  else if startsWith pathname "/api/" then StaticAnswer.api
  else
    let filePath :=
      if startsWith pathname "/uploads/" then pathJoin (uploadDir root) ⟨pathname.data.drop 9⟩
      else pathJoin root (if pathname = "/" then "/index.html" else pathname)
    if !startsWith filePath root && !startsWith filePath (uploadDir root) then
      StaticAnswer.forbidden
    else StaticAnswer.stat filePath

/-! ## The standard multipart encoding

The encoding of a list of parts that the fidelity claims start from
(RFC 7578): it is the input of `parseMultipart` there, not code of the
server. -/

/-- The text `Content-Disposition: form-data; ` that opens a header block. -/
def dispositionText : List Char :=
  "Content-Disposition: form-data; ".data

/-- The filename parameter of a header block, when the part declares one. -/
def filenameText : Option String → List Char
  | none => []
  | some filename => ';' :: ' ' :: filenameKey ++ filename.data ++ ['"']

/-- The `Content-Type` line of a header block, when the part declares one. -/
def contentTypeText : Option String → List Char
  | none => []
  | some contentType => '\r' :: '\n' :: contentTypeKey ++ contentType.data

/-- The header block of a part: the disposition line with the name and the
filename, then the content type line. -/
def headerText (part : Part) : String :=
  ⟨dispositionText ++ (nameKey ++ (part.name.data ++
    '"' :: (filenameText part.filename ++ contentTypeText part.contentType)))⟩

/-- The bytes that encode a part between its delimiter line and the next
delimiter: the header block, a blank line, the data, a line end. -/
def encodeSegment (part : Part) : List Nat :=
  bufferFrom (headerText part) ++ (blankLine ++ (part.data ++ [13, 10]))

/-- The bytes behind the first delimiter: for every part a line end, its
segment and a delimiter, then `--` and the epilogue. -/
def encodeTail (delimiter : List Nat) (epilogue : List Nat) : List Part → List Nat
  | [] => 45 :: 45 :: epilogue
  | part :: rest =>
    13 :: 10 :: (encodeSegment part ++ (delimiter ++ encodeTail delimiter epilogue rest))

/-- The multipart body of a list of parts, closed by `--boundary--` and
followed by `epilogue`. -/
def encodeBody (boundary : String) (parts : List Part) (epilogue : List Nat) : List Nat :=
  bufferFrom ("--" ++ boundary) ++ encodeTail (bufferFrom ("--" ++ boundary)) epilogue parts

/-- A part that the patterns of `parseMultipart` read back from its
encoding: the name is not empty, has no quote, does not end in `filename=`
and does not hold `Content-Type: `; a filename is not empty, has no quote
and does not hold `Content-Type: `; a content type is not empty and has no
quote, CR or LF; the header bytes hold no blank line and decode to the
header text; the delimiter does not stand in the segment before its end. -/
structure PlainPart (N : Node) (boundary : String) (part : Part) : Prop where
  name_ne : part.name.data ≠ []
  name_quote : '"' ∉ part.name.data
  name_end : ¬ filenameKey.dropLast <:+ part.name.data
  name_type : ¬ contentTypeKey <:+: part.name.data
  filename_ok : ∀ filename, part.filename = some filename →
    filename.data ≠ [] ∧ '"' ∉ filename.data ∧ ¬ contentTypeKey <:+: filename.data
  contentType_ok : ∀ contentType, part.contentType = some contentType →
    contentType.data ≠ [] ∧ '"' ∉ contentType.data ∧ '\r' ∉ contentType.data
      ∧ '\n' ∉ contentType.data
  blank : indexOf blankLine (bufferFrom (headerText part) ++ blankLine) 0
    = some (bufferFrom (headerText part)).length
  delimiter : indexOf (bufferFrom ("--" ++ boundary))
      (encodeSegment part ++ bufferFrom ("--" ++ boundary)) 0
    = some (encodeSegment part).length
  decoded : N.bufferToString (bufferFrom (headerText part)) = headerText part

/-- The part as `parseMultipart` returns it from the encoding: `data` keeps
the line end that precedes the next delimiter. -/
def received (part : Part) : Part :=
  { part with data := part.data ++ [13, 10] }

/-! ## `server.js`: the API routes -/

/-- The table `apiHandlers`: its keys, each with the methods it defines. -/
def apiHandlers : List (String × List String) :=
  [("/api/images", ["GET", "POST"]),
   ("/api/images/upload", ["POST"]),
   ("/api/images/", ["DELETE", "POST"]),
   ("/api/blog/posts", ["GET", "POST", "DELETE"]),
   ("/api/blog/comments", ["GET", "POST"]),
   ("/api/auth/login", ["POST"]),
   ("/api/blog/views", ["POST"]),
   ("/api/auth/verify", ["GET"]),
   ("/api/auth/password", ["POST"]),
   ("/api/users", ["GET", "POST"]),
   ("/api/upload/image", ["POST"]),
   ("/api/gallery/list", ["GET"]),
   ("/api/gallery/delete", ["POST"])]

/-- The test `apiHandlers[path] && apiHandlers[path][method]`, for a path
that starts with `/` and a method of HTTP (no inherited property bears such
a name). -/
def hasHandler (path method : String) : Bool :=
  match apiHandlers.find? (fun entry => decide (entry.1 = path)) with
  | some entry => entry.2.contains method
  | none => false

/-- The test `/^\/api\/images\/[^\/]+\/rename$/.test(pathname)`. -/
def isRenamePath (pathname : String) : Bool :=
  startsWith pathname "/api/images/" &&
    (let rest := pathname.data.drop 12
     let segment := rest.takeWhile (fun c => decide (c ≠ '/'))
     decide (segment ≠ []) && decide (rest.drop segment.length = "/rename".data))

/-- The test `/^\/api\/images\/[^\/]+$/.test(pathname)`. -/
def isImagePath (pathname : String) : Bool :=
  startsWith pathname "/api/images/" &&
    (let rest := pathname.data.drop 12
     decide (rest ≠ []) && decide ('/' ∉ rest))

/-- What the request callback does with a request for a path under `/api/`:
the answer 200 to `OPTIONS`, the call of `apiHandlers[path][method]`, or the
answer 404 'API endpoint not found'. -/
inductive Dispatch where
  | preflight
  | handler (path method : String)
  | notFound
  deriving DecidableEq

/-- The block `if (pathname.startsWith('/api/'))` of the request callback. -/
def dispatchApi (method pathname : String) : Dispatch :=
  if pathname = "/api/images" ∧ hasHandler "/api/images" method = true then
    Dispatch.handler "/api/images" method
  else if pathname = "/api/images/upload" ∧ hasHandler "/api/images/upload" method = true then
    Dispatch.handler "/api/images/upload" method
  else if isRenamePath pathname = true ∧ method = "POST" then
    Dispatch.handler "/api/images/" "POST"
  else if isImagePath pathname = true ∧ method = "DELETE" then
    Dispatch.handler "/api/images/" "DELETE"
  else if hasHandler pathname method = true then Dispatch.handler pathname method
  else Dispatch.notFound

/-- The request callback on a path under `/api/`: `OPTIONS` is answered
before any routing. -/
def dispatch (method pathname : String) : Dispatch :=
  if method = "OPTIONS" then Dispatch.preflight else dispatchApi method pathname

/-! ## `server.js`: the bearer gates -/

/-- The routes of `server.js` whose handler starts with
`auth.authenticateRequest(req)` and that the route list marks as requiring a
bearer token. -/
inductive BearerRoute where
  | blogPostsPost
  | blogPostsDelete
  | authPasswordPost
  | usersGet
  | usersPost
  | uploadImagePost
  | imagesUploadPost
  | galleryListGet
  | galleryDeletePost
  deriving DecidableEq

/-- The test `if (!authResult.authenticated)` and its answer 401 with the
error of `authenticateRequest`. -/
def tokenGate : AuthResult → Gate
  | AuthResult.rejected error => Gate.refused 401 error
  | AuthResult.authenticated _ => Gate.passed

/-- The first statements of the handler of a bearer route. -/
def bearerGate (route : BearerRoute) (authResult : AuthResult) : Gate :=
  match route with
  | BearerRoute.usersGet => adminGate AdminRoute.usersGet authResult
  | BearerRoute.usersPost => adminGate AdminRoute.usersPost authResult
  | BearerRoute.imagesUploadPost => adminGate AdminRoute.imagesUploadPost authResult
  | _ => tokenGate authResult

/-- An access to the storage of the server: the user file, the post file,
the upload directory. -/
inductive Access where
  | readUsers
  | writeUsers
  | readPosts
  | writePosts
  | readUploads
  | writeUploads
  | deleteUploads
  deriving DecidableEq

/-- The storage accesses of `authenticateRequest(req)`: `findUserById` reads
the user file (`loadUsers`) once `verifyToken` has accepted the token, and
nothing is read before. -/
def authenticateAccesses (N : Node) (secret : String) (now : Int)
    (authorization : Option String) : List Access :=
  match authorization with
  | none => []
  | some authHeader =>
    if authHeader = "" || !startsWith authHeader "Bearer " then []
    else
      match verifyToken N secret now ⟨authHeader.data.drop 7⟩ with
      | Verification.invalid _ => []
      | Verification.valid _ => [Access.readUsers]

/-- The storage accesses that the handler of a bearer route makes behind its
gate on a well-formed request: `fs.writeFile` of the posts; `fs.readFile`
and `fs.writeFile` of the posts; `changePassword` (`findUserById`, then
`loadUsers` and `saveUsers`); `getAllUsers`; `addUser` (`loadUsers`,
`saveUsers`); the written upload; `fs.readdir` and `fs.stat` of the uploads;
`fs.access` and `fs.unlink` of the uploads. -/
def routeAccesses : BearerRoute → List Access
  | BearerRoute.blogPostsPost => [Access.writePosts]
  | BearerRoute.blogPostsDelete => [Access.readPosts, Access.writePosts]
  | BearerRoute.authPasswordPost => [Access.readUsers, Access.readUsers, Access.writeUsers]
  | BearerRoute.usersGet => [Access.readUsers]
  | BearerRoute.usersPost => [Access.readUsers, Access.writeUsers]
  | BearerRoute.uploadImagePost => [Access.writeUploads]
  | BearerRoute.imagesUploadPost => [Access.writeUploads]
  | BearerRoute.galleryListGet => [Access.readUploads]
  | BearerRoute.galleryDeletePost => [Access.readUploads, Access.deleteUploads]

/-- What the handler of a bearer route does with a request: it refuses it
with a status and a JSON body and returns, or it goes on to its action;
either way with the storage accesses of the request. -/
inductive Handled where
  | refused (accesses : List Access) (status : Nat) (body : Json)
  | served (accesses : List Access)
  deriving DecidableEq

/-- The handler of a bearer route on a request with the given
`Authorization` header: `authenticateRequest`, the gate, and the rest of the
handler unless the gate refused. -/
def handle (N : Node) (secret : String) (users : List User) (now : Int) (route : BearerRoute)
    (authorization : Option String) : Handled :=
  match bearerGate route (authenticateRequest N secret users now authorization) with
  | Gate.refused status error =>
    Handled.refused (authenticateAccesses N secret now authorization) status
      (Json.obj [("error", Json.str error)])
  | Gate.passed =>
    Handled.served (authenticateAccesses N secret now authorization ++ routeAccesses route)

/-! ## `server.js`: deleting from the gallery -/

/-- The call `str.includes(text)`. -/
def includes (str text : String) : Bool :=
  decide (text.data <:+: str.data)

/-- A call of the file system made for a file of the gallery. -/
inductive FsCall where
  | access (filePath : String)
  | unlink (filePath : String)
  deriving DecidableEq

/-- The result `deletePromises` resolves to for one filename, and the
file-system calls made for it. -/
structure Deletion where
  filename : String
  success : Bool
  error : Option String
  calls : List FsCall
  deriving DecidableEq

/-- The body of `filenames.map(filename => ...)` in `POST
/api/gallery/delete`; `accessOk` and `unlinkOk` tell whether `fs.access` and
`fs.unlink` succeed on a path. -/
def galleryDeleteOne (root : String) (accessOk unlinkOk : String → Bool) (filename : String) :
    Deletion :=
  if includes filename ".." || includes filename "/" || includes filename "\\" then
    { filename := filename, success := false, error := some "非法文件名", calls := [] }
  else
    let filePath := pathJoin (uploadDir root) filename
    if !accessOk filePath then
      { filename := filename, success := false, error := some "文件不存在",
        calls := [FsCall.access filePath] }
    else if !unlinkOk filePath then
      { filename := filename, success := false, error := some "删除失败",
        calls := [FsCall.access filePath, FsCall.unlink filePath] }
    else
      { filename := filename, success := true, error := none,
        calls := [FsCall.access filePath, FsCall.unlink filePath] }

/-- The answer of `POST /api/gallery/delete` to an array of filenames: 400
for the empty array, the per-file results otherwise. -/
inductive GalleryAnswer where
  | rejected (status : Nat) (error : String)
  | results (items : List Deletion)
  deriving DecidableEq

/-- The handler of `POST /api/gallery/delete` behind its gate, on the array
`data.filenames` of strings. -/
def galleryDelete (root : String) (accessOk unlinkOk : String → Bool) (filenames : List String) :
    GalleryAnswer :=
  if filenames = [] then GalleryAnswer.rejected 400 "请提供要删除的文件名列表"
  else GalleryAnswer.results (filenames.map (galleryDeleteOne root accessOk unlinkOk))

/-- A segment of a normalised path: not empty, neither `.` nor `..`, and
without `/`. -/
def CleanSegment (seg : List Char) : Prop :=
  seg ≠ [] ∧ seg ≠ ['.'] ∧ seg ≠ ['.', '.'] ∧ '/' ∉ seg

/-! ## `JWTAuth`: adding a user -/

/-- The argument of `addUser`: a string `username`, the value `password` of
the request body; `role`, `permissions` and `email` may be missing. -/
structure UserData where
  username : String
  password : Json
  role : Option String
  permissions : Option (List String)
  email : Option String
  deriving DecidableEq

/-- The expression `value || fallback` for a string that may be missing. -/
def orString (value : Option String) (fallback : String) : String :=
  match value with
  | some text => if text = "" then fallback else text
  | none => fallback

/-- The expression `Math.max(...users.map(u => u.id), 0)`: the ids are
doubles, and the maximum of doubles is one of them, or 0. -/
def maxId : List User → Int
  | [] => 0
  | user :: rest => max user.id (maxId rest)

/-- The sum `n + 1` of doubles, for a double `n` that is a non-negative
integer.  Below 2^53 = 9007199254740992 it is exact.  From 2^53 to 2^54 the
doubles are the even integers and `n + 1` lies half-way between two of them:
it rounds to the one with the even significand, `n` when `n` is a multiple
of 4 and `n + 2` otherwise.  From 2^54 on it rounds back to `n`. -/
def plusOne (n : Int) : Int :=
  if n < 9007199254740992 then n + 1
  else if n < 18014398509481984 then (if n % 4 = 0 then n else n + 2)
  else n

/-- The object `newUser` of `addUser`, `passwordHash` being the result of
`this.hashPassword(userData.password)`. -/
def newUser (users : List User) (isoNow : String) (userData : UserData)
    (passwordHash : String) : User :=
  { id := plusOne (maxId users),
    username := userData.username,
    passwordHash := passwordHash,
    role := orString userData.role "user",
    permissions := userData.permissions.getD ["read"],
    email := orString userData.email "",
    createdAt := isoNow,
    lastLogin := none,
    isActive := true }

/-- The result of `addUser`: `success: true` with the new user, or `success:
false` with an error. -/
inductive AddUserResult where
  | success (user : User)
  | failure (error : String)
  deriving DecidableEq

/-- The method `addUser(userData)` on the loaded user list: the result and
the user list of the file afterwards.  `writable` tells whether `saveUsers`
can write the file, `isoNow` is `new Date().toISOString()`.  When
`hashPassword` throws, the `catch` answers 'Internal error'.  The answer
carries the new user with `passwordHash: undefined`, here with the hash. -/
def addUser (N : Node) (users : List User) (writable : Bool) (isoNow : String)
    (userData : UserData) : AddUserResult × List User :=
  match users.find? (fun user => decide (user.username = userData.username)) with
  | some _ => (AddUserResult.failure "Username already exists", users)
  | none =>
    match hashPasswordValue N userData.password with
    | none => (AddUserResult.failure "Internal error", users)
    | some passwordHash =>
      if writable then
        (AddUserResult.success (newUser users isoNow userData passwordHash),
          users ++ [newUser users isoNow userData passwordHash])
      else (AddUserResult.failure "Failed to save user", users)

/-- The store invariant: positive ids, pairwise distinct ids, pairwise
distinct usernames. -/
def ValidStore (users : List User) : Prop :=
  (∀ user ∈ users, 0 < user.id)
    ∧ users.Pairwise (fun a b => a.id ≠ b.id)
    ∧ users.Pairwise (fun a b => a.username ≠ b.username)

/-! ## `blog-manager.js`: the post and comment store

The operations are taken on a manager whose posts are loaded (`isLoaded`),
so that `loadData()` returns at once.  The posts carry a numeric `id`; the
object `this.comments` is a map from the post id, as a property name, to the
array of the comments of the post. -/

/-- The in-memory data of a `BlogManager`: `this.posts` and `this.comments`. -/
structure Blog where
  posts : List Json
  comments : String → Option (List Json)

/-- What a `fetch` of `/api/blog/comments` gives: an answer with
`response.ok` and the comment object, another answer, or an error. -/
inductive Fetched where
  | ok (data : String → Option (List Json))
  | notOk
  | failed

/-- The method `loadComments()`. -/
def loadComments (fetched : Fetched) (comments : String → Option (List Json)) :
    String → Option (List Json) :=
  match fetched with
  | Fetched.ok data => data
  | Fetched.notOk => comments
  | Fetched.failed => fun _ => none

/-- The assignment `object[key] = value`, and `delete object[key]` for the
value `none`. -/
def setKey (object : String → Option (List Json)) (key : String) (value : Option (List Json)) :
    String → Option (List Json) :=
  fun k => if k = key then value else object k

/-- The object spread `{ ...target, ...source }` on field lists. -/
def assign (target source : List (String × Json)) : List (String × Json) :=
  source.foldl (fun fields kv => setProp fields kv.1 kv.2) target

/-- The test `item.id === id` for a number `id`. -/
def hasId (id : Option Int) (item : Json) : Bool :=
  match id, getProp item "id" with
  | some n, some (Json.num m) => decide (m = n)
  | _, _ => false

/-- The call `items.findIndex(test)`; `none` is -1. -/
def findIndex (test : Json → Bool) : List Json → Option Nat
  | [] => none
  | item :: rest => if test item then some 0 else (findIndex test rest).map (fun i => i + 1)

/-- The call `items.splice(index, 1)`. -/
def removeAt (index : Nat) (items : List Json) : List Json :=
  items.take index ++ items.drop (index + 1)

/-- The call `items.splice(index, 0, item)`. -/
def insertAt (index : Nat) (item : Json) (items : List Json) : List Json :=
  items.take index ++ item :: items.drop index

/-- The number `post.id` of a post. -/
def idOf (post : Json) : Int :=
  match getProp post "id" with
  | some (Json.num n) => n
  | _ => 0

/-- The expression `Math.max(...this.posts.map(post => post.id), 0)`. -/
def maxPostId : List Json → Int
  | [] => 0
  | post :: rest => max (idOf post) (maxPostId rest)

/-- The field `key: original.key` of an object literal: the value of the
original, and no field when the original has none (`undefined`). -/
def keepField (original : Json) (key : String) (fields : List (String × Json)) :
    List (String × Json) :=
  match getProp original key with
  | some value => setProp fields key value
  | none => fields.filter (fun kv => decide (kv.1 ≠ key))

/-- The method `addPost(postData)`; `saved` is the result of `saveData()`,
`today` is `new Date().toISOString().split('T')[0]`. -/
def addPost (saved : Bool) (today : String) (postData : Json) (blog : Blog) :
    Option Json × Blog :=
  let newPost := Json.obj
    (setProp (setProp (setProp
      (assign [("id", Json.num (maxPostId blog.posts + 1))] (spread postData))
      "date" (Json.str today)) "published" (Json.bool true)) "views" (Json.num 0))
  let pushed := blog.posts ++ [newPost]
  if saved then (some newPost, { blog with posts := pushed })
  else (none, { blog with posts := pushed.dropLast })

/-- The method `updatePost(id, postData)`. -/
def updatePost (saved : Bool) (id : String) (postData : Json) (blog : Blog) :
    Option Json × Blog :=
  match findIndex (hasId (parseInt id)) blog.posts with
  | none => (none, blog)
  | some index =>
    let originalPost := blog.posts.getD index Json.null
    let updated := Json.obj
      (keepField originalPost "views" (keepField originalPost "date" (keepField originalPost "id"
        (assign (spread originalPost) (spread postData)))))
    let written := blog.posts.set index updated
    if saved then (some updated, { blog with posts := written })
    else (none, { blog with posts := written.set index originalPost })

/-- The method `addOrUpdatePost(postData)`. -/
def addOrUpdatePost (saved : Bool) (postData : Json) (blog : Blog) : Option Json × Blog :=
  if truthy (getProp postData "id") then
    match findIndex (fun post => decide (getProp post "id" = getProp postData "id"))
        blog.posts with
    | none => (none, blog)
    | some index =>
      let updated := Json.obj
        (assign (spread (blog.posts.getD index Json.null)) (spread postData))
      (if saved then some updated else none, { blog with posts := blog.posts.set index updated })
  else
    let newPost := Json.obj
      (assign [("id", Json.num (maxPostId blog.posts + 1)), ("views", Json.num 0)]
        (spread postData))
    (if saved then some newPost else none, { blog with posts := blog.posts ++ [newPost] })

/-- The local fallback of `deletePost(id)`, taken when the server cannot be
reached; `postSaved` and `commentsSaved` are the results of `saveData()` and
`saveComments()`. -/
def deletePostLocal (postSaved commentsSaved : Bool) (id : String) (blog : Blog) : Bool × Blog :=
  match findIndex (hasId (parseInt id)) blog.posts with
  | none => (false, blog)
  | some index =>
    let deletedPost := blog.posts.getD index Json.null
    let spliced := removeAt index blog.posts
    let comments := setKey blog.comments id none
    if postSaved && commentsSaved then (true, { posts := spliced, comments := comments })
    else (false, { posts := insertAt index deletedPost spliced, comments := comments })

/-- The method `addComment(postId, commentData)`; `now` is `Date.now()`,
`isoNow` is `new Date().toISOString()`, `saved` the result of
`saveComments()`. -/
def addComment (fetched : Fetched) (saved : Bool) (now : Int) (isoNow : String)
    (postId : String) (commentData : Json) (blog : Blog) : Option Json × Blog :=
  let comments := loadComments fetched blog.comments
  let newComment := Json.obj
    (setProp (setProp (assign [("id", Json.num now)] (spread commentData))
      "timestamp" (Json.str isoNow)) "replies" (Json.arr []))
  let comments1 := setKey comments postId (some ((comments postId).getD [] ++ [newComment]))
  (if saved then some newComment else none, { blog with comments := comments1 })

/-- The array `comment.replies`, empty when the comment has none. -/
def repliesOf (comment : Json) : List Json :=
  match getProp comment "replies" with
  | some (Json.arr replies) => replies
  | _ => []

/-- The assignment `comment.replies = replies`. -/
def withReplies (comment : Json) (replies : List Json) : Json :=
  Json.obj (setProp (spread comment) "replies" (Json.arr replies))

/-- The method `addReply(postId, commentId, replyData)`. -/
def addReply (fetched : Fetched) (saved : Bool) (now : Int) (isoNow : String)
    (postId : String) (commentId : Int) (replyData : Json) (blog : Blog) : Option Json × Blog :=
  let comments := loadComments fetched blog.comments
  let list := (comments postId).getD []
  match findIndex (hasId (some commentId)) list with
  | none => (none, { blog with comments := comments })
  | some index =>
    let comment := list.getD index Json.null
    let newReply := Json.obj
      (setProp (assign [("id", Json.num now)] (spread replyData)) "timestamp" (Json.str isoNow))
    let list1 := list.set index (withReplies comment (repliesOf comment ++ [newReply]))
    (if saved then some newReply else none,
      { blog with comments := setKey comments postId (some list1) })

/-- The method `deleteComment(postId, commentId)`. -/
def deleteComment (fetched : Fetched) (saved : Bool) (postId : String) (commentId : Int)
    (blog : Blog) : Bool × Blog :=
  let comments := loadComments fetched blog.comments
  let list := (comments postId).getD []
  match findIndex (hasId (some commentId)) list with
  | none => (false, { blog with comments := comments })
  | some index =>
    (saved, { blog with comments := setKey comments postId (some (removeAt index list)) })

/-- The method `deleteReply(postId, commentId, replyId)`. -/
def deleteReply (fetched : Fetched) (saved : Bool) (postId : String) (commentId replyId : Int)
    (blog : Blog) : Bool × Blog :=
  let comments := loadComments fetched blog.comments
  let list := (comments postId).getD []
  match findIndex (hasId (some commentId)) list with
  | none => (false, { blog with comments := comments })
  | some index =>
    let comment := list.getD index Json.null
    match getProp comment "replies" with
    | some (Json.arr replies) =>
      match findIndex (hasId (some replyId)) replies with
      | none => (false, { blog with comments := comments })
      | some replyIndex =>
        let list1 := list.set index (withReplies comment (removeAt replyIndex replies))
        (saved, { blog with comments := setKey comments postId (some list1) })
    | _ => (false, { blog with comments := comments })

/-! ## Facts about the built-ins that the theorems rest on -/

/-- A character of the standard base64 alphabet. -/
def isBase64Char (c : Char) : Bool :=
  c.isAlphanum || decide (c = '+') || decide (c = '/')

/-- The characters of a base64 text before its padding. -/
def base64Body (s : String) : List Char :=
  s.data.takeWhile isBase64Char

/-- A base64 text: characters of the alphabet, then nothing but `=`. -/
def isBase64Text (s : String) : Bool :=
  (s.data.dropWhile isBase64Char).all (fun c => decide (c = '='))

/-- The built-ins write the header, the claims and the signature of a token
as base64 text. -/
structure Encodes (N : Node) (secret : String) (claims : Json) : Prop where
  header : isBase64Text (N.toBase64 (N.stringify jwtHeader)) = true
  payload : isBase64Text (N.toBase64 (N.stringify claims)) = true
  signature : isBase64Text (N.hmacSha256 secret (signingInput N claims)) = true

/-- The built-ins read the claims back: `Buffer.from(s, 'base64')` undoes
`toString('base64')` when the padding is replaced by one to four `=` (what
`base64urlUnescape` appends), and `JSON.parse` undoes `JSON.stringify`. -/
structure Decodes (N : Node) (claims : Json) : Prop where
  base64 : ∀ k : Nat, 1 ≤ k → k ≤ 4 →
    N.fromBase64 ⟨base64Body (N.toBase64 (N.stringify claims)) ++ List.replicate k '='⟩
      = N.stringify claims
  json : N.parse (N.stringify claims) = some claims

/-! ## Tampering with a token -/

/-- The call `parts.join('.')`. -/
def joinDots : List (List Char) → List Char
  | [] => []
  | [x] => x
  | x :: y :: rest => x ++ '.' :: joinDots (y :: rest)

/-- The token with the character at position `i` of its segment `k` (0, 1
or 2) replaced by `c`. -/
def tamper (token : String) (k i : Nat) (c : Char) : String :=
  let parts := splitOn '.' token.data
  ⟨joinDots (parts.set k ((parts.getD k []).set i c))⟩

/-- The text whose HMAC `verifyToken` computes for a token of three
segments: the first two segments joined by a dot. -/
def signedText (token : String) : String :=
  match splitOn '.' token.data with
  | [encodedHeader, encodedPayload, _] =>
    String.mk encodedHeader ++ "." ++ String.mk encodedPayload
  | _ => ""

/-! ## A reference implementation of the built-ins

Real UTF-8, base64, SHA-256, HMAC and JSON (integers only), written by
structural recursion so that closed terms evaluate. -/

namespace Ref

/-- A continuation byte `10xxxxxx`. -/
def isCont (b : Nat) : Bool :=
  decide (128 ≤ b ∧ b < 192)

/-- The replacement character U+FFFD. -/
def replacement : Char := Char.ofNat 65533

/-- The code point of a two-byte sequence, when it is well formed. -/
def decode2 (b0 b1 : Nat) : Option Nat :=
  if 194 ≤ b0 ∧ b0 < 224 ∧ isCont b1 = true then some ((b0 - 192) * 64 + (b1 - 128)) else none

/-- The code point of a three-byte sequence, when it is well formed. -/
def decode3 (b0 b1 b2 : Nat) : Option Nat :=
  let n := (b0 - 224) * 4096 + (b1 - 128) * 64 + (b2 - 128)
  if 224 ≤ b0 ∧ b0 < 240 ∧ isCont b1 = true ∧ isCont b2 = true ∧ 2048 ≤ n
      ∧ ¬ (55296 ≤ n ∧ n < 57344) then some n
  else none

/-- The code point of a four-byte sequence, when it is well formed. -/
def decode4 (b0 b1 b2 b3 : Nat) : Option Nat :=
  let n := (b0 - 240) * 262144 + (b1 - 128) * 4096 + (b2 - 128) * 64 + (b3 - 128)
  if 240 ≤ b0 ∧ b0 < 245 ∧ isCont b1 = true ∧ isCont b2 = true ∧ isCont b3 = true
      ∧ 65536 ≤ n ∧ n < 1114112 then some n
  else none

/-- The text of a byte sequence; a byte that starts no well-formed sequence
becomes U+FFFD.  Exact on well-formed UTF-8. -/
def utf8Decode : Nat → List Nat → List Char
  | 0, _ => []
  | _ + 1, [] => []
  | fuel + 1, b0 :: rest =>
    if b0 < 128 then Char.ofNat b0 :: utf8Decode fuel rest
    else
      match decode2 b0 (rest.getD 0 0), decode3 b0 (rest.getD 0 0) (rest.getD 1 0),
        decode4 b0 (rest.getD 0 0) (rest.getD 1 0) (rest.getD 2 0) with
      | some n, _, _ => Char.ofNat n :: utf8Decode fuel (rest.drop 1)
      | none, some n, _ => Char.ofNat n :: utf8Decode fuel (rest.drop 2)
      | none, none, some n => Char.ofNat n :: utf8Decode fuel (rest.drop 3)
      | none, none, none => replacement :: utf8Decode fuel rest

/-- The base64 alphabet. -/
def base64Alphabet : List Char :=
  "ABCDEFGHIJKLMNOPQRSTUVWXYZabcdefghijklmnopqrstuvwxyz0123456789+/".data

/-- The character of a six-bit value. -/
def base64Digit (i : Nat) : Char :=
  base64Alphabet.getD i 'A'

/-- The base64 text of a byte sequence, padded with `=`. -/
def base64Encode : List Nat → List Char
  | a :: b :: c :: rest =>
    base64Digit (a / 4) :: base64Digit (a % 4 * 16 + b / 16)
      :: base64Digit (b % 16 * 4 + c / 64) :: base64Digit (c % 64) :: base64Encode rest
  | [a, b] =>
    [base64Digit (a / 4), base64Digit (a % 4 * 16 + b / 16), base64Digit (b % 16 * 4), '=']
  | [a] => [base64Digit (a / 4), base64Digit (a % 4 * 16), '=', '=']
  | [] => []

/-- The six-bit value of a character of the standard or of the URL-safe
alphabet. -/
def base64Value (c : Char) : Option Nat :=
  let n := c.toNat
  if 65 ≤ n ∧ n ≤ 90 then some (n - 65)
  else if 97 ≤ n ∧ n ≤ 122 then some (n - 71)
  else if 48 ≤ n ∧ n ≤ 57 then some (n + 4)
  else if c = '+' ∨ c = '-' then some 62
  else if c = '/' ∨ c = '_' then some 63
  else none

/-- The bytes of a sequence of six-bit values. -/
def bytesOfSextets : List Nat → List Nat
  | a :: b :: c :: d :: rest =>
    (a * 4 + b / 16) :: (b % 16 * 16 + c / 4) :: (c % 4 * 64 + d) :: bytesOfSextets rest
  | [a, b, c] => [a * 4 + b / 16, b % 16 * 16 + c / 4]
  | [a, b] => [a * 4 + b / 16]
  | _ => []

/-- The bytes of a base64 text, read the lenient way of `Buffer.from`:
reading stops at the first `=`, and characters outside the alphabets are
passed over. -/
def base64Decode (s : List Char) : List Nat :=
  bytesOfSextets ((s.takeWhile (fun c => decide (c ≠ '='))).filterMap base64Value)

/-- The round constants of SHA-256. -/
def sha256K : List Nat := [
  0x428a2f98, 0x71374491, 0xb5c0fbcf, 0xe9b5dba5, 0x3956c25b, 0x59f111f1, 0x923f82a4, 0xab1c5ed5,
  0xd807aa98, 0x12835b01, 0x243185be, 0x550c7dc3, 0x72be5d74, 0x80deb1fe, 0x9bdc06a7, 0xc19bf174,
  0xe49b69c1, 0xefbe4786, 0x0fc19dc6, 0x240ca1cc, 0x2de92c6f, 0x4a7484aa, 0x5cb0a9dc, 0x76f988da,
  0x983e5152, 0xa831c66d, 0xb00327c8, 0xbf597fc7, 0xc6e00bf3, 0xd5a79147, 0x06ca6351, 0x14292967,
  0x27b70a85, 0x2e1b2138, 0x4d2c6dfc, 0x53380d13, 0x650a7354, 0x766a0abb, 0x81c2c92e, 0x92722c85,
  0xa2bfe8a1, 0xa81a664b, 0xc24b8b70, 0xc76c51a3, 0xd192e819, 0xd6990624, 0xf40e3585, 0x106aa070,
  0x19a4c116, 0x1e376c08, 0x2748774c, 0x34b0bcb5, 0x391c0cb3, 0x4ed8aa4a, 0x5b9cca4f, 0x682e6ff3,
  0x748f82ee, 0x78a5636f, 0x84c87814, 0x8cc70208, 0x90befffa, 0xa4506ceb, 0xbef9a3f7, 0xc67178f2]

/-- The initial hash value of SHA-256. -/
def sha256H0 : List Nat :=
  [0x6a09e667, 0xbb67ae85, 0x3c6ef372, 0xa54ff53a, 0x510e527f, 0x9b05688c, 0x1f83d9ab, 0x5be0cd19]

/-- Reduction to a 32-bit word. -/
def word (n : Nat) : Nat := n % 4294967296

/-- Rotation of a 32-bit word to the right. -/
def rotr (x n : Nat) : Nat := (x >>> n) ||| word (x <<< (32 - n))

/-- The big-endian words of a byte sequence. -/
def wordsOfBytes : List Nat → List Nat
  | a :: b :: c :: d :: rest => (((a * 256 + b) * 256 + c) * 256 + d) :: wordsOfBytes rest
  | _ => []

/-- The padded message of SHA-256: a one bit, zeros, the bit length on eight bytes. -/
def sha256Pad (msg : List Nat) : List Nat :=
  let bits := msg.length * 8
  msg ++ 128 :: List.replicate ((119 - msg.length % 64) % 64) 0
    ++ (List.range 8).map (fun i => (bits >>> (8 * (7 - i))) % 256)

/-- The message schedule, newest word first, extended by `n` words. -/
def sha256Schedule : Nat → List Nat → List Nat
  | 0, ws => ws
  | n + 1, ws =>
    let w2 := ws.getD 1 0
    let w7 := ws.getD 6 0
    let w15 := ws.getD 14 0
    let w16 := ws.getD 15 0
    let s0 := rotr w15 7 ^^^ rotr w15 18 ^^^ (w15 >>> 3)
    let s1 := rotr w2 17 ^^^ rotr w2 19 ^^^ (w2 >>> 10)
    sha256Schedule n (word (w16 + s0 + w7 + s1) :: ws)

/-- One round of the compression function on the working variables `a` to `h`. -/
def sha256Round (s : List Nat) (k w : Nat) : List Nat :=
  match s with
  | [a, b, c, d, e, f, g, h] =>
    let s1 := rotr e 6 ^^^ rotr e 11 ^^^ rotr e 25
    let ch := (e &&& f) ^^^ ((4294967295 - e) &&& g)
    let t1 := word (h + s1 + ch + k + w)
    let s0 := rotr a 2 ^^^ rotr a 13 ^^^ rotr a 22
    let mj := (a &&& b) ^^^ (a &&& c) ^^^ (b &&& c)
    let t2 := word (s0 + mj)
    [word (t1 + t2), a, b, c, word (d + t1), e, f, g]
  | _ => s

/-- The rounds of the compression function, one per constant and schedule word. -/
def sha256Rounds : List Nat → List Nat → List Nat → List Nat
  | s, k :: ks, w :: ws => sha256Rounds (sha256Round s k w) ks ws
  | s, _, _ => s

/-- The compression function on a 64-byte block. -/
def sha256Compress (h : List Nat) (block : List Nat) : List Nat :=
  let ws := (sha256Schedule 48 (wordsOfBytes block).reverse).reverse
  List.zipWith (fun x y => word (x + y)) h (sha256Rounds h sha256K ws)

/-- The compression of `n` successive blocks. -/
def sha256Blocks : Nat → List Nat → List Nat → List Nat
  | 0, h, _ => h
  | n + 1, h, msg => sha256Blocks n (sha256Compress h (msg.take 64)) (msg.drop 64)

/-- The four bytes of a word, most significant first. -/
def bytesOfWord (w : Nat) : List Nat :=
  [w >>> 24, (w >>> 16) % 256, (w >>> 8) % 256, w % 256]

/-- The SHA-256 digest of a byte sequence. -/
def sha256 (msg : List Nat) : List Nat :=
  let padded := sha256Pad msg
  (sha256Blocks (padded.length / 64) sha256H0 padded).flatMap bytesOfWord

/-- The HMAC-SHA256 of a message under a key. -/
def hmac (key msg : List Nat) : List Nat :=
  let k0 := if key.length > 64 then sha256 key else key
  let k := k0 ++ List.replicate (64 - k0.length) 0
  sha256 (k.map (fun b => b ^^^ 92) ++ sha256 (k.map (fun b => b ^^^ 54) ++ msg))

/-- A lower-case hexadecimal digit. -/
def hexDigit (n : Nat) : Char :=
  "0123456789abcdef".data.getD n '0'

/-- The hexadecimal text of a byte sequence. -/
def hexOfBytes (bytes : List Nat) : List Char :=
  bytes.flatMap (fun b => [hexDigit (b / 16), hexDigit (b % 16)])

/-- The text of a character inside a JSON string literal. -/
def renderChar (c : Char) : List Char :=
  let n := c.toNat
  if c = '"' then ['\\', '"']
  else if c = '\\' then ['\\', '\\']
  else if n = 8 then ['\\', 'b']
  else if n = 9 then ['\\', 't']
  else if n = 10 then ['\\', 'n']
  else if n = 12 then ['\\', 'f']
  else if n = 13 then ['\\', 'r']
  else if n < 32 then ['\\', 'u', '0', '0', hexDigit (n / 16), hexDigit (n % 16)]
  else [c]

/-- A JSON string literal. -/
def renderString (s : String) : List Char :=
  '"' :: s.data.flatMap renderChar ++ ['"']

/-- The decimal text of an integer. -/
def renderInt (n : Int) : List Char :=
  match n with
  | Int.ofNat m => (Nat.repr m).data
  | Int.negSucc m => '-' :: (Nat.repr (m + 1)).data

mutual
/-- The JSON text of a value, without white space. -/
def render : Json → List Char
  | Json.null => ['n', 'u', 'l', 'l']
  | Json.bool b => if b then ['t', 'r', 'u', 'e'] else ['f', 'a', 'l', 's', 'e']
  | Json.num n => renderInt n
  | Json.str s => renderString s
  | Json.arr items => '[' :: renderItems items ++ [']']
  | Json.obj fields => '{' :: renderFields fields ++ ['}']
/-- The JSON texts of the items of an array, separated by commas. -/
def renderItems : List Json → List Char
  | [] => []
  | [x] => render x
  | x :: y :: rest => render x ++ ',' :: renderItems (y :: rest)
/-- The JSON texts of the fields of an object, separated by commas. -/
def renderFields : List (String × Json) → List Char
  | [] => []
  | [(k, v)] => renderString k ++ ':' :: render v
  | (k, v) :: y :: rest => renderString k ++ ':' :: render v ++ ',' :: renderFields (y :: rest)
end

/-- JSON white space. -/
def isJsonSpace (c : Char) : Bool :=
  decide (c.toNat = 32 ∨ c.toNat = 9 ∨ c.toNat = 10 ∨ c.toNat = 13)

/-- The value of a run of digits in a radix. -/
def natOfDigits (radix : Nat) (digits : List Char) : Nat :=
  digits.foldl (fun acc c => acc * radix + digitValue c) 0

/-- The body of a JSON string literal, read up to its closing quote, and the
text after it.  A surrogate escape is outside the model. -/
def parseStringBody : Nat → List Char → List Char → Option (String × List Char)
  | 0, _, _ => none
  | _ + 1, _, [] => none
  | fuel + 1, acc, c :: rest =>
    if c = '"' then some (⟨acc.reverse⟩, rest)
    else if c = '\\' then
      match rest with
      | 'u' :: h1 :: h2 :: h3 :: h4 :: rest4 =>
        let n := natOfDigits 16 [h1, h2, h3, h4]
        if [h1, h2, h3, h4].all (fun h => decide (digitValue h < 16))
            ∧ ¬ (55296 ≤ n ∧ n < 57344) then
          parseStringBody fuel (Char.ofNat n :: acc) rest4
        else none
      | e :: rest1 =>
        if e = '"' ∨ e = '\\' ∨ e = '/' then parseStringBody fuel (e :: acc) rest1
        else if e = 'b' then parseStringBody fuel (Char.ofNat 8 :: acc) rest1
        else if e = 't' then parseStringBody fuel (Char.ofNat 9 :: acc) rest1
        else if e = 'n' then parseStringBody fuel (Char.ofNat 10 :: acc) rest1
        else if e = 'f' then parseStringBody fuel (Char.ofNat 12 :: acc) rest1
        else if e = 'r' then parseStringBody fuel (Char.ofNat 13 :: acc) rest1
        else none
      | [] => none
    else if c.toNat < 32 then none
    else parseStringBody fuel (c :: acc) rest

/-- A JSON number literal without fraction and exponent, and the text after it. -/
def parseNumber (s : List Char) : Option (Int × List Char) :=
  let signed : Int × List Char :=
    match s with
    | '-' :: r => (-1, r)
    | _ => (1, s)
  let digits := signed.2.takeWhile (fun c => decide (digitValue c < 10))
  let rest := signed.2.dropWhile (fun c => decide (digitValue c < 10))
  if digits = [] then none
  else if digits.head? = some '0' ∧ digits.length ≠ 1 then none
  else if rest.head? = some '.' ∨ rest.head? = some 'e' ∨ rest.head? = some 'E' then none
  else some (signed.1 * (natOfDigits 10 digits : Nat), rest)

/-- The number of an array-index name: a canonical decimal below 2^32 - 1. -/
def arrayIndex (k : String) : Option Nat :=
  if k.data ≠ [] ∧ k.data.all (fun c => decide (digitValue c < 10))
      ∧ (k.data.head? ≠ some '0' ∨ k.data.length = 1)
      ∧ natOfDigits 10 k.data < 4294967295 then
    some (natOfDigits 10 k.data)
  else none

/-- The definition of an index-named field: index names come first, in
ascending order. -/
def defineIndex (i : Nat) (k : String) (v : Json) :
    List (String × Json) → List (String × Json)
  | [] => [(k, v)]
  | (k0, v0) :: rest =>
    match arrayIndex k0 with
    | some j =>
      if j = i then (k, v) :: rest
      else if i < j then (k, v) :: (k0, v0) :: rest
      else (k0, v0) :: defineIndex i k v rest
    | none => (k, v) :: (k0, v0) :: rest

/-- The definition of a field while an object is read: a repeated name
keeps its place and takes the later value. -/
def defineField (fields : List (String × Json)) (k : String) (v : Json) :
    List (String × Json) :=
  match arrayIndex k with
  | some i => defineIndex i k v fields
  | none => setProp fields k v

mutual
/-- A JSON value at the head of a text, and the text after it. -/
def parseValue : Nat → List Char → Option (Json × List Char)
  | 0, _ => none
  | fuel + 1, s =>
    match s.dropWhile isJsonSpace with
    | 'n' :: 'u' :: 'l' :: 'l' :: rest => some (Json.null, rest)
    | 't' :: 'r' :: 'u' :: 'e' :: rest => some (Json.bool true, rest)
    | 'f' :: 'a' :: 'l' :: 's' :: 'e' :: rest => some (Json.bool false, rest)
    | '"' :: rest =>
      (parseStringBody rest.length.succ [] rest).map (fun r => (Json.str r.1, r.2))
    | '[' :: rest =>
      match rest.dropWhile isJsonSpace with
      | ']' :: rest1 => some (Json.arr [], rest1)
      | _ => (parseItems fuel [] rest).map (fun r => (Json.arr r.1, r.2))
    | '{' :: rest =>
      match rest.dropWhile isJsonSpace with
      | '}' :: rest1 => some (Json.obj [], rest1)
      | _ => (parseFields fuel [] rest).map (fun r => (Json.obj r.1, r.2))
    | t => (parseNumber t).map (fun r => (Json.num r.1, r.2))
/-- The items of an array after its opening bracket, up to the closing one. -/
def parseItems : Nat → List Json → List Char → Option (List Json × List Char)
  | 0, _, _ => none
  | fuel + 1, acc, s =>
    match parseValue fuel s with
    | none => none
    | some (v, rest) =>
      match rest.dropWhile isJsonSpace with
      | ',' :: rest1 => parseItems fuel (v :: acc) rest1
      | ']' :: rest1 => some ((v :: acc).reverse, rest1)
      | _ => none
/-- The fields of an object after its opening brace, up to the closing one. -/
def parseFields : Nat → List (String × Json) → List Char →
    Option (List (String × Json) × List Char)
  | 0, _, _ => none
  | fuel + 1, acc, s =>
    match s.dropWhile isJsonSpace with
    | '"' :: rest =>
      match parseStringBody rest.length.succ [] rest with
      | none => none
      | some (k, rest1) =>
        match rest1.dropWhile isJsonSpace with
        | ':' :: rest2 =>
          match parseValue fuel rest2 with
          | none => none
          | some (v, rest3) =>
            match rest3.dropWhile isJsonSpace with
            | ',' :: rest4 => parseFields fuel (defineField acc k v) rest4
            | '}' :: rest4 => some (defineField acc k v, rest4)
            | _ => none
        | _ => none
    | _ => none
end

/-- The value of a JSON text: one value between white space. -/
def parseJson (s : List Char) : Option Json :=
  match parseValue s.length.succ s with
  | some (v, rest) => if rest.dropWhile isJsonSpace = [] then some v else none
  | none => none

/-- The number of a string: white space is trimmed, the empty text is 0, a
signed decimal or a `0x` hexadecimal integer is itself, any other text is
`NaN`. -/
def numberOfString (s : List Char) : Option Int :=
  let t := ((s.dropWhile isStrWhiteSpace).reverse.dropWhile isStrWhiteSpace).reverse
  match t with
  | [] => some 0
  | '0' :: 'x' :: d :: r =>
    if (d :: r).all (fun c => decide (digitValue c < 16)) then some (natOfDigits 16 (d :: r))
    else none
  | '-' :: d :: r =>
    if (d :: r).all (fun c => decide (digitValue c < 10)) then
      some (-(natOfDigits 10 (d :: r) : Nat))
    else none
  | '+' :: d :: r =>
    if (d :: r).all (fun c => decide (digitValue c < 10)) then some (natOfDigits 10 (d :: r))
    else none
  | d :: r =>
    if (d :: r).all (fun c => decide (digitValue c < 10)) then some (natOfDigits 10 (d :: r))
    else none

/-- The number of a string, an array or an object: an array counts as the
text of its items joined by commas, an object as `NaN`. -/
def toNumber : Json → Option Int
  | Json.str s => numberOfString s.data
  | Json.arr [] => some 0
  | Json.arr [Json.null] => some 0
  | Json.arr [Json.num n] => some n
  | Json.arr [Json.str s] => numberOfString s.data
  | _ => none

end Ref

/-- The reference record of built-ins. -/
def refNode : Node where
  hmacSha256 key data :=
    ⟨Ref.base64Encode (Ref.hmac (Ref.utf8Encode key.data) (Ref.utf8Encode data.data))⟩
  sha256Hex data := ⟨Ref.hexOfBytes (Ref.sha256 (Ref.utf8Encode data.data))⟩
  toBase64 s := ⟨Ref.base64Encode (Ref.utf8Encode s.data)⟩
  fromBase64 s :=
    ⟨Ref.utf8Decode (Ref.base64Decode s.data).length (Ref.base64Decode s.data)⟩
  stringify v := ⟨Ref.render v⟩
  parse s := Ref.parseJson s.data
  toNumber := Ref.toNumber
  bufferToString bytes := ⟨Ref.utf8Decode bytes.length bytes⟩

/-- The secret of the source when the environment sets none. -/
def defaultSecret : String := "your-super-secret-key-change-in-production"

/-! ## Sample data -/

/-- The claims that `login` embeds for the default administrator. -/
def adminClaims : List (String × Json) :=
  [("id", Json.num 1), ("username", Json.str "admin"), ("role", Json.str "admin"),
   ("permissions", Json.arr [Json.str "read", Json.str "write", Json.str "admin"])]

/-- The claims object of a token issued to the administrator at the time
1700000000 for 24 hours. -/
def adminPayload : Json :=
  Json.obj [("id", Json.num 1), ("username", Json.str "admin"), ("role", Json.str "admin"),
    ("permissions", Json.arr [Json.str "read", Json.str "write", Json.str "admin"]),
    ("iat", Json.num 1700000000), ("exp", Json.num 1700086400)]

/-- A user file in which the former administrator has the role 'user'. -/
def downgradedUsers : List User :=
  [{ id := 1, username := "admin",
     passwordHash := "245b4b1d3f3a31254de87c32aae6e64e9d6102e42b81273d3ff2f966e0ab8040",
     role := "user", permissions := ["read"], email := "admin@example.com",
     createdAt := "2025-01-01T00:00:00.000Z", lastLogin := none, isActive := true }]

/-- A user file in which the administrator has been marked inactive. -/
def deactivatedUsers : List User :=
  [{ id := 1, username := "admin",
     passwordHash := "245b4b1d3f3a31254de87c32aae6e64e9d6102e42b81273d3ff2f966e0ab8040",
     role := "admin", permissions := ["read", "write", "admin"], email := "admin@example.com",
     createdAt := "2025-01-01T00:00:00.000Z", lastLogin := none, isActive := false }]

/-- The user that `authenticateRequest` returns for the administrator's
token once the stored role is 'user': the claims of the token, `isAdmin` false. -/
def staleAdmin : Json :=
  Json.obj [("id", Json.num 1), ("username", Json.str "admin"), ("role", Json.str "admin"),
    ("permissions", Json.arr [Json.str "read", Json.str "write", Json.str "admin"]),
    ("iat", Json.num 1700000000), ("exp", Json.num 1700086400), ("isAdmin", Json.bool false)]

/-- The administrator's token issued at the time 1700000000 for 24 hours
under the default secret. -/
def adminToken : String :=
  generateToken refNode defaultSecret 1700000000 adminClaims "24h"

/-- The boundary of the sample bodies. -/
def sampleBoundary : String := "XyZ"

/-- A text field `title` with the content `hello`. -/
def titlePart : Part :=
  { name := "title", data := [104, 101, 108, 108, 111], filename := none, contentType := none }

/-- A file part: the eight bytes that open a PNG file, a line end among
them. -/
def photoPart : Part :=
  { name := "file", data := [137, 80, 78, 71, 13, 10, 26, 10], filename := some "a.png",
    contentType := some "image/png" }

/-- A file part whose field is named `filename=`. -/
def oddPart : Part :=
  { name := "filename=", data := [120], filename := some "a.png", contentType := none }

/-- A body whose only segment declares a filename and no name. -/
def unnamedBody : List Nat :=
  bufferFrom ("--XyZ\r\nContent-Disposition: form-data; filename=\"a.png\"\r\n\r\nhello\r\n"
    ++ "--XyZ--\r\n")

/-- A body with the field `a`, the closing delimiter, then the field `b` and
the closing delimiter once more. -/
def twiceClosedBody : List Nat :=
  bufferFrom ("--XyZ\r\nContent-Disposition: form-data; name=\"a\"\r\n\r\n1\r\n--XyZ--"
    ++ "\r\nContent-Disposition: form-data; name=\"b\"\r\n\r\n2\r\n--XyZ--\r\n")

/-- A part of type `text/html` with a filename and the given content. -/
def htmlPart (data : List Nat) : Part :=
  { name := "file", data := data, filename := some "page.html", contentType := some "text/html" }

/-- The data of a user 'alice' to add. -/
def aliceData : UserData :=
  { username := "alice", password := Json.str "s3cret", role := none, permissions := none,
    email := some "alice@example.com" }

/-- A user file whose only user has the id 2^53 = 9007199254740992. -/
def fullStore : List User :=
  [{ id := 9007199254740992, username := "admin",
     passwordHash := "245b4b1d3f3a31254de87c32aae6e64e9d6102e42b81273d3ff2f966e0ab8040",
     role := "admin", permissions := ["read", "write", "admin"], email := "admin@example.com",
     createdAt := "2025-01-01T00:00:00.000Z", lastLogin := none, isActive := true }]

/-- A post with the id 1. -/
def firstPost : Json :=
  Json.obj [("id", Json.num 1), ("title", Json.str "First"), ("date", Json.str "2025-01-27"),
    ("published", Json.bool true), ("views", Json.num 7)]

/-- A comment with the id 10 that has the reply 11. -/
def firstComment : Json :=
  Json.obj [("id", Json.num 10), ("author", Json.str "ann"), ("content", Json.str "hello"),
    ("timestamp", Json.str "2025-02-01T00:00:00.000Z"),
    ("replies", Json.arr [Json.obj [("id", Json.num 11), ("content", Json.str "hi"),
      ("timestamp", Json.str "2025-02-02T00:00:00.000Z")]])]

/-- A manager with one post, which has one comment with one reply. -/
def sampleBlog : Blog :=
  { posts := [firstPost],
    comments := fun key => if key = "1" then some [firstComment] else none }

/-- A correctly signed token whose claims segment `NQ` is the base64url text
of the JSON text `5`. -/
def numberToken : String :=
  "eyJhbGciOiJIUzI1NiIsInR5cCI6IkpXVCJ9" ++ "." ++ "NQ" ++ "."
    ++ base64urlEscape (refNode.hmacSha256 defaultSecret
        ("eyJhbGciOiJIUzI1NiIsInR5cCI6IkpXVCJ9" ++ "." ++ "NQ"))

/-- A body with the complete part `a` between two delimiters and no closing
delimiter. -/
def openBody : List Nat :=
  bufferFrom ("--XyZ\r\nContent-Disposition: form-data; name=\"a\"\r\n\r\n1\r\n--XyZ\r\n")

/-! ## Lemmas on strings -/

theorem splitOn_of_not_mem (sep : Char) (l : List Char) (h : sep ∉ l) :
    splitOn sep l = [l] := by
  induction l with
  | nil => rfl
  | cons c cs ih =>
    have hc : c ≠ sep := fun e => h (by simp [e])
    have hcs : sep ∉ cs := fun e => h (by simp [e])
    simp [splitOn, hc, ih hcs]

theorem splitOn_append_sep (sep : Char) (a r : List Char) (h : sep ∉ a) :
    splitOn sep (a ++ sep :: r) = a :: splitOn sep r := by
  induction a with
  | nil => simp [splitOn]
  | cons c cs ih =>
    have hc : c ≠ sep := fun e => h (by simp [e])
    have hcs : sep ∉ cs := fun e => h (by simp [e])
    simp [splitOn, hc, ih hcs]

theorem splitOn_three (a b c : List Char) (ha : '.' ∉ a) (hb : '.' ∉ b) (hc : '.' ∉ c) :
    splitOn '.' (a ++ '.' :: (b ++ '.' :: c)) = [a, b, c] := by
  rw [splitOn_append_sep _ _ _ ha, splitOn_append_sep _ _ _ hb, splitOn_of_not_mem _ _ hc]

theorem data_join3 (h p s : String) :
    (h ++ "." ++ p ++ "." ++ s).data = h.data ++ '.' :: (p.data ++ '.' :: s.data) := by
  simp [String.data_append]

theorem mem_escape (str : String) (c : Char) (h : c ∈ (base64urlEscape str).data) :
    c ≠ '+' ∧ c ≠ '/' ∧ c ≠ '=' ∧ (c = '.' → '.' ∈ str.data) := by
  simp only [base64urlEscape, removeChar, replaceChar, List.mem_filter, List.mem_map,
    decide_eq_true_eq] at h
  obtain ⟨⟨y, ⟨x, hx, rfl⟩, rfl⟩, hne⟩ := h
  refine ⟨?_, ?_, hne, ?_⟩
  · by_cases h1 : x = '+' <;> simp [h1]
    by_cases h2 : x = '/' <;> simp [h1, h2]
  · by_cases h1 : x = '+' <;> simp [h1]
    by_cases h2 : x = '/' <;> simp [h1, h2]
  · by_cases h1 : x = '+' <;> simp [h1]
    by_cases h2 : x = '/' <;> simp [h1, h2]
    intro e; rw [← e]; exact hx

theorem isBase64Char_ne (c : Char) (h : isBase64Char c = true) :
    c ≠ '.' ∧ c ≠ '-' ∧ c ≠ '_' ∧ c ≠ '=' := by
  refine ⟨?_, ?_, ?_, ?_⟩ <;> (rintro rfl; revert h; decide)

theorem mem_base64Body (s : String) (c : Char) (h : c ∈ base64Body s) :
    isBase64Char c = true := by
  unfold base64Body at h
  exact (List.mem_takeWhile_imp h)

theorem base64Text_data (s : String) (h : isBase64Text s = true) :
    ∃ k, s.data = base64Body s ++ List.replicate k '=' := by
  refine ⟨(s.data.dropWhile isBase64Char).length, ?_⟩
  have h1 : s.data.dropWhile isBase64Char
      = List.replicate (s.data.dropWhile isBase64Char).length '=' := by
    rw [List.eq_replicate_iff]
    refine ⟨rfl, ?_⟩
    intro b hb
    simp only [isBase64Text, List.all_eq_true, decide_eq_true_eq] at h
    exact h b hb
  calc s.data = s.data.takeWhile isBase64Char ++ s.data.dropWhile isBase64Char :=
        (List.takeWhile_append_dropWhile _ _).symm
    _ = _ := by rw [← h1]; rfl

theorem not_dot_mem_base64Text (s : String) (h : isBase64Text s = true) : '.' ∉ s.data := by
  obtain ⟨k, hk⟩ := base64Text_data s h
  rw [hk]
  simp only [List.mem_append, List.mem_replicate, not_or]
  refine ⟨fun hm => (isBase64Char_ne _ (mem_base64Body s _ hm)).1 rfl, ?_⟩
  rintro ⟨_, h2⟩
  exact absurd h2 (by decide)

theorem not_dot_mem_escape (s : String) (h : isBase64Text s = true) :
    '.' ∉ (base64urlEscape s).data :=
  fun hm => not_dot_mem_base64Text s h ((mem_escape s '.' hm).2.2.2 rfl)

/-- On base64 text `base64urlEscape` drops the padding and maps `+` and `/`. -/
theorem escape_data (s : String) (h : isBase64Text s = true) :
    (base64urlEscape s).data
      = (base64Body s).map (fun c => if c = '+' then '-' else if c = '/' then '_' else c) := by
  obtain ⟨k, hk⟩ := base64Text_data s h
  have hbody : ∀ c ∈ base64Body s, isBase64Char c = true := mem_base64Body s
  simp only [base64urlEscape, removeChar, replaceChar, hk, List.map_append, List.map_replicate,
    List.filter_append, List.map_map]
  have h1 : List.filter (fun x => decide (x ≠ '='))
      (List.replicate k (if (if '=' = '+' then '-' else '=') = '/' then '_'
        else if '=' = '+' then '-' else '=')) = [] := by
    simp [List.filter_eq_nil_iff]
  rw [h1, List.append_nil, List.filter_eq_self.2]
  · apply List.map_congr_left
    intro c _
    by_cases h1 : c = '+'
    · simp [h1]
    · simp [h1]
  · intro c hc
    simp only [List.mem_map, Function.comp] at hc
    obtain ⟨x, hx, rfl⟩ := hc
    have := isBase64Char_ne x (hbody x hx)
    by_cases h1 : x = '+'
    · simp [h1]
    · by_cases h2 : x = '/'
      · simp [h2]
      · simp [h1, h2, this.2.2.2]

/-- On base64 text `base64urlUnescape` after `base64urlEscape` gives the body
back, followed by one to four `=`. -/
theorem unescape_escape (s : String) (h : isBase64Text s = true) :
    ∃ k, 1 ≤ k ∧ k ≤ 4
      ∧ base64urlUnescape (base64urlEscape s) = ⟨base64Body s ++ List.replicate k '='⟩ := by
  refine ⟨5 - jsLength (base64urlEscape s).data % 4 - 1, by omega, by omega, ?_⟩
  have hbody : ∀ c ∈ base64Body s, isBase64Char c = true := mem_base64Body s
  apply String.ext
  simp only [base64urlUnescape, replaceChar, List.map_append, List.map_replicate, List.map_map]
  congr 1
  · rw [escape_data s h, List.map_map]
    conv_rhs => rw [← List.map_id (base64Body s)]
    apply List.map_congr_left
    intro c hc
    have := isBase64Char_ne c (hbody c hc)
    by_cases h1 : c = '+'
    · simp [h1]
    · by_cases h2 : c = '/'
      · simp [h2]
      · simp [h1, h2, this.2.1, this.2.2.1]

/-! ## Lemmas on objects -/

theorem find_setProp_same (fields : List (String × Json)) (k : String) (v : Json) :
    (setProp fields k v).find? (fun kv => decide (kv.1 = k)) = some (k, v) := by
  induction fields with
  | nil => simp [setProp]
  | cons kv rest ih =>
    obtain ⟨k0, v0⟩ := kv
    by_cases h : k0 = k
    · simp [setProp, h]
    · simp [setProp, h, List.find?_cons, ih]

theorem find_setProp_other (fields : List (String × Json)) (k k1 : String) (v : Json)
    (hk : k1 ≠ k) :
    (setProp fields k v).find? (fun kv => decide (kv.1 = k1))
      = fields.find? (fun kv => decide (kv.1 = k1)) := by
  induction fields with
  | nil => simp [setProp, List.find?_cons, Ne.symm hk]
  | cons kv rest ih =>
    obtain ⟨k0, v0⟩ := kv
    by_cases h : k0 = k
    · subst h
      simp [setProp, List.find?_cons, Ne.symm hk]
    · by_cases h1 : k0 = k1
      · subst h1
        simp [setProp, h, List.find?_cons]
      · simp [setProp, h, List.find?_cons, h1, ih]

theorem getProp_setProp_same (fields : List (String × Json)) (k : String) (v : Json) :
    getProp (Json.obj (setProp fields k v)) k = some v := by
  simp [getProp, find_setProp_same]

theorem getProp_setProp_other (fields : List (String × Json)) (k k1 : String) (v : Json)
    (hk : k1 ≠ k) :
    getProp (Json.obj (setProp fields k v)) k1 = getProp (Json.obj fields) k1 := by
  simp [getProp, find_setProp_other _ _ _ _ hk]

theorem getProp_jwtPayload_iat (now : Int) (claims : List (String × Json)) (expiresIn : String) :
    getProp (Json.obj (jwtPayload now claims expiresIn)) "iat" = some (Json.num now) := by
  unfold jwtPayload
  rw [getProp_setProp_other _ _ _ _ (by decide), getProp_setProp_same]

theorem getProp_jwtPayload_exp (now : Int) (claims : List (String × Json)) (expiresIn : String) :
    getProp (Json.obj (jwtPayload now claims expiresIn)) "exp"
      = some (numberValue (expiry now expiresIn)) := by
  unfold jwtPayload
  rw [getProp_setProp_same]

theorem getProp_jwtPayload_other (now : Int) (claims : List (String × Json))
    (expiresIn : String) (k : String) (h1 : k ≠ "iat") (h2 : k ≠ "exp") :
    getProp (Json.obj (jwtPayload now claims expiresIn)) k = getProp (Json.obj claims) k := by
  unfold jwtPayload
  rw [getProp_setProp_other _ _ _ _ h2, getProp_setProp_other _ _ _ _ h1]

/-! ## Lemmas on `verifyToken` -/

/-- What `verifyToken` does with three dot-free segments. -/
theorem verifyToken_segments (N : Node) (secret : String) (now : Int) (h p s : String)
    (hh : '.' ∉ h.data) (hp : '.' ∉ p.data) (hs : '.' ∉ s.data) :
    verifyToken N secret now (h ++ "." ++ p ++ "." ++ s) =
      if s ≠ base64urlEscape (N.hmacSha256 secret (h ++ "." ++ p)) then
        Verification.invalid "Invalid signature"
      else
        match N.parse (N.fromBase64 (base64urlUnescape p)) with
        | none => Verification.invalid "Token parsing failed"
        | some payload => checkExpiry N now payload := by
  unfold verifyToken
  rw [data_join3, splitOn_three _ _ _ hh hp hs]

theorem generateToken_eq (N : Node) (secret : String) (now : Int)
    (claims : List (String × Json)) (expiresIn : String) :
    generateToken N secret now claims expiresIn
      = base64urlEscape (N.toBase64 (N.stringify jwtHeader)) ++ "."
        ++ base64urlEscape (N.toBase64 (N.stringify (Json.obj (jwtPayload now claims expiresIn))))
        ++ "."
        ++ base64urlEscape (N.hmacSha256 secret
            (signingInput N (Json.obj (jwtPayload now claims expiresIn)))) := rfl

/-- A token of `generateToken` passes the signature check and is judged on
its claims. -/
theorem verifyToken_generateToken_eq (N : Node) (secret : String) (now checkTime : Int)
    (claims : List (String × Json)) (expiresIn : String)
    (hEnc : Encodes N secret (Json.obj (jwtPayload now claims expiresIn)))
    (hDec : Decodes N (Json.obj (jwtPayload now claims expiresIn))) :
    verifyToken N secret checkTime (generateToken N secret now claims expiresIn)
      = checkExpiry N checkTime (Json.obj (jwtPayload now claims expiresIn)) := by
  rw [generateToken_eq, verifyToken_segments N secret checkTime _ _ _
    (not_dot_mem_escape _ hEnc.header) (not_dot_mem_escape _ hEnc.payload)
    (not_dot_mem_escape _ hEnc.signature)]
  obtain ⟨k, hk1, hk4, hk⟩ := unescape_escape _ hEnc.payload
  rw [hk, hDec.base64 k hk1 hk4, hDec.json]
  simp [signingInput]

theorem checkExpiry_obj (N : Node) (now : Int) (fields : List (String × Json)) (e : Int)
    (he : getProp (Json.obj fields) "exp" = some (Json.num e)) :
    checkExpiry N now (Json.obj fields)
      = if e ≠ 0 ∧ e < now then Verification.invalid "Token expired"
        else Verification.valid (Json.obj fields) := by
  simp only [checkExpiry, he, truthy, lessThan]
  by_cases h1 : e = 0 <;> by_cases h2 : e < now <;> simp [h1, h2]

theorem expiry_minus_one_hour (now : Int) : expiry now "-1h" = some (now - 3600) := by
  have h1 : endsWith "-1h" 'h' = true := by decide
  have h2 : parseInt "-1h" = some (-1) := by decide
  simp only [expiry, h1, h2, if_true, Option.map_some']
  ring_nf

/-! ## Lemmas on tampering -/

theorem splitOn_ne_nil (sep : Char) (l : List Char) : splitOn sep l ≠ [] := by
  induction l with
  | nil => simp [splitOn]
  | cons c cs ih =>
    unfold splitOn
    split
    · simp
    · split <;> simp

theorem splitOn_length (sep : Char) (l : List Char) :
    (splitOn sep l).length = l.count sep + 1 := by
  induction l with
  | nil => simp [splitOn]
  | cons c cs ih =>
    by_cases h : c = sep
    · subst h
      simp [splitOn, ih]
    · have h2 : (c == sep) = false := by simp [h]
      rw [List.count_cons, h2]
      simp only [splitOn, h, if_false]
      cases hs : splitOn sep cs with
      | nil => exact absurd hs (splitOn_ne_nil sep cs)
      | cons p ps =>
        rw [hs] at ih
        simpa using ih

theorem verifyToken_format (N : Node) (secret : String) (now : Int) (token : String)
    (h : (splitOn '.' token.data).length ≠ 3) :
    verifyToken N secret now token = Verification.invalid "Invalid token format" := by
  unfold verifyToken
  split
  · rename_i a b c heq
    rw [heq] at h
    exact absurd rfl h
  · rfl

theorem not_mem_set (l : List Char) (i : Nat) (c d : Char) (hl : d ∉ l) (hc : d ≠ c) :
    d ∉ l.set i c := by
  intro hm
  rcases List.mem_or_eq_of_mem_set hm with h | h
  · exact hl h
  · exact hc h

theorem count_set_sep (l : List Char) (i : Nat) (d : Char) (hl : d ∉ l) (hi : i < l.length) :
    (l.set i d).count d = 1 := by
  induction l generalizing i with
  | nil => simp at hi
  | cons x xs ih =>
    have hx : x ≠ d := fun e => hl (by simp [e])
    have hxs : d ∉ xs := fun e => hl (by simp [e])
    cases i with
    | zero =>
      simp [List.set, List.count_cons, List.count_eq_zero.2 hxs]
    | succ j =>
      have hj : j < xs.length := by simpa using hi
      simp [List.set, List.count_cons, hx, ih j hxs hj]

theorem set_ne_self (l : List Char) (i : Nat) (c old : Char) (hold : l[i]? = some old)
    (hne : c ≠ old) : l.set i c ≠ l := by
  intro h
  have hi : i < l.length := by
    by_contra hge
    rw [List.getElem?_eq_none (not_lt.1 hge)] at hold
    exact absurd hold (by simp)
  have h1 : (l.set i c)[i]? = some c := by
    rw [List.getElem?_set_self (by simpa using hi)]
  rw [h, hold] at h1
  exact hne (Option.some.inj h1).symm

theorem lt_length_of_getElem (l : List Char) (i : Nat) (old : Char)
    (hold : l[i]? = some old) : i < l.length := by
  by_contra hge
  rw [List.getElem?_eq_none (not_lt.1 hge)] at hold
  exact absurd hold (by simp)

theorem count_dot_join (a b c : List Char) :
    (a ++ '.' :: (b ++ '.' :: c)).count '.' = a.count '.' + b.count '.' + c.count '.' + 2 := by
  simp [List.count_append, List.count_cons]
  omega

/-- A token of three dot-free segments into one of which a dot is written
has four segments. -/
theorem verifyToken_four_segments (N : Node) (secret : String) (now : Int)
    (a b c : List Char) (h : a.count '.' + b.count '.' + c.count '.' = 1) :
    verifyToken N secret now ⟨a ++ '.' :: (b ++ '.' :: c)⟩
      = Verification.invalid "Invalid token format" := by
  apply verifyToken_format
  rw [splitOn_length, count_dot_join, h]
  decide

theorem verifyToken_segments_data (N : Node) (secret : String) (now : Int) (h p s : List Char)
    (hh : '.' ∉ h) (hp : '.' ∉ p) (hs : '.' ∉ s) :
    verifyToken N secret now ⟨h ++ '.' :: (p ++ '.' :: s)⟩ =
      if String.mk s ≠ base64urlEscape (N.hmacSha256 secret (String.mk h ++ "." ++ String.mk p))
      then Verification.invalid "Invalid signature"
      else
        match N.parse (N.fromBase64 (base64urlUnescape (String.mk p))) with
        | none => Verification.invalid "Token parsing failed"
        | some payload => checkExpiry N now payload := by
  have := verifyToken_segments N secret now ⟨h⟩ ⟨p⟩ ⟨s⟩ hh hp hs
  rw [← this]
  congr 1
  apply String.ext
  rw [data_join3]

theorem signedText_data (h p s : List Char)
    (hh : '.' ∉ h) (hp : '.' ∉ p) (hs : '.' ∉ s) :
    signedText ⟨h ++ '.' :: (p ++ '.' :: s)⟩ = String.mk h ++ "." ++ String.mk p := by
  unfold signedText
  rw [splitOn_three _ _ _ hh hp hs]

theorem join_ne_left (h h1 p : List Char) (hne : h1 ≠ h) :
    String.mk h1 ++ "." ++ String.mk p ≠ String.mk h ++ "." ++ String.mk p := by
  intro e
  have := congrArg String.data e
  simp only [String.data_append] at this
  exact hne (List.append_cancel_right (List.append_cancel_right this))

theorem join_ne_right (h p p1 : List Char) (hne : p1 ≠ p) :
    String.mk h ++ "." ++ String.mk p1 ≠ String.mk h ++ "." ++ String.mk p := by
  intro e
  have := congrArg String.data e
  simp only [String.data_append] at this
  exact hne (List.append_cancel_left this)

/-! ## Lemmas on `authenticateRequest` -/

theorem drop_bearer (token : String) :
    (⟨("Bearer " ++ token).data.drop 7⟩ : String) = token := by
  apply String.ext
  simp [String.data_append]

theorem startsWith_bearer (token : String) : startsWith ("Bearer " ++ token) "Bearer " = true := by
  simp [startsWith, String.data_append]

theorem bearer_ne_empty (token : String) : "Bearer " ++ token ≠ "" := by
  intro h
  have := congrArg String.data h
  simp [String.data_append] at this

/-! ## Lemmas on the reference built-ins -/

theorem takeWhile_append_replicate (p : Char → Bool) (l : List Char) (k : Nat) (a : Char)
    (ha : p a = false) :
    (l ++ List.replicate k a).takeWhile p = l.takeWhile p := by
  induction l with
  | nil =>
    cases k with
    | zero => rfl
    | succ n => simp [List.replicate_succ, List.takeWhile_cons, ha]
  | cons x xs ih =>
    by_cases hx : p x = true
    · simp [List.takeWhile_cons, hx, ih]
    · simp [List.takeWhile_cons, hx]

theorem refNode_fromBase64_padding (l : List Char) (k : Nat) :
    refNode.fromBase64 ⟨l ++ List.replicate k '='⟩ = refNode.fromBase64 ⟨l⟩ := by
  have h : Ref.base64Decode (l ++ List.replicate k '=') = Ref.base64Decode l := by
    unfold Ref.base64Decode
    rw [takeWhile_append_replicate _ _ _ _ (by decide)]
  simp only [refNode, h]

/-- The reference built-ins read back what they wrote, once that is checked
without padding. -/
theorem refNode_decodes (claims : Json)
    (h1 : refNode.fromBase64 ⟨base64Body (refNode.toBase64 (refNode.stringify claims))⟩
      = refNode.stringify claims)
    (h2 : refNode.parse (refNode.stringify claims) = some claims) :
    Decodes refNode claims :=
  ⟨fun k _ _ => by rw [refNode_fromBase64_padding, h1], h2⟩

set_option maxRecDepth 1000000 in
/-- The reference built-ins write the administrator's token as base64 text. -/
theorem refNode_encodes_admin :
    Encodes refNode defaultSecret (Json.obj (jwtPayload 1700000000 adminClaims "24h")) :=
  ⟨by decide, by decide, by decide⟩

/-! ## Lemmas on `login` -/

theorem findUserByUsername_some (users : List User) (username : String) (u : User)
    (h : findUserByUsername users username = some u) :
    u ∈ users ∧ u.username = username ∧ u.isActive = true := by
  unfold findUserByUsername at h
  have h1 := List.find?_some h
  simp only [Bool.and_eq_true, decide_eq_true_eq] at h1
  exact ⟨List.mem_of_find?_eq_some h, h1.1, h1.2⟩

theorem findUserByUsername_none (users : List User) (username : String)
    (h : ∀ u ∈ users, u.username = username → u.isActive = false) :
    findUserByUsername users username = none := by
  unfold findUserByUsername
  rw [List.find?_eq_none]
  intro u hu
  simp only [Bool.and_eq_true, decide_eq_true_eq, not_and, Bool.not_eq_true]
  exact h u hu

theorem findUserByUsername_unique (users : List User) (username : String) (u : User)
    (hUnique : users.Pairwise (fun a b => a.username ≠ b.username))
    (hu : u ∈ users) (hname : u.username = username) (hactive : u.isActive = true) :
    findUserByUsername users username = some u := by
  unfold findUserByUsername
  induction users with
  | nil => simp at hu
  | cons x xs ih =>
    rw [List.pairwise_cons] at hUnique
    rcases List.mem_cons.1 hu with rfl | hmem
    · simp [List.find?_cons, hname, hactive]
    · have hx : x.username ≠ username := fun e => hUnique.1 u hmem (e.trans hname.symm)
      simp only [List.find?_cons, hx, decide_False, Bool.false_and]
      exact ih hUnique.2 hmem

theorem expiry_24h (now : Int) : expiry now "24h" = some (now + 86400) := by
  have h1 : endsWith "24h" 'h' = true := by decide
  have h2 : parseInt "24h" = some 24 := by decide
  simp only [expiry, h1, h2, if_true, Option.map_some']
  norm_num

theorem jwtPayload_loginClaims (now : Int) (u : User) :
    jwtPayload now (loginClaims u) "24h"
      = loginClaims u ++ [("iat", Json.num now), ("exp", Json.num (now + 86400))] := by
  simp [jwtPayload, expiry_24h, numberValue, loginClaims, setProp]

theorem login_of_found (N : Node) (secret : String) (users : List User) (now : Int)
    (isoNow : String) (writable : Bool) (username password : String) (u : User)
    (hfind : findUserByUsername users username = some u)
    (hhash : u.passwordHash = hashPassword N password) :
    login N secret users now isoNow writable username password
      = (LoginResult.success (generateToken N secret now (loginClaims u) "24h") (loginUser u),
         updateLastLogin users writable isoNow u.id) := by
  simp [login, hfind, verifyPassword, hhash]

theorem login_success_found (N : Node) (secret : String) (users : List User) (now : Int)
    (isoNow : String) (writable : Bool) (username password : String) (token : String)
    (user : Json)
    (h : (login N secret users now isoNow writable username password).1
      = LoginResult.success token user) :
    ∃ u, findUserByUsername users username = some u ∧ u.passwordHash = hashPassword N password := by
  unfold login at h
  cases hfind : findUserByUsername users username with
  | none => simp [hfind] at h
  | some u =>
    refine ⟨u, rfl, ?_⟩
    by_cases hv : verifyPassword N password u.passwordHash = true
    · unfold verifyPassword at hv
      exact (of_decide_eq_true hv).symm
    · simp [hfind, hv] at h

/-! ## Lemmas on `indexOf` -/

theorem parseLoop_none (N : Node) (body d e : List Nat) (fuel start : Nat) (parts : List Part) :
    parseLoop N body d e fuel start none parts = some parts := by
  cases fuel <;> rfl

theorem startsWithBytes_append (needle rest : List Nat) :
    startsWithBytes needle (needle ++ rest) = true := by
  simp [startsWithBytes]

theorem startsWithBytes_append_right (needle hay rest : List Nat)
    (h : needle.length ≤ hay.length) :
    startsWithBytes needle (hay ++ rest) = startsWithBytes needle hay := by
  simp [startsWithBytes, List.take_append_of_le_length h]

theorem findFrom_shift (needle : List Nat) (hay : List Nat) (pos : Nat) :
    findFrom needle hay pos = (findFrom needle hay 0).map (fun i => i + pos) := by
  induction hay generalizing pos with
  | nil =>
    by_cases h : needle = [] <;> simp [findFrom, h]
  | cons b rest ih =>
    by_cases h : startsWithBytes needle (b :: rest) = true
    · simp [findFrom, h]
    · simp only [findFrom, h, Bool.false_eq_true, if_false]
      rw [ih (pos + 1), ih (0 + 1)]
      cases findFrom needle rest 0 with
      | none => rfl
      | some i => simp [Nat.add_comm, Nat.add_left_comm]

theorem findFrom_bounds (needle : List Nat) (hay : List Nat) (pos i : Nat)
    (h : findFrom needle hay pos = some i) : pos ≤ i ∧ i ≤ pos + hay.length := by
  induction hay generalizing pos with
  | nil =>
    by_cases hn : needle = [] <;> simp [findFrom, hn] at h
    omega
  | cons b rest ih =>
    by_cases hs : startsWithBytes needle (b :: rest) = true
    · simp [findFrom, hs] at h
      simp only [List.length_cons]
      omega
    · simp only [findFrom, hs, Bool.false_eq_true, if_false] at h
      have := ih (pos + 1) h
      simp only [List.length_cons]
      omega

theorem findFrom_self (needle rest : List Nat) (pos : Nat) :
    findFrom needle (needle ++ rest) pos = some pos := by
  cases hl : needle ++ rest with
  | nil =>
    have : needle = [] := (List.append_eq_nil.1 hl).1
    simp [findFrom, this]
  | cons b t =>
    have := startsWithBytes_append needle rest
    rw [hl] at this
    simp [findFrom, this]

theorem findFrom_cons (needle : List Nat) (b : Nat) (rest : List Nat) (pos : Nat) :
    findFrom needle (b :: rest) pos
      = if startsWithBytes needle (b :: rest) = true then some pos
        else findFrom needle rest (pos + 1) := rfl

/-- If `needle` first stands in `a ++ needle` at the end of `a`, the same
holds with more bytes behind. -/
theorem findFrom_append (needle a rest : List Nat) (pos : Nat)
    (h : findFrom needle (a ++ needle) 0 = some a.length) :
    findFrom needle (a ++ needle ++ rest) pos = some (pos + a.length) := by
  induction a generalizing pos with
  | nil =>
    simp only [List.nil_append, List.length_nil, Nat.add_zero]
    exact findFrom_self needle rest pos
  | cons x a ih =>
    rw [List.cons_append, findFrom_cons] at h
    by_cases hs : startsWithBytes needle (x :: (a ++ needle)) = true
    · rw [if_pos hs] at h
      simp at h
    · rw [if_neg hs, findFrom_shift] at h
      have h0 : findFrom needle (a ++ needle) 0 = some a.length := by
        cases hf : findFrom needle (a ++ needle) 0 with
        | none => simp [hf] at h
        | some i =>
          simp only [hf, Option.map_some', List.length_cons, Option.some.injEq] at h
          congr 1
          omega
      have hs2 : ¬ startsWithBytes needle (x :: (a ++ needle ++ rest)) = true := by
        have := startsWithBytes_append_right needle (x :: (a ++ needle)) rest
          (by simp; omega)
        rw [List.cons_append] at this
        rw [this]
        exact hs
      rw [List.cons_append, List.cons_append, findFrom_cons, if_neg hs2, ih (pos + 1) h0,
        List.length_cons]
      congr 1
      omega

theorem findFrom_occurs (needle hay : List Nat) (pos i : Nat)
    (h : findFrom needle hay pos = some i) : needle <:+: hay := by
  induction hay generalizing pos with
  | nil =>
    by_cases hn : needle = [] <;> simp [findFrom, hn] at h
    subst hn
    exact List.nil_infix
  | cons b rest ih =>
    rw [findFrom_cons] at h
    by_cases hs : startsWithBytes needle (b :: rest) = true
    · simp only [startsWithBytes, decide_eq_true_eq] at hs
      have hp : needle <+: (b :: rest) := by
        rw [← hs]
        exact List.take_prefix _ _
      exact hp.isInfix
    · rw [if_neg hs] at h
      exact (ih (pos + 1) h).trans (List.suffix_cons b rest).isInfix

/-- When `needle` stands somewhere in `hay`, `findFrom` finds a place, no
later than that one. -/
theorem findFrom_of_occurrence (needle a rest : List Nat) (pos : Nat) :
    ∃ i, findFrom needle (a ++ needle ++ rest) pos = some i ∧ i ≤ pos + a.length := by
  induction a generalizing pos with
  | nil =>
    exact ⟨pos, by simpa using findFrom_self needle rest pos, by simp⟩
  | cons x a ih =>
    rw [List.cons_append, List.cons_append, findFrom_cons]
    by_cases hs : startsWithBytes needle (x :: (a ++ needle ++ rest)) = true
    · exact ⟨pos, by rw [if_pos hs], by simp⟩
    · obtain ⟨i, hi, hle⟩ := ih (pos + 1)
      refine ⟨i, by rw [if_neg hs, hi], ?_⟩
      simp only [List.length_cons]
      omega

/-- A place of `d ++ x` is a place of `d`: the first place of `d` is no
later than the first place of `d ++ x`. -/
theorem findFrom_prefix_le (d x hay : List Nat) (pos e : Nat)
    (h : findFrom (d ++ x) hay pos = some e) :
    ∃ i, findFrom d hay pos = some i ∧ i ≤ e := by
  induction hay generalizing pos with
  | nil =>
    by_cases hn : d ++ x = [] <;> simp [findFrom, hn] at h
    have hd : d = [] := (List.append_eq_nil.1 hn).1
    exact ⟨pos, by simp [findFrom, hd], by omega⟩
  | cons b rest ih =>
    rw [findFrom_cons]
    by_cases hs : startsWithBytes d (b :: rest) = true
    · refine ⟨pos, by rw [if_pos hs], ?_⟩
      exact (findFrom_bounds _ _ _ _ h).1
    · have hs2 : ¬ startsWithBytes (d ++ x) (b :: rest) = true := by
        intro hc
        apply hs
        simp only [startsWithBytes, decide_eq_true_eq] at hc ⊢
        have hp : d ++ x <+: b :: rest := by
          rw [← hc]
          exact List.take_prefix _ _
        have hp2 : d <+: b :: rest := (List.prefix_append d x).trans hp
        exact (List.prefix_iff_eq_take.1 hp2).symm
      rw [findFrom_cons, if_neg hs2] at h
      obtain ⟨i, hi, hle⟩ := ih (pos + 1) h
      exact ⟨i, by rw [if_neg hs, hi], hle⟩

theorem indexOf_zero (needle buf : List Nat) : indexOf needle buf 0 = findFrom needle buf 0 := by
  simp [indexOf]

theorem indexOf_drop (needle pre rest : List Nat) :
    indexOf needle (pre ++ rest) pre.length = findFrom needle rest pre.length := by
  simp [indexOf]

theorem slice_append (pre seg rest : List Nat) :
    slice (pre ++ seg ++ rest) pre.length (pre.length + seg.length) = seg := by
  simp [slice, List.take_append_eq_append_take, List.take_of_length_le]

/-! ## Lemmas on `parseMultipart` -/

theorem bufferFrom_append (a b : String) : bufferFrom (a ++ b) = bufferFrom a ++ bufferFrom b := by
  simp [bufferFrom, Ref.utf8Encode, String.data_append]

theorem bufferFrom_dashes : bufferFrom "--" = [45, 45] := by decide

theorem bufferFrom_delimiter (boundary : String) :
    bufferFrom ("--" ++ boundary) = 45 :: 45 :: bufferFrom boundary := by
  rw [bufferFrom_append, bufferFrom_dashes]
  rfl

theorem bufferFrom_closing (boundary : String) :
    bufferFrom ("--" ++ boundary ++ "--") = bufferFrom ("--" ++ boundary) ++ [45, 45] := by
  rw [bufferFrom_append ("--" ++ boundary), bufferFrom_dashes]

theorem indexOf_le_length (needle buf : List Nat) (start i : Nat)
    (h : indexOf needle buf start = some i) : min start buf.length ≤ i ∧ i ≤ buf.length := by
  unfold indexOf at h
  have := findFrom_bounds _ _ _ _ h
  simp only [List.length_drop] at this
  omega

theorem indexOf_beyond (needle buf : List Nat) (start : Nat) (hn : needle ≠ [])
    (h : buf.length < start) : indexOf needle buf start = none := by
  unfold indexOf
  rw [Nat.min_eq_right (le_of_lt h), List.drop_length]
  simp [findFrom, hn]

/-- With a non-empty delimiter the loop ends within `body.length - start + 1`
iterations. -/
theorem parseLoop_total (N : Node) (body d e : List Nat) (hd : d ≠ []) :
    ∀ (fuel start stop : Nat) (parts : List Part), start ≤ stop → stop ≤ body.length →
      body.length - start < fuel →
      ∃ result, parseLoop N body d e fuel start (some stop) parts = some result := by
  intro fuel
  induction fuel with
  | zero => intro start stop parts _ _ h; omega
  | succ fuel ih =>
    intro start stop parts h1 h2 h3
    unfold parseLoop
    simp only
    split
    · exact ⟨_, rfl⟩
    · rename_i hcond
      cases hs : indexOf d body (stop + d.length + 2) with
      | none => simp [hs] at hcond
      | some stop1 =>
        have hle : stop + d.length + 2 ≤ body.length := by
          by_contra hgt
          rw [indexOf_beyond d body _ hd (by omega)] at hs
          exact absurd hs (by simp)
        have hb := indexOf_le_length _ _ _ _ hs
        rw [Nat.min_eq_left hle] at hb
        exact ih _ _ _ hb.1 hb.2 (by omega)

theorem parseMultipart_total (N : Node) (body : List Nat) (boundary : String) :
    ∃ result, parseMultipart N body boundary = some result := by
  unfold parseMultipart
  cases hs : indexOf (bufferFrom ("--" ++ boundary)) body 0 with
  | none => exact ⟨_, parseLoop_none _ _ _ _ _ _ _⟩
  | some stop =>
    have hb := indexOf_le_length _ _ _ _ hs
    exact parseLoop_total N body _ _ (by rw [bufferFrom_delimiter]; simp) _ _ _ _
      (Nat.zero_le _) hb.2 (by omega)

/-- Every part of the result was read from the bytes between a positive
`start` and the next delimiter, or was there before. -/
theorem parseLoop_mem (N : Node) (body d e : List Nat) :
    ∀ (fuel start : Nat) (stop : Option Nat) (parts result : List Part),
      stop = indexOf d body start →
      parseLoop N body d e fuel start stop parts = some result →
      ∀ p ∈ result, p ∈ parts ∨ ∃ s t, 0 < s ∧ indexOf d body s = some t
        ∧ readPart N (slice body s t) = some p := by
  intro fuel
  induction fuel with
  | zero =>
    intro start stop parts result _ h p hp
    cases stop with
    | none =>
      rw [parseLoop_none] at h
      injection h with h
      subst h
      exact Or.inl hp
    | some t => simp [parseLoop] at h
  | succ fuel ih =>
    intro start stop parts result hstop h p hp
    cases stop with
    | none =>
      rw [parseLoop_none] at h
      injection h with h
      subst h
      exact Or.inl hp
    | some t =>
      have hparts1 : ∀ q ∈ (if start > 0 then pushPart N parts (slice body start t) else parts),
          q ∈ parts ∨ ∃ s t, 0 < s ∧ indexOf d body s = some t
            ∧ readPart N (slice body s t) = some q := by
        intro q hq
        by_cases h0 : start > 0
        · rw [if_pos h0] at hq
          unfold pushPart at hq
          cases hr : readPart N (slice body start t) with
          | none =>
            rw [hr] at hq
            exact Or.inl hq
          | some part =>
            rw [hr] at hq
            rcases List.mem_append.1 hq with hq | hq
            · exact Or.inl hq
            · rw [List.mem_singleton] at hq
              subst hq
              exact Or.inr ⟨start, t, h0, hstop.symm, hr⟩
        · rw [if_neg h0] at hq
          exact Or.inl hq
      unfold parseLoop at h
      simp only at h
      split at h
      · injection h with h
        subst h
        exact hparts1 p hp
      · rcases ih _ _ _ _ rfl h p hp with hq | hq
        · exact hparts1 p hq
        · exact Or.inr hq

theorem firstMatch_some (matchAt : List Char → Option (List Char)) (s run : List Char)
    (h : firstMatch matchAt s = some run) : ∃ t, t <:+ s ∧ matchAt t = some run := by
  induction s with
  | nil => simp [firstMatch] at h
  | cons c cs ih =>
    unfold firstMatch at h
    cases hm : matchAt (c :: cs) with
    | some r =>
      rw [hm] at h
      injection h with h
      subst h
      exact ⟨c :: cs, List.suffix_refl _, hm⟩
    | none =>
      rw [hm] at h
      obtain ⟨t, ht, hr⟩ := ih h
      exact ⟨t, ht.trans (List.suffix_cons c cs), hr⟩

theorem quotedAt_ne_nil (key s run : List Char) (h : quotedAt key s = some run) : run ≠ [] := by
  unfold quotedAt at h
  split at h
  · simp only at h
    split at h
    · rename_i hc
      injection h with h
      rw [← h]
      exact hc.1
    · exact absurd h (by simp)
  · exact absurd h (by simp)

theorem matchQuoted_ne_nil (key s run : List Char) (h : matchQuoted key s = some run) :
    run ≠ [] := by
  obtain ⟨t, _, ht⟩ := firstMatch_some _ _ _ h
  exact quotedAt_ne_nil key t run ht

theorem readPart_some (N : Node) (partData : List Nat) (p : Part)
    (h : readPart N partData = some p) :
    ∃ headerEnd, indexOf blankLine partData 0 = some headerEnd
      ∧ matchQuoted nameKey (N.bufferToString (partData.take headerEnd)).data = some p.name.data
      ∧ p.data = partData.drop (headerEnd + 4)
      ∧ p.filename
          = (matchQuoted filenameKey (N.bufferToString (partData.take headerEnd)).data).map
              String.mk
      ∧ p.contentType
          = (matchLine contentTypeKey (N.bufferToString (partData.take headerEnd)).data).map
              String.mk := by
  unfold readPart at h
  cases hi : indexOf blankLine partData 0 with
  | none => simp [hi] at h
  | some headerEnd =>
    simp only [hi] at h
    cases hm : matchQuoted nameKey (N.bufferToString (partData.take headerEnd)).data with
    | none => simp [hm] at h
    | some name =>
      simp only [hm, Option.some.injEq] at h
      subst h
      exact ⟨headerEnd, rfl, hm, rfl, rfl, rfl⟩

theorem readPart_none_of_no_name (N : Node) (partData : List Nat)
    (h : ∀ headerEnd, indexOf blankLine partData 0 = some headerEnd →
      matchQuoted nameKey (N.bufferToString (partData.take headerEnd)).data = none) :
    readPart N partData = none := by
  unfold readPart
  cases hi : indexOf blankLine partData 0 with
  | none => rfl
  | some headerEnd => simp [h headerEnd hi]

/-! ## Lemmas on the patterns of `parseMultipart` -/

/-- The test that a text and a key agree as far as both reach. -/
theorem take_agree (a rest key : List Char) (h : (a ++ rest).take key.length = key) :
    a.take key.length = key.take a.length := by
  have h1 : ((a ++ rest).take key.length).take a.length = key.take a.length := by rw [h]
  rw [List.take_take] at h1
  rw [← h1]
  by_cases hle : key.length ≤ a.length
  · rw [Nat.min_eq_right hle, List.take_append_of_le_length hle]
  · have hlt : a.length ≤ key.length := by omega
    rw [Nat.min_eq_left hlt, List.take_append_of_le_length (le_refl _), List.take_length,
      List.take_of_length_le hlt]

theorem firstMatch_cons_none (matchAt : List Char → Option (List Char)) (c : Char)
    (cs : List Char) (h : matchAt (c :: cs) = none) :
    firstMatch matchAt (c :: cs) = firstMatch matchAt cs := by
  show (match matchAt (c :: cs) with
    | some run => some run
    | none => firstMatch matchAt cs) = _
  rw [h]

theorem firstMatch_skip (matchAt : List Char → Option (List Char)) (pre rest : List Char)
    (h : ∀ i, i < pre.length → matchAt (pre.drop i ++ rest) = none) :
    firstMatch matchAt (pre ++ rest) = firstMatch matchAt rest := by
  induction pre with
  | nil => rfl
  | cons x pre ih =>
    have h0 := h 0 (by simp)
    simp only [List.drop_zero] at h0
    rw [List.cons_append] at h0 ⊢
    rw [firstMatch_cons_none _ _ _ h0]
    apply ih
    intro i hi
    exact h (i + 1) (by simpa using hi)

theorem firstMatch_head (matchAt : List Char → Option (List Char)) (s run : List Char)
    (hs : s ≠ []) (h : matchAt s = some run) : firstMatch matchAt s = some run := by
  cases s with
  | nil => exact absurd rfl hs
  | cons c cs =>
    show (match matchAt (c :: cs) with
      | some run => some run
      | none => firstMatch matchAt cs) = _
    rw [h]

theorem quotedAt_none (key s : List Char) (h : s.take key.length ≠ key) :
    quotedAt key s = none := by
  simp [quotedAt, h]

theorem lineAt_none (key s : List Char) (h : s.take key.length ≠ key) :
    lineAt key s = none := by
  simp [lineAt, h]

/-- No match of a key starts in a text none of whose ends agrees with the
key. -/
theorem skip_quoted (key pre rest : List Char)
    (h : ∀ i, i < pre.length → (pre.drop i).take key.length ≠ key.take (pre.drop i).length) :
    firstMatch (quotedAt key) (pre ++ rest) = firstMatch (quotedAt key) rest := by
  apply firstMatch_skip
  intro i hi
  apply quotedAt_none
  intro hc
  exact h i hi (take_agree _ _ _ hc)

theorem skip_line (key pre rest : List Char)
    (h : ∀ i, i < pre.length → (pre.drop i).take key.length ≠ key.take (pre.drop i).length) :
    firstMatch (lineAt key) (pre ++ rest) = firstMatch (lineAt key) rest := by
  apply firstMatch_skip
  intro i hi
  apply lineAt_none
  intro hc
  exact h i hi (take_agree _ _ _ hc)

theorem takeWhile_append_stop (p : Char → Bool) (v rest : List Char) (x : Char)
    (hv : ∀ c ∈ v, p c = true) (hx : p x = false) :
    (v ++ x :: rest).takeWhile p = v := by
  induction v with
  | nil => simp [List.takeWhile, hx]
  | cons c v ih =>
    have hc := hv c (by simp)
    rw [List.cons_append, List.takeWhile_cons, hc]
    simp only [if_true]
    rw [ih (fun d hd => hv d (by simp [hd]))]

theorem quotedAt_match (key v rest : List Char) (hq : '"' ∉ v) (hne : v ≠ []) :
    quotedAt key (key ++ (v ++ '"' :: rest)) = some v := by
  unfold quotedAt
  have h1 : (key ++ (v ++ '"' :: rest)).take key.length = key := by simp
  have h2 : (key ++ (v ++ '"' :: rest)).drop key.length = v ++ '"' :: rest := by simp
  have h3 : (v ++ '"' :: rest).takeWhile (fun c => decide (c ≠ '"')) = v := by
    apply takeWhile_append_stop
    · intro c hc
      simp only [ne_eq, decide_eq_true_eq]
      rintro rfl
      exact hq hc
    · simp
  have h4 : (key ++ (v ++ '"' :: rest)).drop (key.length + v.length) = '"' :: rest := by
    rw [← List.drop_drop, h2]
    simp
  rw [if_pos h1]
  simp only [h2, h3, h4]
  simp [hne]

theorem lineAt_match (key v : List Char) (hv : ∀ c ∈ v, c ≠ '\r' ∧ c ≠ '\n') (hne : v ≠ []) :
    lineAt key (key ++ v) = some v := by
  unfold lineAt
  have h1 : (key ++ v).take key.length = key := by simp
  have h2 : (key ++ v).drop key.length = v := by simp
  have h3 : v.takeWhile (fun c => decide (c ≠ '\r' ∧ c ≠ '\n')) = v := by
    rw [List.takeWhile_eq_self_iff]
    intro c hc
    simpa using hv c hc
  rw [if_pos h1]
  simp only [h2, h3]
  simp [hne]

/-- A key that ends in a quote does not stand where a quote-free value that
is not the key without its quote meets its closing quote. -/
theorem take_closing_quote (k m rest : List Char) (hm : '"' ∉ m) (hk : '"' ∉ k) (hne : m ≠ k) :
    (m ++ '"' :: rest).take (k ++ ['"']).length ≠ k ++ ['"'] := by
  induction m generalizing k with
  | nil =>
    cases k with
    | nil => exact absurd rfl hne
    | cons c k =>
      intro h
      simp only [List.nil_append, List.cons_append, List.length_cons, List.take_succ_cons,
        List.cons.injEq] at h
      exact hk (by simp [← h.1])
  | cons x m ih =>
    cases k with
    | nil =>
      intro h
      simp only [List.nil_append, List.cons_append, List.length_cons, List.length_nil,
        List.take_succ_cons, List.take_zero, List.cons.injEq, and_true] at h
      exact hm (by simp [h])
    | cons c k =>
      intro h
      simp only [List.cons_append, List.length_cons, List.take_succ_cons, List.cons.injEq] at h
      have hmk : m ≠ k := by
        intro e
        apply hne
        rw [h.1, e]
      exact ih k (fun hq => hm (by simp [hq])) (fun hq => hk (by simp [hq])) hmk
        (by simpa using h.2)

/-- A quote-free key that stands where a value meets its closing quote
stands in the value. -/
theorem take_before_quote (key m rest : List Char) (hk : '"' ∉ key)
    (h : (m ++ '"' :: rest).take key.length = key) : key <+: m := by
  induction m generalizing key with
  | nil =>
    cases key with
    | nil => exact List.nil_prefix
    | cons c k =>
      simp only [List.nil_append, List.length_cons, List.take_succ_cons, List.cons.injEq] at h
      exact absurd (by simp [← h.1]) hk
  | cons x m ih =>
    cases key with
    | nil => exact List.nil_prefix
    | cons c k =>
      simp only [List.cons_append, List.length_cons, List.take_succ_cons, List.cons.injEq] at h
      rw [h.1]
      exact (List.cons_prefix_cons).2 ⟨rfl, ih k (fun hq => hk (by simp [hq])) h.2⟩

theorem skip_value_quoted (k v rest : List Char) (hv : '"' ∉ v) (hk : '"' ∉ k)
    (hend : ¬ k <:+ v) :
    firstMatch (quotedAt (k ++ ['"'])) (v ++ '"' :: rest)
      = firstMatch (quotedAt (k ++ ['"'])) ('"' :: rest) := by
  apply firstMatch_skip
  intro i _
  apply quotedAt_none
  apply take_closing_quote
  · exact fun hq => hv (List.mem_of_mem_drop hq)
  · exact hk
  · intro e
    apply hend
    rw [← e]
    exact List.drop_suffix i v

theorem skip_value_line (key v rest : List Char) (hk : '"' ∉ key) (hin : ¬ key <:+: v) :
    firstMatch (lineAt key) (v ++ '"' :: rest) = firstMatch (lineAt key) ('"' :: rest) := by
  apply firstMatch_skip
  intro i _
  apply lineAt_none
  intro hc
  apply hin
  exact (take_before_quote key _ rest hk hc).isInfix.trans (List.drop_suffix i v).isInfix

theorem firstMatch_quoted_none (key s : List Char) (hk : '"' ∈ key) (hs : '"' ∉ s) :
    firstMatch (quotedAt key) s = none := by
  induction s with
  | nil => rfl
  | cons c cs ih =>
    have hnone : quotedAt key (c :: cs) = none := by
      apply quotedAt_none
      intro h
      have hmem : '"' ∈ (c :: cs).take key.length := by rw [h]; exact hk
      exact hs (List.mem_of_mem_take hmem)
    rw [firstMatch_cons_none _ _ _ hnone]
    exact ih (fun hq => hs (by simp [hq]))

/-! ## The patterns on the standard encoding -/

theorem filenameKey_eq : filenameKey = filenameKey.dropLast ++ ['"'] := by decide

theorem matchLine_contentTypeText (t : Option String)
    (ht : ∀ contentType, t = some contentType →
      contentType.data ≠ [] ∧ '"' ∉ contentType.data ∧ '\r' ∉ contentType.data
        ∧ '\n' ∉ contentType.data) :
    firstMatch (lineAt contentTypeKey) (contentTypeText t) = t.map String.data := by
  cases t with
  | none => rfl
  | some T =>
    obtain ⟨hne, _, hr, hn⟩ := ht T rfl
    show firstMatch (lineAt contentTypeKey) (['\r', '\n'] ++ (contentTypeKey ++ T.data)) = _
    rw [skip_line contentTypeKey ['\r', '\n'] _ (by decide)]
    rw [firstMatch_head _ _ T.data (by simp [contentTypeKey])
      (lineAt_match contentTypeKey T.data
        (fun c hc => ⟨fun e => hr (e ▸ hc), fun e => hn (e ▸ hc)⟩) hne)]
    rfl

theorem not_quote_mem_contentTypeText (t : Option String)
    (ht : ∀ contentType, t = some contentType →
      contentType.data ≠ [] ∧ '"' ∉ contentType.data ∧ '\r' ∉ contentType.data
        ∧ '\n' ∉ contentType.data) :
    '"' ∉ contentTypeText t := by
  cases t with
  | none => simp [contentTypeText]
  | some T =>
    obtain ⟨_, hq, _, _⟩ := ht T rfl
    show '"' ∉ ['\r', '\n'] ++ (contentTypeKey ++ T.data)
    simp only [List.mem_append, not_or]
    exact ⟨by decide, by decide, hq⟩

/-- The pattern of the name reads the name back from a header block. -/
theorem matchQuoted_name (N : Node) (boundary : String) (p : Part)
    (hp : PlainPart N boundary p) :
    matchQuoted nameKey (headerText p).data = some p.name.data := by
  show firstMatch (quotedAt nameKey) (dispositionText ++ (nameKey ++ (p.name.data ++
    '"' :: (filenameText p.filename ++ contentTypeText p.contentType)))) = _
  rw [skip_quoted nameKey dispositionText _ (by decide)]
  exact firstMatch_head _ _ _ (by simp [nameKey])
    (quotedAt_match nameKey p.name.data _ hp.name_quote hp.name_ne)

/-- The pattern of the filename reads the filename back, and nothing when
none is declared. -/
theorem matchQuoted_filename (N : Node) (boundary : String) (p : Part)
    (hp : PlainPart N boundary p) :
    matchQuoted filenameKey (headerText p).data = p.filename.map String.data := by
  show firstMatch (quotedAt filenameKey) (dispositionText ++ (nameKey ++ (p.name.data ++
    '"' :: (filenameText p.filename ++ contentTypeText p.contentType)))) = _
  rw [← List.append_assoc, skip_quoted filenameKey (dispositionText ++ nameKey) _ (by decide)]
  rw [filenameKey_eq, skip_value_quoted filenameKey.dropLast p.name.data _ hp.name_quote
    (by decide) hp.name_end, ← filenameKey_eq]
  rw [show ('"' :: (filenameText p.filename ++ contentTypeText p.contentType))
      = ['"'] ++ (filenameText p.filename ++ contentTypeText p.contentType) from rfl,
    skip_quoted filenameKey ['"'] _ (by decide)]
  cases hf : p.filename with
  | none =>
    show firstMatch (quotedAt filenameKey) ([] ++ contentTypeText p.contentType) = none
    rw [List.nil_append]
    exact firstMatch_quoted_none filenameKey _ (by decide)
      (not_quote_mem_contentTypeText _ hp.contentType_ok)
  | some F =>
    obtain ⟨hne, hq, _⟩ := hp.filename_ok F hf
    show firstMatch (quotedAt filenameKey)
      (([';', ' '] ++ (filenameKey ++ (F.data ++ ['"']))) ++ contentTypeText p.contentType) = _
    rw [List.append_assoc, skip_quoted filenameKey [';', ' '] _ (by decide)]
    rw [List.append_assoc, List.append_assoc]
    exact firstMatch_head _ _ _ (by simp [filenameKey])
      (quotedAt_match filenameKey F.data _ hq hne)

/-- The pattern of the content type reads the content type back, and
nothing when none is declared. -/
theorem matchLine_contentType (N : Node) (boundary : String) (p : Part)
    (hp : PlainPart N boundary p) :
    matchLine contentTypeKey (headerText p).data = p.contentType.map String.data := by
  show firstMatch (lineAt contentTypeKey) (dispositionText ++ (nameKey ++ (p.name.data ++
    '"' :: (filenameText p.filename ++ contentTypeText p.contentType)))) = _
  rw [← List.append_assoc, skip_line contentTypeKey (dispositionText ++ nameKey) _ (by decide)]
  rw [skip_value_line contentTypeKey p.name.data _ (by decide) hp.name_type]
  rw [show ('"' :: (filenameText p.filename ++ contentTypeText p.contentType))
      = ['"'] ++ (filenameText p.filename ++ contentTypeText p.contentType) from rfl,
    skip_line contentTypeKey ['"'] _ (by decide)]
  cases hf : p.filename with
  | none =>
    show firstMatch (lineAt contentTypeKey) ([] ++ contentTypeText p.contentType) = _
    rw [List.nil_append]
    exact matchLine_contentTypeText _ hp.contentType_ok
  | some F =>
    obtain ⟨_, hq, hin⟩ := hp.filename_ok F hf
    show firstMatch (lineAt contentTypeKey)
      ((([';', ' '] ++ filenameKey) ++ (F.data ++ ['"'])) ++ contentTypeText p.contentType) = _
    rw [List.append_assoc, skip_line contentTypeKey ([';', ' '] ++ filenameKey) _ (by decide)]
    rw [List.append_assoc]
    rw [show (['"'] ++ contentTypeText p.contentType) = '"' :: contentTypeText p.contentType
      from rfl]
    rw [skip_value_line contentTypeKey F.data _ (by decide) hin]
    rw [show ('"' :: contentTypeText p.contentType) = ['"'] ++ contentTypeText p.contentType
      from rfl, skip_line contentTypeKey ['"'] _ (by decide)]
    exact matchLine_contentTypeText _ hp.contentType_ok

/-! ## `parseMultipart` on the standard encoding -/

theorem readPart_encodeSegment (N : Node) (boundary : String) (p : Part)
    (hp : PlainPart N boundary p) :
    readPart N (encodeSegment p) = some (received p) := by
  have hidx : indexOf blankLine (encodeSegment p) 0
      = some (bufferFrom (headerText p)).length := by
    have h := findFrom_append blankLine (bufferFrom (headerText p)) (p.data ++ [13, 10]) 0
      (by rw [← indexOf_zero]; exact hp.blank)
    rw [indexOf_zero]
    unfold encodeSegment
    rw [← List.append_assoc, h, Nat.zero_add]
  have htake : (encodeSegment p).take (bufferFrom (headerText p)).length
      = bufferFrom (headerText p) := by
    unfold encodeSegment
    rw [List.take_left']
    rfl
  have hdrop : (encodeSegment p).drop ((bufferFrom (headerText p)).length + 4)
      = p.data ++ [13, 10] := by
    unfold encodeSegment
    rw [← List.drop_drop, List.drop_left']
    · rfl
    · rfl
  unfold readPart
  rw [hidx]
  simp only [htake, hdrop, hp.decoded, matchQuoted_name N boundary p hp,
    matchQuoted_filename N boundary p hp, matchLine_contentType N boundary p hp]
  unfold received
  congr 1
  cases p with
  | mk name data filename contentType =>
    simp only [Part.mk.injEq, true_and]
    refine ⟨?_, ?_⟩
    · cases filename <;> rfl
    · cases contentType <;> rfl

theorem pushPart_some (N : Node) (acc : List Part) (partData : List Nat) (p : Part)
    (h : readPart N partData = some p) : pushPart N acc partData = acc ++ [p] := by
  unfold pushPart
  rw [h]

theorem encodeTail_closing (d epilogue : List Nat) (parts : List Part) :
    ∃ a rest, d ++ encodeTail d epilogue parts = a ++ (d ++ [45, 45]) ++ rest := by
  induction parts with
  | nil => exact ⟨[], epilogue, by simp [encodeTail]⟩
  | cons p ps ih =>
    obtain ⟨a, rest, h⟩ := ih
    refine ⟨d ++ 13 :: 10 :: encodeSegment p ++ a, rest, ?_⟩
    simp only [encodeTail]
    rw [h]
    simp

/-- The loop on an encoded body, entered at a delimiter: it returns the
parts so far and the parts of the encoding. -/
theorem parseLoop_encode (N : Node) (boundary : String) (epilogue : List Nat)
    (hEpi : indexOf (bufferFrom ("--" ++ boundary)) epilogue 0 = none) (body : List Nat) :
    ∀ (parts : List Part) (pre : List Nat) (acc : List Part) (fuel s : Nat),
      (∀ p ∈ parts, PlainPart N boundary p) → parts.length < fuel →
      body = pre ++ (bufferFrom ("--" ++ boundary)
        ++ encodeTail (bufferFrom ("--" ++ boundary)) epilogue parts) →
      parseLoop N body (bufferFrom ("--" ++ boundary))
          (bufferFrom ("--" ++ boundary) ++ [45, 45]) fuel s (some pre.length) acc
        = some ((if s > 0 then pushPart N acc (slice body s pre.length) else acc)
            ++ parts.map received) := by
  intro parts
  induction parts with
  | nil =>
    intro pre acc fuel s _ hfuel hbody
    obtain ⟨fuel, rfl⟩ : ∃ f, fuel = f + 1 := ⟨fuel - 1, by simp at hfuel; omega⟩
    have hb : body = (pre ++ bufferFrom ("--" ++ boundary) ++ [45, 45]) ++ epilogue := by
      rw [hbody]
      simp [encodeTail]
    have hstop : indexOf (bufferFrom ("--" ++ boundary)) body
        (pre.length + (bufferFrom ("--" ++ boundary)).length + 2) = none := by
      have hl : (pre ++ bufferFrom ("--" ++ boundary) ++ [45, 45]).length
          = pre.length + (bufferFrom ("--" ++ boundary)).length + 2 := by
        rw [List.length_append, List.length_append]
        rfl
      rw [hb, ← hl, indexOf_drop, findFrom_shift, ← indexOf_zero, hEpi]
      rfl
    unfold parseLoop
    simp only [hstop, Bool.or_true, decide_True, if_true, List.map_nil, List.append_nil]
  | cons p ps ih =>
    intro pre acc fuel s hparts hfuel hbody
    obtain ⟨fuel, rfl⟩ : ∃ f, fuel = f + 1 := ⟨fuel - 1, by simp at hfuel; omega⟩
    have hp := hparts p (by simp)
    have hb : body = (pre ++ bufferFrom ("--" ++ boundary) ++ [13, 10])
        ++ (encodeSegment p ++ bufferFrom ("--" ++ boundary)
          ++ encodeTail (bufferFrom ("--" ++ boundary)) epilogue ps) := by
      rw [hbody]
      simp [encodeTail]
    have hl : (pre ++ bufferFrom ("--" ++ boundary) ++ [13, 10]).length
        = pre.length + (bufferFrom ("--" ++ boundary)).length + 2 := by
      rw [List.length_append, List.length_append]
      rfl
    have hstop : indexOf (bufferFrom ("--" ++ boundary)) body
        (pre.length + (bufferFrom ("--" ++ boundary)).length + 2)
        = some (pre.length + (bufferFrom ("--" ++ boundary)).length + 2
            + (encodeSegment p).length) := by
      rw [hb, ← hl, indexOf_drop]
      exact findFrom_append _ _ _ _ (by rw [← indexOf_zero]; exact hp.delimiter)
    have hclose : ∃ e, indexOf (bufferFrom ("--" ++ boundary) ++ [45, 45]) body
        (pre.length + (bufferFrom ("--" ++ boundary)).length + 2) = some e
        ∧ pre.length + (bufferFrom ("--" ++ boundary)).length + 2
            + (encodeSegment p).length ≤ e := by
      obtain ⟨a, rest, ha⟩ := encodeTail_closing (bufferFrom ("--" ++ boundary)) epilogue ps
      have hocc := findFrom_of_occurrence (bufferFrom ("--" ++ boundary) ++ [45, 45])
        (encodeSegment p ++ a) rest (pre.length + (bufferFrom ("--" ++ boundary)).length + 2)
      obtain ⟨e, he, _⟩ := hocc
      have hrw : encodeSegment p ++ a ++ (bufferFrom ("--" ++ boundary) ++ [45, 45]) ++ rest
          = encodeSegment p ++ bufferFrom ("--" ++ boundary)
            ++ encodeTail (bufferFrom ("--" ++ boundary)) epilogue ps := by
        rw [List.append_assoc (encodeSegment p) (bufferFrom ("--" ++ boundary)), ha]
        simp
      rw [hrw] at he
      refine ⟨e, ?_, ?_⟩
      · rw [hb, ← hl, indexOf_drop, hl]
        exact he
      · obtain ⟨i, hi, hle⟩ := findFrom_prefix_le _ _ _ _ _ he
        have hi2 := findFrom_append (bufferFrom ("--" ++ boundary)) (encodeSegment p)
          (encodeTail (bufferFrom ("--" ++ boundary)) epilogue ps)
          (pre.length + (bufferFrom ("--" ++ boundary)).length + 2)
          (by rw [← indexOf_zero]; exact hp.delimiter)
        rw [hi2] at hi
        injection hi with hi
        omega
    obtain ⟨e, he, hle⟩ := hclose
    have hslice : slice body (pre.length + (bufferFrom ("--" ++ boundary)).length + 2)
        (pre.length + (bufferFrom ("--" ++ boundary)).length + 2 + (encodeSegment p).length)
        = encodeSegment p := by
      have hb2 : body = (pre ++ bufferFrom ("--" ++ boundary) ++ [13, 10]) ++ encodeSegment p
          ++ (bufferFrom ("--" ++ boundary)
            ++ encodeTail (bufferFrom ("--" ++ boundary)) epilogue ps) := by
        rw [hb]
        simp
      rw [hb2, ← hl]
      exact slice_append _ _ _
    have hl2 : (pre ++ bufferFrom ("--" ++ boundary) ++ [13, 10] ++ encodeSegment p).length
        = pre.length + (bufferFrom ("--" ++ boundary)).length + 2 + (encodeSegment p).length := by
      rw [List.length_append, hl]
    have hpos : pre.length + (bufferFrom ("--" ++ boundary)).length + 2 > 0 := by omega
    have hnl : ¬ e < pre.length + (bufferFrom ("--" ++ boundary)).length + 2
        + (encodeSegment p).length := by omega
    rw [parseLoop]
    simp only [hstop, he, indexLess, hnl, decide_False, Bool.false_or, reduceCtorEq,
      Bool.false_eq_true, if_false]
    generalize (if s > 0 then pushPart N acc (slice body s pre.length) else acc) = acc1
    have hnext := ih (pre ++ bufferFrom ("--" ++ boundary) ++ [13, 10] ++ encodeSegment p)
      acc1 fuel (pre.length + (bufferFrom ("--" ++ boundary)).length + 2)
      (fun q hq => hparts q (by simp [hq])) (by simp at hfuel; omega)
      (by rw [hbody]; simp [encodeTail])
    rw [hl2, hslice, if_pos hpos,
      pushPart_some N acc1 _ _ (readPart_encodeSegment N boundary p hp)] at hnext
    rw [hnext]
    simp

/-- What `parseMultipart` returns on the encoding of plain parts. -/
theorem parseMultipart_encodeBody (N : Node) (boundary : String) (parts : List Part)
    (epilogue : List Nat)
    (hEpi : indexOf (bufferFrom ("--" ++ boundary)) epilogue 0 = none)
    (hparts : ∀ p ∈ parts, PlainPart N boundary p) :
    parseMultipart N (encodeBody boundary parts epilogue) boundary
      = some (parts.map received) := by
  unfold parseMultipart
  have hfirst : indexOf (bufferFrom ("--" ++ boundary)) (encodeBody boundary parts epilogue) 0
      = some 0 := by
    rw [indexOf_zero]
    exact findFrom_self _ _ _
  have hlen : parts.length < (encodeBody boundary parts epilogue).length + 1 := by
    unfold encodeBody
    rw [List.length_append]
    have : ∀ ps : List Part,
        ps.length ≤ (encodeTail (bufferFrom ("--" ++ boundary)) epilogue ps).length := by
      intro ps
      induction ps with
      | nil => simp
      | cons q qs ihq => simp [encodeTail]; omega
    have := this parts
    omega
  rw [hfirst, bufferFrom_closing]
  have h := parseLoop_encode N boundary epilogue hEpi (encodeBody boundary parts epilogue)
    parts [] [] _ 0 hparts hlen rfl
  simpa using h

/-! ## Lemmas on names, the sample parts and uploads -/

theorem quotedAt_occurs (key t run : List Char) (h : quotedAt key t = some run) :
    key ++ run ++ ['"'] <+: t := by
  unfold quotedAt at h
  split at h
  · rename_i hk
    simp only at h
    split at h
    · rename_i hc
      injection h with h
      obtain ⟨_, hq⟩ := hc
      rw [h] at hq
      have h1 : t = key ++ t.drop key.length := by
        conv_lhs => rw [← List.take_append_drop key.length t, hk]
      have h2 := List.takeWhile_append_dropWhile (fun c => decide (c ≠ '"')) (t.drop key.length)
      rw [h] at h2
      have h3 : t.drop (key.length + run.length) = (t.drop key.length).dropWhile
          (fun c => decide (c ≠ '"')) := by
        rw [← List.drop_drop]
        conv_lhs => rw [← h2]
        exact List.drop_left' rfl
      rw [h3] at hq
      cases hd : (t.drop key.length).dropWhile (fun c => decide (c ≠ '"')) with
      | nil => rw [hd] at hq; cases hq
      | cons c rest =>
        rw [hd] at hq h2
        injection hq with hq
        subst hq
        refine ⟨rest, ?_⟩
        conv_rhs => rw [h1, ← h2]
        simp
    · cases h
  · cases h

theorem matchQuoted_occurs (key s run : List Char) (h : matchQuoted key s = some run) :
    key ++ run ++ ['"'] <:+: s := by
  obtain ⟨t, hsuf, hat⟩ := firstMatch_some _ _ _ h
  obtain ⟨rest, hrest⟩ := quotedAt_occurs key t run hat
  obtain ⟨pre, hpre⟩ := hsuf
  exact ⟨pre, rest, by rw [← hpre, ← hrest]; simp⟩

theorem titlePart_plain : PlainPart refNode sampleBoundary titlePart :=
  ⟨by decide, by decide, by decide, by decide, (fun _ h => by cases h), (fun _ h => by cases h),
    by decide, by decide, by decide⟩

set_option maxRecDepth 1000000 in
theorem photoPart_plain : PlainPart refNode sampleBoundary photoPart :=
  ⟨by decide, by decide, by decide, by decide,
    (fun filename h => by
      have hf : filename = "a.png" := (Option.some.inj h).symm
      subst hf
      decide),
    (fun contentType h => by
      have hf : contentType = "image/png" := (Option.some.inj h).symm
      subst hf
      decide),
    by decide, by decide, by decide⟩

theorem uploadImage_written (parts : List Part) (files : List (String × List Nat))
    (h : uploadImage parts = UploadAnswer.written files) :
    ∃ part ∈ parts, files = [(part.filename.getD "", part.data)]
      ∧ (∃ contentType, part.contentType = some contentType ∧ contentType ∈ allowedTypes)
      ∧ part.data.length ≤ maxSize := by
  unfold uploadImage at h
  split at h
  · cases h
  · rename_i imagePart hfind
    have hmem := List.mem_of_find?_eq_some hfind
    have himg := List.find?_some hfind
    split at h
    · cases h
    · rename_i hallowed
      split at h
      · cases h
      · rename_i hsize
        injection h with h
        refine ⟨imagePart, hmem, h.symm, ?_, Nat.le_of_not_lt hsize⟩
        cases hct : imagePart.contentType with
        | none =>
          unfold isImagePart at himg
          rw [hct] at himg
          cases hfn : imagePart.filename <;> rw [hfn] at himg <;> simp at himg
        | some contentType =>
          rw [hct] at hallowed
          refine ⟨contentType, rfl, ?_⟩
          simpa using hallowed

/-! ## Lemmas on the API routes -/

theorem hasHandler_mem (path method : String) (h : hasHandler path method = true) :
    ∃ entry ∈ apiHandlers, entry.1 = path := by
  unfold hasHandler at h
  split at h
  · rename_i entry hfind
    have h1 := List.find?_some hfind
    exact ⟨entry, List.mem_of_find?_eq_some hfind, of_decide_eq_true h1⟩
  · cases h

theorem apiHandlers_static :
    ∀ entry ∈ apiHandlers, isRenamePath entry.1 = false
      ∧ (isImagePath entry.1 = true → entry.1 = "/api/images/upload") := by
  decide

theorem dispatchApi_of_handler (method pathname : String)
    (h : hasHandler pathname method = true) :
    dispatchApi method pathname = Dispatch.handler pathname method := by
  obtain ⟨entry, hmem, rfl⟩ := hasHandler_mem pathname method h
  obtain ⟨hrename, himage⟩ := apiHandlers_static entry hmem
  unfold dispatchApi
  by_cases h1 : entry.1 = "/api/images"
  · rw [if_pos ⟨h1, h1 ▸ h⟩, h1]
  · rw [if_neg (fun hc => h1 hc.1)]
    by_cases h2 : entry.1 = "/api/images/upload"
    · rw [if_pos ⟨h2, h2 ▸ h⟩, h2]
    · rw [if_neg (fun hc => h2 hc.1), if_neg (fun hc => by rw [hrename] at hc; cases hc.1),
        if_neg (fun hc => h2 (himage hc.1)), if_pos h]

theorem dispatchApi_of_no_handler (method pathname : String)
    (h : hasHandler pathname method = false) :
    dispatchApi method pathname
      = if isRenamePath pathname = true ∧ method = "POST" then
          Dispatch.handler "/api/images/" "POST"
        else if isImagePath pathname = true ∧ method = "DELETE" then
          Dispatch.handler "/api/images/" "DELETE"
        else Dispatch.notFound := by
  unfold dispatchApi
  have h1 : ¬ (pathname = "/api/images" ∧ hasHandler "/api/images" method = true) := by
    rintro ⟨rfl, hc⟩
    rw [h] at hc
    cases hc
  have h2 : ¬ (pathname = "/api/images/upload"
      ∧ hasHandler "/api/images/upload" method = true) := by
    rintro ⟨rfl, hc⟩
    rw [h] at hc
    cases hc
  rw [if_neg h1, if_neg h2, h]
  simp

/-! ## Lemmas on `path.join` -/

theorem splitOn_append (sep : Char) (a b : List Char) :
    splitOn sep (a ++ sep :: b) = splitOn sep a ++ splitOn sep b := by
  induction a with
  | nil => simp [splitOn]
  | cons c cs ih =>
    by_cases hc : c = sep
    · simp only [List.cons_append, splitOn, if_pos hc]
      exact congrArg (List.cons []) ih
    · cases hs : splitOn sep cs with
      | nil => exact absurd hs (splitOn_ne_nil sep cs)
      | cons p ps =>
        have ih2 : splitOn sep (cs.append (sep :: b)) = p :: (ps ++ splitOn sep b) := by
          have h := ih
          rw [hs] at h
          exact h
        simp only [List.cons_append, splitOn, if_neg hc, hs]
        rw [ih2]

theorem splitOn_no_sep (sep : Char) (l : List Char) : ∀ seg ∈ splitOn sep l, sep ∉ seg := by
  induction l with
  | nil =>
    intro seg hseg
    simp [splitOn] at hseg
    subst hseg
    simp
  | cons c cs ih =>
    intro seg hseg
    by_cases hc : c = sep
    · simp only [splitOn, hc, if_true, List.mem_cons] at hseg
      rcases hseg with rfl | hseg
      · simp
      · exact ih seg hseg
    · cases hs : splitOn sep cs with
      | nil => exact absurd hs (splitOn_ne_nil sep cs)
      | cons p ps =>
        rw [hs] at ih
        simp only [splitOn, hc, if_false, hs, List.mem_cons] at hseg
        rcases hseg with rfl | hseg
        · intro hmem
          rcases List.mem_cons.1 hmem with h1 | h1
          · exact hc h1.symm
          · exact ih p (List.mem_cons_self _ _) h1
        · exact ih seg (List.mem_cons_of_mem _ hseg)

theorem normalizeSegments_clean (segs rest stack : List (List Char))
    (h : ∀ seg ∈ segs, CleanSegment seg) :
    normalizeSegments stack (segs ++ rest) = normalizeSegments (segs.reverse ++ stack) rest := by
  induction segs generalizing stack with
  | nil => rfl
  | cons seg more ih =>
    obtain ⟨h1, h2, h3, _⟩ := h seg (List.mem_cons_self _ _)
    rw [List.cons_append, normalizeSegments, if_neg (by simp [h1, h2]), if_neg h3,
      ih _ (fun s hs => h s (List.mem_cons_of_mem _ hs))]
    simp

theorem normalizeSegments_stack (segs stack : List (List Char))
    (hstack : ∀ seg ∈ stack, CleanSegment seg) (hsegs : ∀ seg ∈ segs, '/' ∉ seg) :
    ∃ stack1, (∀ seg ∈ stack1, CleanSegment seg)
      ∧ ∀ rest, normalizeSegments stack (segs ++ rest) = normalizeSegments stack1 rest := by
  induction segs generalizing stack with
  | nil => exact ⟨stack, hstack, fun _ => rfl⟩
  | cons seg more ih =>
    have hmore : ∀ s ∈ more, '/' ∉ s := fun s hs => hsegs s (List.mem_cons_of_mem _ hs)
    by_cases h1 : seg = [] ∨ seg = ['.']
    · obtain ⟨stack1, hclean, heq⟩ := ih stack hstack hmore
      refine ⟨stack1, hclean, fun rest => ?_⟩
      rw [List.cons_append, normalizeSegments, if_pos h1, heq]
    · by_cases h2 : seg = ['.', '.']
      · obtain ⟨stack1, hclean, heq⟩ := ih (stack.drop 1)
          (fun s hs => hstack s (List.mem_of_mem_drop hs)) hmore
        refine ⟨stack1, hclean, fun rest => ?_⟩
        rw [List.cons_append, normalizeSegments, if_neg h1, if_pos h2, heq]
      · have hseg : CleanSegment seg :=
          ⟨fun e => h1 (Or.inl e), fun e => h1 (Or.inr e), h2,
            hsegs seg (List.mem_cons_self _ _)⟩
        obtain ⟨stack1, hclean, heq⟩ := ih (seg :: stack)
          (fun s hs => by
            rcases List.mem_cons.1 hs with rfl | hs
            · exact hseg
            · exact hstack s hs) hmore
        refine ⟨stack1, hclean, fun rest => ?_⟩
        rw [List.cons_append, normalizeSegments, if_neg h1, if_neg h2, heq]

theorem joinSlash_concat (segs : List (List Char)) (seg : List Char) (h : segs ≠ []) :
    joinSlash (segs ++ [seg]) = joinSlash segs ++ '/' :: seg := by
  induction segs with
  | nil => exact absurd rfl h
  | cons x rest ih =>
    cases rest with
    | nil => rfl
    | cons y more =>
      show x ++ '/' :: joinSlash (y :: more ++ [seg])
        = (x ++ '/' :: joinSlash (y :: more)) ++ '/' :: seg
      rw [ih (List.cons_ne_nil _ _)]
      simp

theorem splitOn_joinSlash (segs : List (List Char)) (h : segs ≠ [])
    (hclean : ∀ seg ∈ segs, '/' ∉ seg) : splitOn '/' (joinSlash segs) = segs := by
  induction segs with
  | nil => exact absurd rfl h
  | cons x rest ih =>
    cases rest with
    | nil => exact splitOn_of_not_mem _ _ (hclean x (List.mem_singleton.2 rfl))
    | cons y more =>
      rw [joinSlash, splitOn_append_sep _ _ _ (hclean x (List.mem_cons_self _ _)),
        ih (List.cons_ne_nil _ _) (fun s hs => hclean s (List.mem_cons_of_mem _ hs))]

theorem getLast_joinSlash (segs : List (List Char)) (h : segs ≠ [])
    (hclean : ∀ seg ∈ segs, CleanSegment seg) (head : List Char) :
    (head ++ joinSlash segs).getLast? ≠ some '/' := by
  induction segs generalizing head with
  | nil => exact absurd rfl h
  | cons x rest ih =>
    cases rest with
    | nil =>
      obtain ⟨hne, _, _, hslash⟩ := hclean x (List.mem_singleton.2 rfl)
      rw [joinSlash, List.getLast?_append_of_ne_nil _ hne]
      intro hc
      exact hslash (List.mem_of_getLast?_eq_some hc)
    | cons y more =>
      have := ih (List.cons_ne_nil _ _) (fun s hs => hclean s (List.mem_cons_of_mem _ hs))
        (head ++ x ++ ['/'])
      rw [joinSlash]
      simpa using this

/-- The upload directory is a normalised path of clean segments. -/
theorem uploadDir_clean (root : String) :
    ∃ segs, segs ≠ [] ∧ (∀ seg ∈ segs, CleanSegment seg)
      ∧ uploadDir root = ⟨'/' :: joinSlash segs⟩ := by
  obtain ⟨stack1, hclean, heq⟩ := normalizeSegments_stack (splitOn '/' root.data) []
    (fun _ h => by cases h) (splitOn_no_sep '/' root.data)
  have hup : CleanSegment "uploads".data := by
    refine ⟨?_, ?_, ?_, ?_⟩ <;> decide
  have hall : ∀ seg ∈ stack1.reverse ++ ["uploads".data], CleanSegment seg := by
    intro seg hseg
    rcases List.mem_append.1 hseg with hs | hs
    · exact hclean seg (List.mem_reverse.1 hs)
    · rw [List.mem_singleton.1 hs]
      exact hup
  have hsegs : normalizeSegments [] (splitOn '/' (root.data ++ '/' :: "uploads".data))
      = stack1.reverse ++ ["uploads".data] := by
    rw [splitOn_append, splitOn_of_not_mem '/' "uploads".data (by decide), heq,
      normalizeSegments, if_neg (by decide), if_neg (by decide), normalizeSegments]
    simp
  refine ⟨stack1.reverse ++ ["uploads".data], by simp, hall, ?_⟩
  unfold uploadDir pathJoin
  have hrel : ¬ "uploads".data = [] := by decide
  simp only [if_neg hrel, hsegs]
  rw [if_neg (by simp)]
  have hlast : ¬ (root.data ++ '/' :: "uploads".data).getLast? = some '/' := by
    rw [show root.data ++ '/' :: "uploads".data
        = (root.data ++ '/' :: "upload".data) ++ ['s'] by simp]
    rw [List.getLast?_append_of_ne_nil _ (by simp)]
    decide
  rw [if_neg hlast]
  simp

/-- What `path.join` makes of a normalised directory and a name without
`/` that is not `..`. -/
theorem pathJoin_child (segs : List (List Char)) (name : String) (hne : segs ≠ [])
    (hclean : ∀ seg ∈ segs, CleanSegment seg) (hslash : '/' ∉ name.data)
    (hdots : name.data ≠ ['.', '.']) :
    pathJoin ⟨'/' :: joinSlash segs⟩ name
      = if name.data = [] ∨ name.data = ['.'] then ⟨'/' :: joinSlash segs⟩
        else ⟨('/' :: joinSlash segs) ++ '/' :: name.data⟩ := by
  have hfree : ∀ seg ∈ segs, '/' ∉ seg := fun seg hseg => (hclean seg hseg).2.2.2
  have hsplit : splitOn '/' ('/' :: joinSlash segs) = [] :: segs := by
    rw [show '/' :: joinSlash segs = [] ++ '/' :: joinSlash segs by rfl,
      splitOn_append_sep _ _ _ (by simp), splitOn_joinSlash segs hne hfree]
  have hnorm : normalizeSegments [] ([] :: segs) = segs := by
    rw [normalizeSegments, if_pos (Or.inl rfl)]
    have := normalizeSegments_clean segs [] [] hclean
    rw [List.append_nil] at this
    rw [this, normalizeSegments]
    simp
  have hlast0 : ¬ ('/' :: joinSlash segs).getLast? = some '/' :=
    getLast_joinSlash segs hne hclean ['/']
  unfold pathJoin
  by_cases h0 : name.data = []
  · simp only [if_pos h0, if_pos (Or.inl h0 : name.data = [] ∨ name.data = ['.']), hsplit, hnorm,
      if_neg hne]
    rw [if_neg hlast0]
    simp
  · simp only [if_neg h0]
    have hsplit2 : splitOn '/' ('/' :: joinSlash segs ++ '/' :: name.data)
        = [] :: (segs ++ [name.data]) := by
      rw [splitOn_append, hsplit, splitOn_of_not_mem _ _ hslash]
      rfl
    have hlast : ¬ ('/' :: joinSlash segs ++ '/' :: name.data).getLast? = some '/' := by
      rw [show '/' :: joinSlash segs ++ '/' :: name.data
          = ('/' :: joinSlash segs ++ ['/']) ++ name.data by simp,
        List.getLast?_append_of_ne_nil _ h0]
      intro hc
      exact hslash (List.mem_of_getLast?_eq_some hc)
    rw [hsplit2, if_neg hlast]
    have hstep : normalizeSegments [] ([] :: (segs ++ [name.data]))
        = normalizeSegments segs.reverse [name.data] := by
      rw [normalizeSegments, if_pos (Or.inl rfl), normalizeSegments_clean segs _ [] hclean,
        List.append_nil]
    rw [hstep]
    by_cases h1 : name.data = ['.']
    · have hn : normalizeSegments segs.reverse [name.data] = segs := by
        rw [normalizeSegments, if_pos (Or.inr h1), normalizeSegments, List.reverse_reverse]
      rw [hn, if_neg hne, if_pos (Or.inr h1)]
      simp
    · have hn : normalizeSegments segs.reverse [name.data] = segs ++ [name.data] := by
        rw [normalizeSegments, if_neg (not_or.2 ⟨h0, h1⟩), if_neg hdots, normalizeSegments,
          List.reverse_cons, List.reverse_reverse]
      rw [hn, if_neg (by simp), if_neg (not_or.2 ⟨h0, h1⟩), joinSlash_concat segs _ hne]
      simp

theorem includes_char (str : String) (c : Char) :
    includes str ⟨[c]⟩ = true ↔ c ∈ str.data := by
  unfold includes
  rw [decide_eq_true_eq]
  constructor
  · rintro ⟨a, b, h⟩
    rw [← h]
    simp
  · intro h
    obtain ⟨a, b, hab⟩ := List.append_of_mem h
    exact ⟨a, b, by rw [hab]; simp⟩

/-! ## Lemmas on `addUser` -/

theorem maxId_nonneg (users : List User) : 0 ≤ maxId users := by
  induction users with
  | nil => exact le_refl _
  | cons u rest ih => exact le_trans ih (le_max_right _ _)

theorem le_maxId (users : List User) : ∀ u ∈ users, u.id ≤ maxId users := by
  induction users with
  | nil => intro u hu; cases hu
  | cons x rest ih =>
    intro u hu
    rcases List.mem_cons.1 hu with rfl | hu
    · exact le_max_left _ _
    · exact le_trans (ih u hu) (le_max_right _ _)

theorem maxId_mem (users : List User) (hne : users ≠ []) (hpos : ∀ u ∈ users, 0 ≤ u.id) :
    ∃ u ∈ users, u.id = maxId users := by
  induction users with
  | nil => exact absurd rfl hne
  | cons x rest ih =>
    by_cases hrest : rest = []
    · subst hrest
      refine ⟨x, List.mem_singleton.2 rfl, ?_⟩
      show x.id = max x.id 0
      rw [max_eq_left (hpos x (List.mem_singleton.2 rfl))]
    · obtain ⟨u, hu, hmax⟩ := ih hrest (fun u hu => hpos u (List.mem_cons_of_mem _ hu))
      by_cases hle : maxId rest ≤ x.id
      · exact ⟨x, List.mem_cons_self _ _, (max_eq_left hle).symm⟩
      · refine ⟨u, List.mem_cons_of_mem _ hu, ?_⟩
        show u.id = max x.id (maxId rest)
        rw [max_eq_right (le_of_not_le hle), hmax]

theorem plusOne_safe (n : Int) (h : n < 9007199254740992) : plusOne n = n + 1 := by
  unfold plusOne
  rw [if_pos h]

theorem maxId_lt (users : List User) (bound : Int) (hb : 0 < bound)
    (h : ∀ u ∈ users, u.id < bound) : maxId users < bound := by
  induction users with
  | nil => exact hb
  | cons x rest ih =>
    exact max_lt (h x (List.mem_cons_self _ _))
      (ih (fun u hu => h u (List.mem_cons_of_mem _ hu)))

theorem find_username_none (users : List User) (username : String)
    (hfree : ∀ u ∈ users, u.username ≠ username) :
    users.find? (fun user => decide (user.username = username)) = none := by
  rw [List.find?_eq_none]
  intro u hu
  simpa using hfree u hu

theorem addUser_of_free (N : Node) (users : List User) (writable : Bool) (isoNow : String)
    (userData : UserData) (hfree : ∀ u ∈ users, u.username ≠ userData.username) :
    addUser N users writable isoNow userData
      = match hashPasswordValue N userData.password with
        | none => (AddUserResult.failure "Internal error", users)
        | some passwordHash =>
          if writable then
            (AddUserResult.success (newUser users isoNow userData passwordHash),
              users ++ [newUser users isoNow userData passwordHash])
          else (AddUserResult.failure "Failed to save user", users) := by
  unfold addUser
  rw [find_username_none users _ hfree]

theorem addUser_of_taken (N : Node) (users : List User) (writable : Bool) (isoNow : String)
    (userData : UserData) (htaken : ∃ u ∈ users, u.username = userData.username) :
    addUser N users writable isoNow userData
      = (AddUserResult.failure "Username already exists", users) := by
  unfold addUser
  cases hfind : users.find? (fun user => decide (user.username = userData.username)) with
  | some _ => rfl
  | none =>
    obtain ⟨u, hu, hname⟩ := htaken
    rw [List.find?_eq_none] at hfind
    exact absurd (decide_eq_true hname) (hfind u hu)

theorem addUser_store (N : Node) (users : List User) (writable : Bool) (isoNow : String)
    (userData : UserData) :
    (addUser N users writable isoNow userData).2 = users
    ∨ ((∀ u ∈ users, u.username ≠ userData.username)
      ∧ ∃ passwordHash, (addUser N users writable isoNow userData).2
        = users ++ [newUser users isoNow userData passwordHash]) := by
  unfold addUser
  cases hfind : users.find? (fun user => decide (user.username = userData.username)) with
  | some _ => exact Or.inl rfl
  | none =>
    cases hhash : hashPasswordValue N userData.password with
    | none => exact Or.inl rfl
    | some passwordHash =>
      cases writable
      · exact Or.inl rfl
      · refine Or.inr ⟨?_, passwordHash, rfl⟩
        rw [List.find?_eq_none] at hfind
        intro u hu
        simpa using hfind u hu

/-! ## Lemmas on the post store -/

theorem findIndex_lt (test : Json → Bool) (items : List Json) (index : Nat)
    (h : findIndex test items = some index) : index < items.length := by
  induction items generalizing index with
  | nil => cases h
  | cons item rest ih =>
    unfold findIndex at h
    split at h
    · injection h with h
      subst h
      exact Nat.succ_pos _
    · cases hrest : findIndex test rest with
      | none => rw [hrest] at h; cases h
      | some i =>
        rw [hrest] at h
        injection h with h
        subst h
        exact Nat.succ_lt_succ (ih i hrest)

theorem set_set_getD (items : List Json) (index : Nat) (item : Json) (h : index < items.length) :
    (items.set index item).set index (items.getD index Json.null) = items := by
  rw [List.set_set]
  apply List.ext_getElem
  · simp
  · intro i h1 h2
    rw [List.getElem_set]
    split
    · rename_i heq
      subst heq
      rw [List.getD_eq_getElem _ _ h]
    · rfl

theorem addPost_rollback (today : String) (postData : Json) (blog : Blog) :
    (addPost false today postData blog).2 = blog := by
  unfold addPost
  simp only [Bool.false_eq_true, if_false, List.dropLast_concat]

theorem updatePost_rollback (id : String) (postData : Json) (blog : Blog) :
    (updatePost false id postData blog).2 = blog := by
  unfold updatePost
  split
  · rfl
  · rename_i index hfind
    simp only [Bool.false_eq_true, if_false]
    rw [set_set_getD _ _ _ (findIndex_lt _ _ _ hfind)]

/-! ## Lemmas on the iterations of `parseMultipart` -/

theorem parseLoop_fuel (N : Node) (body d e : List Nat) :
    ∀ (fuel start : Nat) (stop : Option Nat) (parts result : List Part),
      parseLoop N body d e fuel start stop parts = some result →
      parseLoop N body d e (fuel + 1) start stop parts = some result := by
  intro fuel
  induction fuel with
  | zero =>
    intro start stop parts result h
    cases stop with
    | none =>
      rw [parseLoop_none] at h
      rw [parseLoop_none, h]
    | some t => simp [parseLoop] at h
  | succ fuel ih =>
    intro start stop parts result h
    cases stop with
    | none =>
      rw [parseLoop_none] at h
      rw [parseLoop_none, h]
    | some t =>
      rw [parseLoop] at h
      rw [parseLoop]
      split
      · rename_i hcond
        rw [if_pos hcond] at h
        exact h
      · rename_i hcond
        rw [if_neg hcond] at h
        exact ih _ _ _ _ h

theorem indexOf_start_le (needle buf : List Nat) (start i : Nat) (hn : needle ≠ [])
    (h : indexOf needle buf start = some i) : start ≤ i ∧ i ≤ buf.length := by
  have hle : start ≤ buf.length := by
    by_contra hgt
    rw [indexOf_beyond needle buf start hn (by omega)] at h
    cases h
  have hb := indexOf_le_length _ _ _ _ h
  rw [Nat.min_eq_left hle] at hb
  exact hb

theorem indexOf_occurs (needle buf : List Nat) (start i : Nat)
    (h : indexOf needle buf start = some i) : needle <:+: buf := by
  unfold indexOf at h
  exact (findFrom_occurs _ _ _ _ h).trans (List.drop_suffix _ _).isInfix

/-- The loop of `parseMultipart` ends within `body.length` iterations. -/
theorem parseLoop_within_length (N : Node) (body : List Nat) (boundary : String) :
    ∃ result, parseLoop N body (bufferFrom ("--" ++ boundary))
      (bufferFrom ("--" ++ boundary ++ "--")) body.length 0
      (indexOf (bufferFrom ("--" ++ boundary)) body 0) [] = some result := by
  have hd : bufferFrom ("--" ++ boundary) ≠ [] := by rw [bufferFrom_delimiter]; simp
  have hd2 : 2 ≤ (bufferFrom ("--" ++ boundary)).length := by
    rw [bufferFrom_delimiter]
    simp
  cases hs : indexOf (bufferFrom ("--" ++ boundary)) body 0 with
  | none => exact ⟨_, parseLoop_none _ _ _ _ _ _ _⟩
  | some stop =>
    have hlen : (bufferFrom ("--" ++ boundary)).length ≤ body.length :=
      (indexOf_occurs _ _ _ _ hs).length_le
    obtain ⟨n, hn⟩ : ∃ n, body.length = n + 1 := ⟨body.length - 1, by omega⟩
    rw [hn, parseLoop]
    split
    · exact ⟨_, rfl⟩
    · rename_i hcond
      cases hs1 : indexOf (bufferFrom ("--" ++ boundary)) body
          (stop + (bufferFrom ("--" ++ boundary)).length + 2) with
      | none => simp [hs1] at hcond
      | some stop1 =>
        have hb := indexOf_start_le _ _ _ _ hd hs1
        exact parseLoop_total N body _ _ hd _ _ _ _ hb.1 hb.2 (by omega)

/-- Every part of the result was read from the bytes between a positive
`start` and the next delimiter, with a closing delimiter found from `start`
on, at that delimiter or behind it. -/
theorem parseLoop_mem_closing (N : Node) (body d e : List Nat) :
    ∀ (fuel start : Nat) (stop : Option Nat) (parts result : List Part),
      stop = indexOf d body start →
      (0 < start → ∀ t, stop = some t → ∃ c, indexOf e body start = some c ∧ t ≤ c) →
      parseLoop N body d e fuel start stop parts = some result →
      ∀ p ∈ result, p ∈ parts ∨ ∃ s t c, 0 < s ∧ indexOf d body s = some t
        ∧ indexOf e body s = some c ∧ t ≤ c ∧ readPart N (slice body s t) = some p := by
  intro fuel
  induction fuel with
  | zero =>
    intro start stop parts result _ _ h p hp
    cases stop with
    | none =>
      rw [parseLoop_none] at h
      injection h with h
      subst h
      exact Or.inl hp
    | some t => simp [parseLoop] at h
  | succ fuel ih =>
    intro start stop parts result hstop hclose h p hp
    cases stop with
    | none =>
      rw [parseLoop_none] at h
      injection h with h
      subst h
      exact Or.inl hp
    | some t =>
      have hparts1 : ∀ q ∈ (if start > 0 then pushPart N parts (slice body start t) else parts),
          q ∈ parts ∨ ∃ s t c, 0 < s ∧ indexOf d body s = some t
            ∧ indexOf e body s = some c ∧ t ≤ c ∧ readPart N (slice body s t) = some q := by
        intro q hq
        by_cases h0 : start > 0
        · rw [if_pos h0] at hq
          unfold pushPart at hq
          cases hr : readPart N (slice body start t) with
          | none =>
            rw [hr] at hq
            exact Or.inl hq
          | some part =>
            rw [hr] at hq
            rcases List.mem_append.1 hq with hq | hq
            · exact Or.inl hq
            · rw [List.mem_singleton] at hq
              subst hq
              obtain ⟨c, hc, htc⟩ := hclose h0 t rfl
              exact Or.inr ⟨start, t, c, h0, hstop.symm, hc, htc, hr⟩
        · rw [if_neg h0] at hq
          exact Or.inl hq
      unfold parseLoop at h
      simp only at h
      split at h
      · injection h with h
        subst h
        exact hparts1 p hp
      · rename_i hcond
        have hnext : 0 < t + d.length + 2 → ∀ t1, indexOf d body (t + d.length + 2) = some t1 →
            ∃ c, indexOf e body (t + d.length + 2) = some c ∧ t1 ≤ c := by
          intro _ t1 ht1
          rw [ht1] at hcond
          cases hc : indexOf e body (t + d.length + 2) with
          | none => simp [hc, indexLess] at hcond
          | some c =>
            refine ⟨c, rfl, ?_⟩
            simp [hc, indexLess] at hcond
            exact hcond
        rcases ih _ _ _ _ rfl hnext h p hp with hq | hq
        · exact hparts1 p hq
        · exact Or.inr hq

/-! ## Lemmas on base64url -/

theorem isBase64Char_toNat (c : Char) (h : isBase64Char c = true) : c.toNat < 128 := by
  unfold isBase64Char at h
  simp only [Bool.or_eq_true, decide_eq_true_eq] at h
  rcases h with (h | h) | h
  · simp only [Char.isAlphanum, Char.isAlpha, Char.isUpper, Char.isLower, Char.isDigit,
      Bool.or_eq_true, Bool.and_eq_true, decide_eq_true_eq] at h
    have : c.toNat = c.val.toNat := rfl
    rcases h with (h | h) | h <;>
    · have h2 := h.2
      rw [UInt32.le_def, BitVec.le_def] at h2
      have h3 : c.toNat = c.val.toBitVec.toNat := rfl
      rw [h3]
      exact lt_of_le_of_lt h2 (by decide)
  · subst h
    decide
  · subst h
    decide

theorem jsLength_of_small (l : List Char) (h : ∀ c ∈ l, c.toNat < 65536) :
    jsLength l = l.length := by
  induction l with
  | nil => rfl
  | cons c cs ih =>
    have hc := h c (List.mem_cons_self _ _)
    have := ih (fun x hx => h x (List.mem_cons_of_mem _ hx))
    simp only [jsLength, List.map_cons, List.sum_cons, if_pos hc, List.length_cons] at this ⊢
    omega

theorem jsLength_escape (s : String) (h : isBase64Text s = true) :
    jsLength (base64urlEscape s).data = (base64Body s).length := by
  rw [escape_data s h, jsLength_of_small, List.length_map]
  intro c hc
  rw [List.mem_map] at hc
  obtain ⟨x, hx, rfl⟩ := hc
  have hx2 := isBase64Char_toNat x (mem_base64Body s x hx)
  by_cases h1 : x = '+'
  · simp [h1]
  · by_cases h2 : x = '/'
    · simp [h2]
    · simp only [h1, h2, if_false]
      omega

theorem unescape_escape_eq (s : String) (h : isBase64Text s = true) :
    base64urlUnescape (base64urlEscape s)
      = ⟨base64Body s ++ List.replicate (4 - (base64Body s).length % 4) '='⟩ := by
  obtain ⟨k, _, _, hk⟩ := unescape_escape s h
  have hl : (base64urlUnescape (base64urlEscape s)).data.length
      = (base64urlEscape s).data.length
        + (5 - jsLength (base64urlEscape s).data % 4 - 1) := by
    simp [base64urlUnescape, replaceChar]
  rw [hk, jsLength_escape s h, escape_data s h] at hl
  simp only [List.length_append, List.length_replicate, List.length_map] at hl
  have hk2 : k = 4 - (base64Body s).length % 4 := by omega
  rw [hk, hk2]

theorem not_pad_mem_base64Body (s : String) : '=' ∉ base64Body s := by
  intro hc
  exact (isBase64Char_ne '=' (mem_base64Body s '=' hc)).2.2.2 rfl

/-! ## Lemmas on `login` with any values -/

/-- On strings `loginValue` is `login`. -/
theorem loginValue_str (N : Node) (secret : String) (users : List User) (now : Int)
    (isoNow : String) (writable : Bool) (username password : String) :
    loginValue N secret users now isoNow writable (Json.str username) (Json.str password)
      = some (login N secret users now isoNow writable username password) := by
  have h1 : findUserByValue users (Json.str username) = findUserByUsername users username := rfl
  have h2 : hashPasswordValue N (Json.str password) = some (hashPassword N password) := rfl
  unfold loginValue login verifyPassword
  rw [h1, h2]
  cases findUserByUsername users username with
  | none => rfl
  | some user =>
    by_cases h : hashPassword N password = user.passwordHash
    · simp [h]
    · simp [h]

/-- With strings, every failing `login` gives the same answer and leaves the
user file as it is. -/
theorem login_failing (N : Node) (secret : String) (users : List User)
    (now : Int) (isoNow : String) (writable : Bool) (username password : String)
    (h : (∀ u ∈ users, u.username = username → u.isActive = false)
      ∨ ∃ u, findUserByUsername users username = some u
          ∧ hashPassword N password ≠ u.passwordHash) :
    login N secret users now isoNow writable username password
        = (LoginResult.failure "Invalid credentials", users) := by
  rcases h with hnone | ⟨u, hfind, hne⟩
  · simp [login, findUserByUsername_none users username hnone]
  · simp [login, hfind, verifyPassword, hne]

theorem loginValue_throws (N : Node) (secret : String) (users : List User) (now : Int)
    (isoNow : String) (writable : Bool) (username : String) (password : Json) (user : User)
    (hpass : ∀ text, password ≠ Json.str text)
    (hfind : findUserByUsername users username = some user) :
    loginValue N secret users now isoNow writable (Json.str username) password = none := by
  have h1 : findUserByValue users (Json.str username) = findUserByUsername users username := rfl
  unfold loginValue
  rw [h1, hfind]
  cases password with
  | str text => exact absurd rfl (hpass text)
  | null => rfl
  | bool b => rfl
  | num n => rfl
  | arr items => rfl
  | obj fields => rfl

theorem loginValue_unknown (N : Node) (secret : String) (users : List User) (now : Int)
    (isoNow : String) (writable : Bool) (username : String) (password : Json)
    (hfind : findUserByUsername users username = none) :
    loginValue N secret users now isoNow writable (Json.str username) password
      = some (LoginResult.failure "Invalid credentials", users) := by
  have h1 : findUserByValue users (Json.str username) = findUserByUsername users username := rfl
  unfold loginValue
  rw [h1, hfind]

/-! ## Lemmas on the names of the parts -/

/-- For every body and boundary `parseMultipart` returns a list of parts;
every returned part has a non-empty name and comes from a segment whose
header block, the text before the first blank line, holds the text
`name="v"` with `v` the name of the part; a segment whose header block holds
no such text contributes no part. -/
theorem parseMultipart_named_parts (N : Node) (body : List Nat) (boundary : String) :
    (∃ result, parseMultipart N body boundary = some result
      ∧ ∀ p ∈ result, p.name ≠ ""
        ∧ ∃ start stop headerEnd, 0 < start
          ∧ indexOf (bufferFrom ("--" ++ boundary)) body start = some stop
          ∧ readPart N (slice body start stop) = some p
          ∧ indexOf blankLine (slice body start stop) 0 = some headerEnd
          ∧ nameKey ++ p.name.data ++ ['"']
              <:+: (N.bufferToString ((slice body start stop).take headerEnd)).data)
    ∧ ∀ (parts : List Part) (partData : List Nat),
        (∀ headerEnd, indexOf blankLine partData 0 = some headerEnd →
          ∀ v, v ≠ [] → ¬ nameKey ++ v ++ ['"']
            <:+: (N.bufferToString (partData.take headerEnd)).data) →
        pushPart N parts partData = parts := by
  constructor
  · obtain ⟨result, hres⟩ := parseMultipart_total N body boundary
    refine ⟨result, hres, ?_⟩
    intro p hp
    rcases parseLoop_mem N body _ _ _ _ _ _ _ rfl hres p hp with hnil | ⟨s, t, hs, ht, hread⟩
    · cases hnil
    · obtain ⟨headerEnd, hblank, hname, _⟩ := readPart_some N _ p hread
      refine ⟨?_, s, t, headerEnd, hs, ht, hread, hblank, matchQuoted_occurs _ _ _ hname⟩
      intro hempty
      apply matchQuoted_ne_nil _ _ _ hname
      rw [hempty]
  · intro parts partData hno
    unfold pushPart
    rw [readPart_none_of_no_name N partData]
    intro headerEnd hblank
    cases hm : matchQuoted nameKey (N.bufferToString (partData.take headerEnd)).data with
    | none => rfl
    | some run =>
      exact absurd (matchQuoted_occurs _ _ _ hm)
        (hno headerEnd hblank run (matchQuoted_ne_nil _ _ _ hm))

/-! ## The claims -/

/-- C1: round trip. For every claims object and every check time strictly
before the `exp` of the issued token, `verifyToken(generateToken(claims))`
under the same secret is valid, and its payload is the claims object with
`iat` (the issue time) and `exp` written into it: every other field reads as
in the given claims. -/
theorem verifyToken_generateToken (N : Node) (secret : String) (now checkTime : Int)
    (claims : List (String × Json)) (expiresIn : String)
    (hEnc : Encodes N secret (Json.obj (jwtPayload now claims expiresIn)))
    (hDec : Decodes N (Json.obj (jwtPayload now claims expiresIn)))
    (hBefore : ∀ e, expiry now expiresIn = some e → checkTime < e) :
    verifyToken N secret checkTime (generateToken N secret now claims expiresIn)
        = Verification.valid (Json.obj (jwtPayload now claims expiresIn))
      ∧ getProp (Json.obj (jwtPayload now claims expiresIn)) "iat" = some (Json.num now)
      ∧ getProp (Json.obj (jwtPayload now claims expiresIn)) "exp"
          = some (numberValue (expiry now expiresIn))
      ∧ ∀ k, k ≠ "iat" → k ≠ "exp" →
          getProp (Json.obj (jwtPayload now claims expiresIn)) k = getProp (Json.obj claims) k := by
  refine ⟨?_, getProp_jwtPayload_iat _ _ _, getProp_jwtPayload_exp _ _ _,
    getProp_jwtPayload_other _ _ _⟩
  rw [verifyToken_generateToken_eq N secret now checkTime claims expiresIn hEnc hDec]
  cases he : expiry now expiresIn with
  | none =>
    simp [checkExpiry, getProp_jwtPayload_exp, he, numberValue, truthy]
  | some e =>
    have hlt := hBefore e he
    have hexp := getProp_jwtPayload_exp now claims expiresIn
    rw [he] at hexp
    rw [checkExpiry_obj N checkTime _ e hexp, if_neg]
    intro h
    exact absurd hlt (not_lt.2 (le_of_lt h.2))

set_option maxRecDepth 1000000 in
/-- C1, at the administrator's claims: issued at 1700000000 for 24 hours and
checked one second before `exp`. -/
theorem verifyToken_generateToken_witness :
    verifyToken refNode defaultSecret 1700086399
        (generateToken refNode defaultSecret 1700000000 adminClaims "24h")
      = Verification.valid adminPayload
    ∧ Json.obj (jwtPayload 1700000000 adminClaims "24h") = adminPayload :=
  ⟨(verifyToken_generateToken refNode defaultSecret 1700000000 1700086399 adminClaims "24h"
      refNode_encodes_admin
      (refNode_decodes _ (by decide) (by decide))
      (fun e he => by
        have h : expiry 1700000000 "24h" = some 1700086400 := by decide
        rw [h] at he
        cases he
        decide)).1,
   by decide⟩

/-- C2: tamper detection. For every token produced by `generateToken`,
replacing the character at any position `i` of any of its three segments
(`k` = 0, 1, 2) by a different character `c` makes `verifyToken` fail: with
'Invalid token format' when `c` is a dot, with 'Invalid signature'
otherwise; it never returns a valid result.  For a change in the first two
segments this rests on the HMAC of the changed text differing from that of
the original text. -/
theorem verifyToken_tampered (N : Node) (secret : String) (now checkTime : Int)
    (claims : List (String × Json)) (expiresIn : String) (k i : Nat) (c old : Char)
    (hEnc : Encodes N secret (Json.obj (jwtPayload now claims expiresIn)))
    (hold : ((splitOn '.' (generateToken N secret now claims expiresIn).data).getD k [])[i]?
      = some old)
    (hne : c ≠ old)
    (hmac : signedText (tamper (generateToken N secret now claims expiresIn) k i c)
        ≠ signedText (generateToken N secret now claims expiresIn) →
      base64urlEscape (N.hmacSha256 secret
          (signedText (tamper (generateToken N secret now claims expiresIn) k i c)))
        ≠ base64urlEscape (N.hmacSha256 secret
          (signedText (generateToken N secret now claims expiresIn)))) :
    verifyToken N secret checkTime (tamper (generateToken N secret now claims expiresIn) k i c)
      = Verification.invalid (if c = '.' then "Invalid token format" else "Invalid signature") := by
  have hh := not_dot_mem_escape _ hEnc.header
  have hp := not_dot_mem_escape _ hEnc.payload
  have hs := not_dot_mem_escape _ hEnc.signature
  have hsplit : splitOn '.' (generateToken N secret now claims expiresIn).data
      = [(base64urlEscape (N.toBase64 (N.stringify jwtHeader))).data,
         (base64urlEscape (N.toBase64 (N.stringify
            (Json.obj (jwtPayload now claims expiresIn))))).data,
         (base64urlEscape (N.hmacSha256 secret
            (signingInput N (Json.obj (jwtPayload now claims expiresIn))))).data] := by
    rw [generateToken_eq, data_join3]
    exact splitOn_three _ _ _ hh hp hs
  have hsigned : signedText (generateToken N secret now claims expiresIn)
      = signingInput N (Json.obj (jwtPayload now claims expiresIn)) := by
    unfold signedText
    rw [hsplit]
    rfl
  rw [hsigned] at hmac
  rw [hsplit] at hold
  unfold tamper at hmac ⊢
  rw [hsplit] at hmac ⊢
  match k, hold with
  | 0, hold =>
    simp only [List.getD_cons_zero, List.set_cons_zero, joinDots] at hold hmac ⊢
    by_cases hc : c = '.'
    · subst hc
      rw [if_pos rfl]
      apply verifyToken_four_segments
      rw [count_set_sep _ _ _ hh (lt_length_of_getElem _ _ _ hold),
        List.count_eq_zero.2 hp, List.count_eq_zero.2 hs]
    · rw [if_neg hc]
      have hh1 := not_mem_set _ i c '.' hh (Ne.symm hc)
      rw [signedText_data _ _ _ hh1 hp hs] at hmac
      rw [verifyToken_segments_data N secret checkTime _ _ _ hh1 hp hs, if_pos]
      exact Ne.symm (hmac (join_ne_left _ _ _ (set_ne_self _ i c old hold hne)))
  | 1, hold =>
    simp only [List.getD_cons_succ, List.getD_cons_zero, List.set_cons_succ, List.set_cons_zero,
      joinDots] at hold hmac ⊢
    by_cases hc : c = '.'
    · subst hc
      rw [if_pos rfl]
      apply verifyToken_four_segments
      rw [count_set_sep _ _ _ hp (lt_length_of_getElem _ _ _ hold),
        List.count_eq_zero.2 hh, List.count_eq_zero.2 hs]
    · rw [if_neg hc]
      have hp1 := not_mem_set _ i c '.' hp (Ne.symm hc)
      rw [signedText_data _ _ _ hh hp1 hs] at hmac
      rw [verifyToken_segments_data N secret checkTime _ _ _ hh hp1 hs, if_pos]
      exact Ne.symm (hmac (join_ne_right _ _ _ (set_ne_self _ i c old hold hne)))
  | 2, hold =>
    simp only [List.getD_cons_succ, List.getD_cons_zero, List.set_cons_succ, List.set_cons_zero,
      joinDots] at hold hmac ⊢
    by_cases hc : c = '.'
    · subst hc
      rw [if_pos rfl]
      apply verifyToken_four_segments
      rw [count_set_sep _ _ _ hs (lt_length_of_getElem _ _ _ hold),
        List.count_eq_zero.2 hh, List.count_eq_zero.2 hp]
    · rw [if_neg hc]
      have hs1 := not_mem_set _ i c '.' hs (Ne.symm hc)
      rw [verifyToken_segments_data N secret checkTime _ _ _ hh hp hs1, if_pos]
      intro e
      exact set_ne_self _ i c old hold hne (congrArg String.data e)
  | n + 3, hold =>
    simp at hold

set_option maxRecDepth 1000000 in
/-- C2, at the administrator's token: the sixth character of the claims
segment, a 'C', is replaced by 'X'. -/
theorem verifyToken_tampered_witness :
    verifyToken refNode defaultSecret 1700000001
        (tamper (generateToken refNode defaultSecret 1700000000 adminClaims "24h") 1 5 'X')
      = Verification.invalid "Invalid signature" :=
  verifyToken_tampered refNode defaultSecret 1700000000 1700000001 adminClaims "24h" 1 5 'X' 'C'
    refNode_encodes_admin (by decide) (by decide) (fun _ => by decide)

/-- C3: signature before claims. For every token of three dot-free segments
whose third segment differs from base64url(HMAC-SHA256(secret, segment1 + '.'
+ segment2)), `verifyToken` answers 'Invalid signature', whatever the second
segment holds and whatever decoding and parsing would make of it. -/
theorem verifyToken_invalid_signature (N : Node) (secret : String) (now : Int)
    (h p s : String) (hh : '.' ∉ h.data) (hp : '.' ∉ p.data) (hs : '.' ∉ s.data)
    (hsig : s ≠ base64urlEscape (N.hmacSha256 secret (h ++ "." ++ p))) :
    verifyToken N secret now (h ++ "." ++ p ++ "." ++ s)
      = Verification.invalid "Invalid signature" := by
  rw [verifyToken_segments N secret now h p s hh hp hs, if_pos hsig]

set_option maxRecDepth 1000000 in
/-- C3, at a token whose claims segment is no base64 text and whose signature
is wrong. -/
theorem verifyToken_invalid_signature_witness :
    verifyToken refNode defaultSecret 1700000000
        ("eyJhbGciOiJIUzI1NiIsInR5cCI6IkpXVCJ9" ++ "." ++ "!! no claims !!" ++ "." ++ "AAAA")
      = Verification.invalid "Invalid signature" :=
  verifyToken_invalid_signature refNode defaultSecret 1700000000
    "eyJhbGciOiJIUzI1NiIsInR5cCI6IkpXVCJ9" "!! no claims !!" "AAAA"
    (by decide) (by decide) (by decide) (by decide)

set_option maxRecDepth 1000000 in
/-- C4 fails at the instant `now == exp`: the administrator's token issued at
1700000000 for 24 hours carries `exp` 1700086400 and is accepted at the time
1700086400. -/
theorem verifyToken_accepts_at_exp :
    getProp adminPayload "exp" = some (Json.num 1700086400)
    ∧ verifyToken refNode defaultSecret 1700086400
        (generateToken refNode defaultSecret 1700000000 adminClaims "24h")
      = Verification.valid adminPayload := by
  decide

/-- C4 as amended: for every correctly signed token of three dot-free
segments whose claims carry a numeric `exp` other than 0, `verifyToken`
fails with 'Token expired' when `exp < now` and returns the claims as valid
when `now <= exp`, the instant `now == exp` included. -/
theorem verifyToken_expiry (N : Node) (secret : String) (now : Int) (h p s : String)
    (payload : Json) (e : Int)
    (hh : '.' ∉ h.data) (hp : '.' ∉ p.data) (hs : '.' ∉ s.data)
    (hsig : s = base64urlEscape (N.hmacSha256 secret (h ++ "." ++ p)))
    (hparse : N.parse (N.fromBase64 (base64urlUnescape p)) = some payload)
    (hexp : getProp payload "exp" = some (Json.num e)) (he : e ≠ 0) :
    verifyToken N secret now (h ++ "." ++ p ++ "." ++ s)
      = if e < now then Verification.invalid "Token expired"
        else Verification.valid payload := by
  rw [verifyToken_segments N secret now h p s hh hp hs, if_neg (not_not.2 hsig), hparse]
  cases payload with
  | obj fields =>
    show checkExpiry N now (Json.obj fields) = _
    rw [checkExpiry_obj N now fields e hexp]
    simp [he]
  | null => simp [getProp] at hexp
  | bool b => simp [getProp] at hexp
  | num n => simp [getProp] at hexp
  | str t => simp [getProp] at hexp
  | arr items => simp [getProp] at hexp

set_option maxRecDepth 1000000 in
/-- C4 as amended, at the administrator's token one second after `exp`. -/
theorem verifyToken_expiry_witness :
    verifyToken refNode defaultSecret 1700086401
        ("eyJhbGciOiJIUzI1NiIsInR5cCI6IkpXVCJ9" ++ "."
          ++ base64urlEscape (refNode.toBase64 (refNode.stringify adminPayload)) ++ "."
          ++ base64urlEscape (refNode.hmacSha256 defaultSecret
              ("eyJhbGciOiJIUzI1NiIsInR5cCI6IkpXVCJ9" ++ "."
                ++ base64urlEscape (refNode.toBase64 (refNode.stringify adminPayload)))))
      = Verification.invalid "Token expired" :=
  verifyToken_expiry refNode defaultSecret 1700086401
    "eyJhbGciOiJIUzI1NiIsInR5cCI6IkpXVCJ9"
    (base64urlEscape (refNode.toBase64 (refNode.stringify adminPayload)))
    (base64urlEscape (refNode.hmacSha256 defaultSecret
      ("eyJhbGciOiJIUzI1NiIsInR5cCI6IkpXVCJ9" ++ "."
        ++ base64urlEscape (refNode.toBase64 (refNode.stringify adminPayload)))))
    adminPayload 1700086400
    (by decide) (by decide) (by decide) rfl (by decide) (by decide) (by decide)

set_option maxRecDepth 1000000 in
/-- C5 fails: `generateToken` reads hours and days only, so the time-to-live
'-1s' falls to the default of 24 hours and the token is accepted. -/
theorem verifyToken_accepts_minus_one_second :
    verifyToken refNode defaultSecret 1700000000
        (generateToken refNode defaultSecret 1700000000 adminClaims "-1s")
      = Verification.valid adminPayload := by
  decide

/-- C5 as amended: a token issued by `generateToken` with the time-to-live
'-1h' (minus one hour, already expired when issued) is rejected by
`verifyToken` with 'Token expired' at every check time from the issue time
on, the issue time 3600 (whose `exp` is 0) apart. -/
theorem verifyToken_minus_one_hour (N : Node) (secret : String) (now checkTime : Int)
    (claims : List (String × Json))
    (hEnc : Encodes N secret (Json.obj (jwtPayload now claims "-1h")))
    (hDec : Decodes N (Json.obj (jwtPayload now claims "-1h")))
    (hnow : now ≠ 3600) (hcheck : now ≤ checkTime) :
    verifyToken N secret checkTime (generateToken N secret now claims "-1h")
      = Verification.invalid "Token expired" := by
  rw [verifyToken_generateToken_eq N secret now checkTime claims "-1h" hEnc hDec]
  have hexp := getProp_jwtPayload_exp now claims "-1h"
  rw [expiry_minus_one_hour] at hexp
  rw [checkExpiry_obj N checkTime _ (now - 3600) hexp, if_pos]
  constructor
  · intro h
    exact hnow (by linarith)
  · linarith

set_option maxRecDepth 1000000 in
/-- C5 as amended, at the administrator's claims, checked at the issue time. -/
theorem verifyToken_minus_one_hour_witness :
    verifyToken refNode defaultSecret 1700000000
        (generateToken refNode defaultSecret 1700000000 adminClaims "-1h")
      = Verification.invalid "Token expired" :=
  verifyToken_minus_one_hour refNode defaultSecret 1700000000 1700000000 adminClaims
    ⟨by decide, by decide, by decide⟩
    (refNode_decodes _ (by decide) (by decide))
    (by decide) (by decide)

/-- C6 fails: with the time-to-live '-1h' the claims object that
`generateToken` serialises carries `iat` 1700000000 and the smaller `exp`
1699996400; with 'h' alone `exp` is `NaN`, written as `null`. -/
theorem jwtPayload_exp_before_iat :
    getProp (Json.obj (jwtPayload 1700000000 adminClaims "-1h")) "iat"
        = some (Json.num 1700000000)
    ∧ getProp (Json.obj (jwtPayload 1700000000 adminClaims "-1h")) "exp"
        = some (Json.num 1699996400)
    ∧ getProp (Json.obj (jwtPayload 1700000000 adminClaims "h")) "exp" = some Json.null := by
  decide

/-- C6 as amended: for every claims object and every text `expiresIn`, the
token is the encoding of a claims object with `iat = now` and `exp = now +
ttl`, where `ttl` is `n * 3600` seconds when `expiresIn` ends in 'h', `n *
24 * 3600` when it ends in 'd' (`n` being `parseInt(expiresIn)`; `exp` is
`NaN` when `n` is) and 24 hours for any other text; `exp > iat` holds exactly
when `n` is positive, and always for the other texts. -/
theorem jwtPayload_iat_exp (N : Node) (secret : String) (now : Int)
    (claims : List (String × Json)) (expiresIn : String) :
    generateToken N secret now claims expiresIn
        = signingInput N (Json.obj (jwtPayload now claims expiresIn)) ++ "."
          ++ base64urlEscape (N.hmacSha256 secret
              (signingInput N (Json.obj (jwtPayload now claims expiresIn))))
    ∧ getProp (Json.obj (jwtPayload now claims expiresIn)) "iat" = some (Json.num now)
    ∧ getProp (Json.obj (jwtPayload now claims expiresIn)) "exp"
        = some (numberValue (expiry now expiresIn))
    ∧ (endsWith expiresIn 'h' = true →
        expiry now expiresIn = (parseInt expiresIn).map (fun n => now + n * 3600)
        ∧ ∀ n, parseInt expiresIn = some n →
            (expiry now expiresIn = some (now + n * 3600) ∧ (now + n * 3600 > now ↔ 0 < n)))
    ∧ (endsWith expiresIn 'h' = false → endsWith expiresIn 'd' = true →
        expiry now expiresIn = (parseInt expiresIn).map (fun n => now + n * 24 * 3600)
        ∧ ∀ n, parseInt expiresIn = some n →
            (expiry now expiresIn = some (now + n * 24 * 3600)
              ∧ (now + n * 24 * 3600 > now ↔ 0 < n)))
    ∧ (endsWith expiresIn 'h' = false → endsWith expiresIn 'd' = false →
        expiry now expiresIn = some (now + 24 * 3600) ∧ now + 24 * 3600 > now) := by
  refine ⟨rfl, getProp_jwtPayload_iat _ _ _, getProp_jwtPayload_exp _ _ _, ?_, ?_, ?_⟩
  · intro hh
    refine ⟨by simp [expiry, hh], ?_⟩
    intro n hn
    refine ⟨by simp [expiry, hh, hn], ?_⟩
    constructor <;> intro h <;> linarith
  · intro hh hd
    refine ⟨by simp [expiry, hh, hd], ?_⟩
    intro n hn
    refine ⟨by simp [expiry, hh, hd, hn], ?_⟩
    constructor <;> intro h <;> linarith
  · intro hh hd
    refine ⟨by simp [expiry, hh, hd], ?_⟩
    linarith

/-- C7: wire format. For every claims object, `generateToken` returns
base64url of the JSON of the header `alg: HS256, typ: JWT`, base64url of the
JSON of the claims extended with `iat` and `exp`, and base64url of the
HMAC-SHA256 under the secret of the first two segments joined by '.', the
three joined by '.'; splitting the token at '.' gives back exactly these
three segments, and none of them contains '.', '+', '/' or '='. -/
theorem generateToken_wire_format (N : Node) (secret : String) (now : Int)
    (claims : List (String × Json)) (expiresIn : String)
    (hEnc : Encodes N secret (Json.obj (jwtPayload now claims expiresIn))) :
    ∃ h p s : String,
      h = base64urlEscape (N.toBase64 (N.stringify
            (Json.obj [("alg", Json.str "HS256"), ("typ", Json.str "JWT")])))
      ∧ p = base64urlEscape (N.toBase64 (N.stringify
            (Json.obj (setProp (setProp claims "iat" (Json.num now)) "exp"
              (numberValue (expiry now expiresIn))))))
      ∧ s = base64urlEscape (N.hmacSha256 secret (h ++ "." ++ p))
      ∧ generateToken N secret now claims expiresIn = h ++ "." ++ p ++ "." ++ s
      ∧ splitOn '.' (generateToken N secret now claims expiresIn).data = [h.data, p.data, s.data]
      ∧ ∀ seg ∈ [h, p, s], ∀ c ∈ seg.data, c ≠ '.' ∧ c ≠ '+' ∧ c ≠ '/' ∧ c ≠ '=' := by
  have hh := not_dot_mem_escape _ hEnc.header
  have hp := not_dot_mem_escape _ hEnc.payload
  have hs := not_dot_mem_escape _ hEnc.signature
  refine ⟨_, _, _, rfl, rfl, rfl, rfl, ?_, ?_⟩
  · rw [generateToken_eq, data_join3]
    exact splitOn_three _ _ _ hh hp hs
  · intro seg hseg c hc
    have hne : c ≠ '.' := by
      rintro rfl
      simp only [List.mem_cons, List.mem_singleton, List.not_mem_nil, or_false] at hseg
      rcases hseg with rfl | rfl | rfl
      · exact hh hc
      · exact hp hc
      · exact hs hc
    simp only [List.mem_cons, List.mem_singleton, List.not_mem_nil, or_false] at hseg
    rcases hseg with rfl | rfl | rfl
    · exact ⟨hne, (mem_escape _ c hc).1, (mem_escape _ c hc).2.1, (mem_escape _ c hc).2.2.1⟩
    · exact ⟨hne, (mem_escape _ c hc).1, (mem_escape _ c hc).2.1, (mem_escape _ c hc).2.2.1⟩
    · exact ⟨hne, (mem_escape _ c hc).1, (mem_escape _ c hc).2.1, (mem_escape _ c hc).2.2.1⟩

set_option maxRecDepth 1000000 in
/-- C7, at the administrator's claims: the token under the default secret,
and the JSON text of its header. -/
theorem generateToken_wire_format_witness :
    (∃ h p s : String,
      h = base64urlEscape (refNode.toBase64 (refNode.stringify
            (Json.obj [("alg", Json.str "HS256"), ("typ", Json.str "JWT")])))
      ∧ p = base64urlEscape (refNode.toBase64 (refNode.stringify
            (Json.obj (setProp (setProp adminClaims "iat" (Json.num 1700000000)) "exp"
              (numberValue (expiry 1700000000 "24h"))))))
      ∧ s = base64urlEscape (refNode.hmacSha256 defaultSecret (h ++ "." ++ p))
      ∧ generateToken refNode defaultSecret 1700000000 adminClaims "24h"
          = h ++ "." ++ p ++ "." ++ s
      ∧ splitOn '.' (generateToken refNode defaultSecret 1700000000 adminClaims "24h").data
          = [h.data, p.data, s.data]
      ∧ ∀ seg ∈ [h, p, s], ∀ c ∈ seg.data, c ≠ '.' ∧ c ≠ '+' ∧ c ≠ '/' ∧ c ≠ '=')
    ∧ refNode.stringify jwtHeader = "\x7b\"alg\":\"HS256\",\"typ\":\"JWT\"\x7d"
    ∧ generateToken refNode defaultSecret 1700000000 [("id", Json.num 1)] "24h"
        = "eyJhbGciOiJIUzI1NiIsInR5cCI6IkpXVCJ9"
          ++ ".eyJpZCI6MSwiaWF0IjoxNzAwMDAwMDAwLCJleHAiOjE3MDAwODY0MDB9"
          ++ ".dNO6qA-nPbnLSabDB966GPGWPZO5ZoW2V-FpYgqLJgs" :=
  ⟨generateToken_wire_format refNode defaultSecret 1700000000 adminClaims "24h"
    refNode_encodes_admin, by decide, by decide⟩

set_option maxRecDepth 1000000 in
/-- C8 fails on the code: the administrator's token (embedded role 'admin')
is presented after the stored role became 'user'.  `authenticateRequest`
returns `isAdmin` false, yet the six gates that also accept the role of
the token let this result pass; the rename gate, which tests `isAdmin`
alone, refuses it. -/
theorem adminGate_passes_stale_role :
    authenticateRequest refNode defaultSecret downgradedUsers 1700000100
        (some ("Bearer " ++ adminToken))
      = AuthResult.authenticated staleAdmin
    ∧ (∀ route ∈ [AdminRoute.usersGet, AdminRoute.usersPost, AdminRoute.imagesGet,
          AdminRoute.imagesPost, AdminRoute.imagesUploadPost, AdminRoute.imagesDelete],
        adminGate route (AuthResult.authenticated staleAdmin) = Gate.passed)
    ∧ adminGate AdminRoute.imagesRenamePost (AuthResult.authenticated staleAdmin)
        = Gate.refused 403 "Forbidden" := by
  decide

/-- C9: whenever `authenticateRequest` succeeds, the token was accepted by
`verifyToken`, the user list holds an active user with the id of the token,
and the `isAdmin` flag of the returned user is (the role of that stored user
is 'admin'), whatever `role` and `isAdmin` the claims of the token carry. -/
theorem authenticateRequest_isAdmin (N : Node) (secret : String) (users : List User)
    (now : Int) (authorization : Option String) (user : Json)
    (h : authenticateRequest N secret users now authorization = AuthResult.authenticated user) :
    ∃ authHeader payload stored,
      authorization = some authHeader
      ∧ verifyToken N secret now ⟨authHeader.data.drop 7⟩ = Verification.valid payload
      ∧ findUserById users (getProp payload "id") = some stored
      ∧ stored.isActive = true
      ∧ getProp payload "id" = some (Json.num stored.id)
      ∧ getProp user "isAdmin" = some (Json.bool (decide (stored.role = "admin"))) := by
  unfold authenticateRequest at h
  split at h
  · exact absurd h (by simp)
  · rename_i authHeader
    split at h
    · exact absurd h (by simp)
    · simp only at h
      split at h
      · exact absurd h (by simp)
      · rename_i payload hv
        split at h
        · exact absurd h (by simp)
        · rename_i stored hf
          refine ⟨authHeader, payload, stored, rfl, hv, hf, ?_, ?_, ?_⟩
          · have := List.find?_some hf
            simp only [Bool.and_eq_true] at this
            exact this.2
          · have := List.find?_some hf
            simp only [Bool.and_eq_true] at this
            have h1 := this.1
            unfold strictEqNum at h1
            split at h1
            · rename_i m hm
              rw [hm, of_decide_eq_true h1]
            · exact absurd h1 (by simp)
          · injection h with h
            rw [← h]
            exact getProp_setProp_same _ _ _

set_option maxRecDepth 1000000 in
/-- C9, at a token whose claims carry the role 'admin' and `isAdmin: true`
while the stored role is 'user': the returned flag is false. -/
theorem authenticateRequest_isAdmin_witness :
    authenticateRequest refNode defaultSecret downgradedUsers 1700000100
        (some ("Bearer " ++ generateToken refNode defaultSecret 1700000000
          [("id", Json.num 1), ("role", Json.str "admin"), ("isAdmin", Json.bool true)] "24h"))
      = AuthResult.authenticated (Json.obj
          [("id", Json.num 1), ("role", Json.str "admin"), ("isAdmin", Json.bool false),
           ("iat", Json.num 1700000000), ("exp", Json.num 1700086400)])
    ∧ ∃ authHeader payload stored,
      some ("Bearer " ++ generateToken refNode defaultSecret 1700000000
          [("id", Json.num 1), ("role", Json.str "admin"), ("isAdmin", Json.bool true)] "24h")
        = some authHeader
      ∧ verifyToken refNode defaultSecret 1700000100 ⟨authHeader.data.drop 7⟩
          = Verification.valid payload
      ∧ findUserById downgradedUsers (getProp payload "id") = some stored
      ∧ stored.isActive = true
      ∧ getProp payload "id" = some (Json.num stored.id)
      ∧ getProp (Json.obj
          [("id", Json.num 1), ("role", Json.str "admin"), ("isAdmin", Json.bool false),
           ("iat", Json.num 1700000000), ("exp", Json.num 1700086400)]) "isAdmin"
          = some (Json.bool (decide (stored.role = "admin"))) := by
  have h : authenticateRequest refNode defaultSecret downgradedUsers 1700000100
        (some ("Bearer " ++ generateToken refNode defaultSecret 1700000000
          [("id", Json.num 1), ("role", Json.str "admin"), ("isAdmin", Json.bool true)] "24h"))
      = AuthResult.authenticated (Json.obj
          [("id", Json.num 1), ("role", Json.str "admin"), ("isAdmin", Json.bool false),
           ("iat", Json.num 1700000000), ("exp", Json.num 1700086400)]) := by
    decide
  exact ⟨h, authenticateRequest_isAdmin refNode defaultSecret downgradedUsers 1700000100 _ _ h⟩

/-- C10: deactivation. For every user list and every token that
`verifyToken` accepts, if the list holds no user with the id of the token
whose `isActive` is true, `authenticateRequest` answers `authenticated:
false` with the error 'User not found or inactive'. -/
theorem authenticateRequest_inactive (N : Node) (secret : String) (users : List User)
    (now : Int) (token : String) (payload : Json)
    (hv : verifyToken N secret now token = Verification.valid payload)
    (hnone : ∀ u ∈ users, getProp payload "id" = some (Json.num u.id) → u.isActive = false) :
    authenticateRequest N secret users now (some ("Bearer " ++ token))
      = AuthResult.rejected "User not found or inactive" := by
  have hfind : findUserById users (getProp payload "id") = none := by
    unfold findUserById
    rw [List.find?_eq_none]
    intro u hu
    simp only [Bool.and_eq_true, not_and, Bool.not_eq_true]
    intro hid
    apply hnone u hu
    unfold strictEqNum at hid
    split at hid
    · rename_i m hm
      rw [hm, of_decide_eq_true hid]
    · exact absurd hid (by simp)
  unfold authenticateRequest
  simp only [startsWith_bearer, bearer_ne_empty, drop_bearer, hv, hfind, decide_False,
    Bool.not_true, Bool.or_self, Bool.false_eq_true, if_false]

set_option maxRecDepth 1000000 in
/-- C10, at the administrator's unexpired token after the administrator was
marked inactive. -/
theorem authenticateRequest_inactive_witness :
    verifyToken refNode defaultSecret 1700000100 adminToken = Verification.valid adminPayload
    ∧ authenticateRequest refNode defaultSecret deactivatedUsers 1700000100
        (some ("Bearer " ++ adminToken))
      = AuthResult.rejected "User not found or inactive" := by
  have h : verifyToken refNode defaultSecret 1700000100 adminToken
      = Verification.valid adminPayload := by
    decide
  exact ⟨h, authenticateRequest_inactive refNode defaultSecret deactivatedUsers 1700000100
    adminToken adminPayload h (by decide)⟩

set_option maxRecDepth 1000000 in
/-- C11 fails on the code: a password that is not a string (a JSON number
passes the test `!password` of the handler) makes `hashPassword` throw, and
only when an active user of the name was found.  So `login` rejects for a
known username and returns 'Invalid credentials' for an unknown one, and
`POST /api/auth/login` answers 400 'Invalid JSON' for 'admin' and 401
'Invalid credentials' for 'nobody'; with string passwords every failing
`login` returns 'Invalid credentials' and leaves the user file unchanged. -/
theorem loginValue_signal :
    (∀ (N : Node) (secret : String) (users : List User) (now : Int) (isoNow : String)
        (writable : Bool) (username : String) (password : Json),
        (∀ text, password ≠ Json.str text) →
        (∀ user, findUserByUsername users username = some user →
          loginValue N secret users now isoNow writable (Json.str username) password = none)
        ∧ (findUserByUsername users username = none →
          loginValue N secret users now isoNow writable (Json.str username) password
            = some (LoginResult.failure "Invalid credentials", users)))
    ∧ (∀ (N : Node) (secret : String) (users : List User) (now : Int) (isoNow : String)
        (writable : Bool) (username password : String),
        ((∀ u ∈ users, u.username = username → u.isActive = false)
          ∨ ∃ u, findUserByUsername users username = some u
              ∧ hashPassword N password ≠ u.passwordHash) →
        loginValue N secret users now isoNow writable (Json.str username) (Json.str password)
          = some (LoginResult.failure "Invalid credentials", users))
    ∧ loginRoute refNode defaultSecret (defaultUsers refNode "2025-01-01T00:00:00.000Z")
        1700000000 "2025-06-01T00:00:00.000Z" true
        "\x7b\"username\":\"admin\",\"password\":123\x7d"
      = ({ status := 400, body := Json.obj [("error", Json.str "Invalid JSON")] },
          defaultUsers refNode "2025-01-01T00:00:00.000Z")
    ∧ loginRoute refNode defaultSecret (defaultUsers refNode "2025-01-01T00:00:00.000Z")
        1700000000 "2025-06-01T00:00:00.000Z" true
        "\x7b\"username\":\"nobody\",\"password\":123\x7d"
      = ({ status := 401, body := Json.obj [("error", Json.str "Invalid credentials")] },
          defaultUsers refNode "2025-01-01T00:00:00.000Z") := by
  refine ⟨?_, ?_, by decide, by decide⟩
  · intro N secret users now isoNow writable username password hpass
    exact ⟨fun user hfind =>
        loginValue_throws N secret users now isoNow writable username password user hpass hfind,
      loginValue_unknown N secret users now isoNow writable username password⟩
  · intro N secret users now isoNow writable username password h
    rw [loginValue_str, login_failing N secret users now isoNow writable username password h]

/-- C12: login success. On a user file with pairwise distinct usernames,
`login(username, password)` succeeds exactly when the file holds an active
user with that username whose `passwordHash` equals
`hashPassword(password)`; the token is then `generateToken` of that user's
id, username, role and permissions, its claims carry `iat = now` and `exp =
iat + 86400`, and `verifyToken` accepts it at every time before `exp`
(given built-ins that write and read the claims). -/
theorem login_success (N : Node) (secret : String) (users : List User) (now : Int)
    (isoNow : String) (writable : Bool) (username password : String)
    (hUnique : users.Pairwise (fun a b => a.username ≠ b.username)) :
    ((∃ token user, (login N secret users now isoNow writable username password).1
          = LoginResult.success token user)
      ↔ ∃ u ∈ users, u.username = username ∧ u.isActive = true
          ∧ u.passwordHash = hashPassword N password)
    ∧ ∀ u ∈ users, u.username = username → u.isActive = true →
        u.passwordHash = hashPassword N password →
        (login N secret users now isoNow writable username password).1
            = LoginResult.success (generateToken N secret now (loginClaims u) "24h")
                (loginUser u)
          ∧ jwtPayload now (loginClaims u) "24h"
              = [("id", Json.num u.id), ("username", Json.str u.username),
                 ("role", Json.str u.role),
                 ("permissions", Json.arr (u.permissions.map Json.str)),
                 ("iat", Json.num now), ("exp", Json.num (now + 86400))]
          ∧ ∀ checkTime, checkTime < now + 86400 →
              Encodes N secret (Json.obj (jwtPayload now (loginClaims u) "24h")) →
              Decodes N (Json.obj (jwtPayload now (loginClaims u) "24h")) →
              verifyToken N secret checkTime (generateToken N secret now (loginClaims u) "24h")
                = Verification.valid (Json.obj (jwtPayload now (loginClaims u) "24h")) := by
  constructor
  · constructor
    · rintro ⟨token, user, h⟩
      obtain ⟨u, hfind, hhash⟩ := login_success_found N secret users now isoNow writable
        username password token user h
      obtain ⟨hmem, hname, hactive⟩ := findUserByUsername_some users username u hfind
      exact ⟨u, hmem, hname, hactive, hhash⟩
    · rintro ⟨u, hmem, hname, hactive, hhash⟩
      have hfind := findUserByUsername_unique users username u hUnique hmem hname hactive
      rw [login_of_found N secret users now isoNow writable username password u hfind hhash]
      exact ⟨_, _, rfl⟩
  · intro u hmem hname hactive hhash
    have hfind := findUserByUsername_unique users username u hUnique hmem hname hactive
    refine ⟨?_, ?_, ?_⟩
    · rw [login_of_found N secret users now isoNow writable username password u hfind hhash]
    · rw [jwtPayload_loginClaims]
      rfl
    · intro checkTime hlt hEnc hDec
      rw [verifyToken_generateToken_eq N secret now checkTime (loginClaims u) "24h" hEnc hDec]
      have hexp := getProp_jwtPayload_exp now (loginClaims u) "24h"
      rw [expiry_24h] at hexp
      rw [checkExpiry_obj N checkTime _ (now + 86400) hexp, if_neg]
      intro hc
      exact absurd hlt (not_lt.2 (le_of_lt hc.2))

set_option maxRecDepth 1000000 in
/-- C12, at `login('admin', 'cbdt2025')` on the bootstrapped user file: it
succeeds with the administrator's token, which `verifyToken` accepts with
the role 'admin'. -/
theorem login_success_witness :
    (login refNode defaultSecret (defaultUsers refNode "2025-01-01T00:00:00.000Z") 1700000000
        "2025-06-01T00:00:00.000Z" true "admin" "cbdt2025").1
      = LoginResult.success adminToken
          (Json.obj [("id", Json.num 1), ("username", Json.str "admin"),
            ("role", Json.str "admin"),
            ("permissions", Json.arr [Json.str "read", Json.str "write", Json.str "admin"]),
            ("email", Json.str "admin@example.com")])
    ∧ verifyToken refNode defaultSecret 1700000001 adminToken = Verification.valid adminPayload
    ∧ getProp adminPayload "role" = some (Json.str "admin") := by
  have h := (login_success refNode defaultSecret
    (defaultUsers refNode "2025-01-01T00:00:00.000Z") 1700000000 "2025-06-01T00:00:00.000Z" true
    "admin" "cbdt2025" (List.pairwise_singleton _ _)).2
    { id := 1, username := "admin", passwordHash := hashPassword refNode "cbdt2025",
      role := "admin", permissions := ["read", "write", "admin"],
      email := "admin@example.com", createdAt := "2025-01-01T00:00:00.000Z", lastLogin := none,
      isActive := true }
    (List.mem_singleton.2 rfl) rfl rfl rfl
  exact ⟨h.1, h.2.2 1700000001 (by decide) refNode_encodes_admin
    (refNode_decodes _ (by decide) (by decide)), by decide⟩

/-- C13: for every request whose `Authorization` header is absent or does
not start with 'Bearer ', `authenticateRequest` answers `authenticated:
false, error: 'No token provided'` whatever the built-ins, the secret, the
user file and the time are: neither `verifyToken` nor the user file enters
the answer. -/
theorem authenticateRequest_no_token (authorization : Option String)
    (h : authorization = none
      ∨ ∃ authHeader, authorization = some authHeader
          ∧ startsWith authHeader "Bearer " = false) :
    ∀ (N : Node) (secret : String) (users : List User) (now : Int),
      authenticateRequest N secret users now authorization
        = AuthResult.rejected "No token provided" := by
  intro N secret users now
  rcases h with rfl | ⟨authHeader, rfl, hs⟩
  · rfl
  · simp [authenticateRequest, hs]

/-- C13, at a header of the Basic scheme. -/
theorem authenticateRequest_no_token_witness :
    authenticateRequest refNode defaultSecret downgradedUsers 1700000000
        (some "Basic YWRtaW46Y2JkdDIwMjU=")
      = AuthResult.rejected "No token provided" :=
  authenticateRequest_no_token (some "Basic YWRtaW46Y2JkdDIwMjU=")
    (Or.inr ⟨_, rfl, by decide⟩) refNode defaultSecret downgradedUsers 1700000000

set_option maxRecDepth 1000000 in
/-- C14 fails: the file part with the field name `filename=` (non-empty,
quote-free) and the filename `a.png` is read back with the filename
`; filename=`, since the filename pattern matches inside `name="filename="`. -/
theorem parseMultipart_misreads_filename :
    oddPart.name = "filename=" ∧ oddPart.filename = some "a.png"
    ∧ parseMultipart refNode (encodeBody sampleBoundary [oddPart] [13, 10]) sampleBoundary
      = some [{ name := "filename=", data := [120, 13, 10], filename := some "; filename=",
                contentType := none }] := by
  decide

/-- C14 as amended: multipart fidelity (structure). For every boundary and
every list of plain parts (a name that is non-empty, quote-free, does not end
in `filename=` and holds no `Content-Type: `; a filename that is non-empty,
quote-free and holds no `Content-Type: `; a content type that is non-empty
and free of quotes and line ends; no blank line in the header block; no
delimiter inside the segment), parsing the standard encoding of the list,
closed by `--boundary--` and followed by an epilogue without delimiter,
returns exactly as many parts in body order, the i-th with the i-th name,
and with the i-th filename and content type exactly when declared. -/
theorem parseMultipart_structure (N : Node) (boundary : String) (parts : List Part)
    (epilogue : List Nat)
    (hEpi : indexOf (bufferFrom ("--" ++ boundary)) epilogue 0 = none)
    (hparts : ∀ p ∈ parts, PlainPart N boundary p) :
    ∃ result, parseMultipart N (encodeBody boundary parts epilogue) boundary = some result
      ∧ result.length = parts.length
      ∧ result.map Part.name = parts.map Part.name
      ∧ result.map Part.filename = parts.map Part.filename
      ∧ result.map Part.contentType = parts.map Part.contentType := by
  refine ⟨parts.map received, parseMultipart_encodeBody N boundary parts epilogue hEpi hparts,
    ?_, ?_, ?_, ?_⟩
  · simp
  · rw [List.map_map]
    rfl
  · rw [List.map_map]
    rfl
  · rw [List.map_map]
    rfl

set_option maxRecDepth 1000000 in
/-- C14 as amended, at a text field followed by a file part. -/
theorem parseMultipart_structure_witness :
    ∃ result,
      parseMultipart refNode (encodeBody sampleBoundary [titlePart, photoPart] [13, 10])
          sampleBoundary = some result
      ∧ result.length = 2
      ∧ result.map Part.name = ["title", "file"]
      ∧ result.map Part.filename = [none, some "a.png"]
      ∧ result.map Part.contentType = [none, some "image/png"] :=
  parseMultipart_structure refNode sampleBoundary [titlePart, photoPart] [13, 10] (by decide)
    (by
      intro p hp
      rcases List.mem_cons.1 hp with rfl | hp
      · exact titlePart_plain
      · rcases List.mem_cons.1 hp with rfl | hp
        · exact photoPart_plain
        · cases hp)

/-- C15 fails on the code: for every list of plain parts, the `data` of each
part that `parseMultipart` recovers from the standard encoding is the
original content followed by the bytes 13, 10 of the line end that precedes
the next delimiter, two bytes more than the content that was sent. -/
theorem parseMultipart_data_keeps_line_end (N : Node) (boundary : String)
    (parts : List Part) (epilogue : List Nat)
    (hEpi : indexOf (bufferFrom ("--" ++ boundary)) epilogue 0 = none)
    (hparts : ∀ p ∈ parts, PlainPart N boundary p) :
    ∃ result, parseMultipart N (encodeBody boundary parts epilogue) boundary = some result
      ∧ result.map Part.data = parts.map (fun p => p.data ++ [13, 10])
      ∧ (parts ≠ [] → result.map Part.data ≠ parts.map Part.data) := by
  have hdata : (parts.map received).map Part.data = parts.map (fun p => p.data ++ [13, 10]) := by
    rw [List.map_map]
    rfl
  refine ⟨parts.map received, parseMultipart_encodeBody N boundary parts epilogue hEpi hparts,
    hdata, ?_⟩
  intro hne heq
  rw [hdata] at heq
  cases parts with
  | nil => exact hne rfl
  | cons p ps =>
    have h1 := congrArg List.length (List.cons_eq_cons.1 heq).1
    rw [List.length_append] at h1
    exact absurd h1 (by simp)

set_option maxRecDepth 1000000 in
/-- C15, at a text field with the content `hello` and a file part: the data
that comes back is `hello\r\n`, and the eight bytes of the file followed by
13, 10. -/
theorem parseMultipart_data_keeps_line_end_witness :
    ∃ result,
      parseMultipart refNode (encodeBody sampleBoundary [titlePart, photoPart] [13, 10])
          sampleBoundary = some result
      ∧ result.map Part.data
          = [[104, 101, 108, 108, 111, 13, 10], [137, 80, 78, 71, 13, 10, 26, 10, 13, 10]]
      ∧ result.map Part.data
          ≠ [[104, 101, 108, 108, 111], [137, 80, 78, 71, 13, 10, 26, 10]] := by
  obtain ⟨result, hres, hdata, hne⟩ := parseMultipart_data_keeps_line_end refNode sampleBoundary
    [titlePart, photoPart] [13, 10] (by decide)
    (by
      intro p hp
      rcases List.mem_cons.1 hp with rfl | hp
      · exact titlePart_plain
      · rcases List.mem_cons.1 hp with rfl | hp
        · exact photoPart_plain
        · cases hp)
  exact ⟨result, hres, hdata, hne (List.cons_ne_nil _ _)⟩

set_option maxRecDepth 1000000 in
/-- C16 fails on the code: a segment whose header block is
`Content-Disposition: form-data; filename="a.png"`, with no parameter called
name, is not dropped: the pattern of the name is not anchored and matches
inside `filename="a.png"`, so the segment contributes a part named `a.png`.
The other half holds: for every body and boundary every returned part has a
non-empty name. -/
theorem parseMultipart_names_part_by_filename :
    parseMultipart refNode unnamedBody sampleBoundary
      = some [{ name := "a.png", data := [104, 101, 108, 108, 111, 13, 10],
                filename := some "a.png", contentType := none }]
    ∧ ∀ (N : Node) (body : List Nat) (boundary : String),
        ∃ result, parseMultipart N body boundary = some result
          ∧ ∀ p ∈ result, p.name ≠ "" := by
  refine ⟨by decide, ?_⟩
  intro N body boundary
  obtain ⟨result, hres, hparts⟩ := (parseMultipart_named_parts N body boundary).1
  exact ⟨result, hres, fun p hp => (hparts p hp).1⟩

set_option maxRecDepth 1000000 in
/-- C17 fails on the code: in a body that holds the field `a`, the closing
delimiter at byte 54, the field `b` and the closing delimiter once more, the
scan goes on behind the first closing delimiter and returns `b`, read from
the bytes 61 to 110. -/
theorem parseMultipart_reads_past_closing :
    indexOf (bufferFrom ("--" ++ sampleBoundary ++ "--")) twiceClosedBody 0 = some 54
    ∧ readPart refNode (slice twiceClosedBody 61 110)
      = some { name := "b", data := [50, 13, 10], filename := none, contentType := none }
    ∧ parseMultipart refNode twiceClosedBody sampleBoundary
      = some [{ name := "a", data := [49, 13, 10], filename := none, contentType := none },
              { name := "b", data := [50, 13, 10], filename := none, contentType := none }] := by
  decide

/-- C18: for every body that contains no occurrence of the delimiter `'--' +
boundary`, `parseMultipart` returns the empty list. -/
theorem parseMultipart_no_delimiter (N : Node) (body : List Nat) (boundary : String)
    (h : ¬ bufferFrom ("--" ++ boundary) <:+: body) :
    parseMultipart N body boundary = some [] := by
  unfold parseMultipart
  cases hfirst : indexOf (bufferFrom ("--" ++ boundary)) body 0 with
  | none => exact parseLoop_none _ _ _ _ _ _ _
  | some i =>
    rw [indexOf_zero] at hfirst
    exact absurd (findFrom_occurs _ _ _ _ hfirst) h

set_option maxRecDepth 1000000 in
/-- C18, at a body of plain text. -/
theorem parseMultipart_no_delimiter_witness :
    parseMultipart refNode (bufferFrom "no delimiter in this body") sampleBoundary = some [] :=
  parseMultipart_no_delimiter refNode (bufferFrom "no delimiter in this body") sampleBoundary
    (by decide)

/-- C19 fails on the code: a path under `/uploads/` is never refused, its
file path is looked up without the containment test of the static branch.
With the root `/srv/app` the request path `/uploads/../../../etc/passwd`
leads to the file `/etc/passwd`, outside the root and the upload directory,
while the static branch refuses `/../../etc/passwd`; and the static branch,
testing a prefix of the text, lets `/../app-backup/secret.txt` through to a
file of the directory `/srv/app-backup`. -/
theorem routeStatic_uploads_escape :
    (∀ root rest : String,
      routeStatic root ⟨"/uploads/".data ++ rest.data⟩
        = StaticAnswer.stat (pathJoin (uploadDir root) rest))
    ∧ routeStatic "/srv/app" "/uploads/../../../etc/passwd" = StaticAnswer.stat "/etc/passwd"
    ∧ startsWith "/etc/passwd" "/srv/app" = false
    ∧ startsWith "/etc/passwd" (uploadDir "/srv/app") = false
    ∧ routeStatic "/srv/app" "/../../etc/passwd" = StaticAnswer.forbidden
    ∧ routeStatic "/srv/app" "/../app-backup/secret.txt"
      = StaticAnswer.stat "/srv/app-backup/secret.txt" := by
  refine ⟨?_, by decide, by decide, by decide, by decide, by decide⟩
  intro root rest
  have hs : startsWith ⟨"/uploads/".data ++ rest.data⟩ "/uploads/" = true := by
    unfold startsWith
    rw [decide_eq_true_eq]
    exact List.take_left' rfl
  unfold routeStatic
  rw [if_pos hs]
  rfl

/-- C20 fails on the code: `POST /api/images/upload` writes every part that
has a filename, whatever its content type and however long its data, while
`POST /api/upload/image` writes a file only for a part whose content type is
in the allow list and whose data is at most 5 * 1024 * 1024 bytes long. -/
theorem imagesUpload_unchecked (parts : List Part) (part : Part) (filename : String)
    (hmem : part ∈ parts) (hfile : part.filename = some filename) (hne : filename ≠ "") :
    (∃ files, imagesUpload parts = UploadAnswer.written files
      ∧ (filename, part.data) ∈ files)
    ∧ ∀ files, uploadImage parts = UploadAnswer.written files →
        ∃ p ∈ parts, files = [(p.filename.getD "", p.data)]
          ∧ (∃ contentType, p.contentType = some contentType ∧ contentType ∈ allowedTypes)
          ∧ p.data.length ≤ maxSize := by
  refine ⟨⟨_, rfl, ?_⟩, uploadImage_written parts⟩
  rw [List.mem_filterMap]
  exact ⟨part, hmem, by rw [hfile]; simp [hne]⟩

/-- C20, at a part of type `text/html` with 5 * 1024 * 1024 + 1 bytes:
`POST /api/images/upload` writes it. -/
theorem imagesUpload_unchecked_witness :
    maxSize < (htmlPart (List.replicate (maxSize + 1) 0)).data.length
    ∧ "text/html" ∉ allowedTypes
    ∧ ∃ files, imagesUpload [htmlPart (List.replicate (maxSize + 1) 0)]
          = UploadAnswer.written files
        ∧ ("page.html", (htmlPart (List.replicate (maxSize + 1) 0)).data) ∈ files :=
  ⟨by
      show maxSize < (List.replicate (maxSize + 1) 0).length
      rw [List.length_replicate]
      exact Nat.lt_succ_self _,
    by decide,
    (imagesUpload_unchecked [htmlPart (List.replicate (maxSize + 1) 0)]
      (htmlPart (List.replicate (maxSize + 1) 0)) "page.html" (List.mem_singleton.2 rfl) rfl
      (by decide)).1⟩

/-- C21 fails at the method `OPTIONS`: the table has no entry for `OPTIONS
/api/nothing` and no dynamic pattern applies, yet the answer is the 200 of
the preflight, not 404. -/
theorem dispatch_options_preflight :
    hasHandler "/api/nothing" "OPTIONS" = false
    ∧ isRenamePath "/api/nothing" = false ∧ isImagePath "/api/nothing" = false
    ∧ dispatch "OPTIONS" "/api/nothing" = Dispatch.preflight := by
  decide

/-- C21 as amended: dispatch order. For every method other than `OPTIONS`
(which is answered 200 before any routing) and every path, if the handler
table holds an entry for the literal method and path, that entry is
selected; otherwise `POST /api/images/<segment>/rename` selects the rename
handler and `DELETE /api/images/<segment>` the delete handler (segment
non-empty, without '/'); otherwise the answer is 404.  So no literal entry
is shadowed by a dynamic pattern. -/
theorem dispatch_order (method pathname : String) (hm : method ≠ "OPTIONS") :
    (hasHandler pathname method = true →
      dispatch method pathname = Dispatch.handler pathname method)
    ∧ (hasHandler pathname method = false →
      dispatch method pathname
        = if isRenamePath pathname = true ∧ method = "POST" then
            Dispatch.handler "/api/images/" "POST"
          else if isImagePath pathname = true ∧ method = "DELETE" then
            Dispatch.handler "/api/images/" "DELETE"
          else Dispatch.notFound) := by
  unfold dispatch
  rw [if_neg hm]
  exact ⟨dispatchApi_of_handler method pathname, dispatchApi_of_no_handler method pathname⟩

/-- C21 as amended, at `DELETE /api/images/upload`: the table has the path
with `POST` only, so the delete pattern applies; and at `POST
/api/images/upload`, a literal entry. -/
theorem dispatch_order_witness :
    dispatch "DELETE" "/api/images/upload" = Dispatch.handler "/api/images/" "DELETE"
    ∧ dispatch "POST" "/api/images/upload" = Dispatch.handler "/api/images/upload" "POST" :=
  ⟨((dispatch_order "DELETE" "/api/images/upload" (by decide)).2 (by decide)).trans
      (by decide),
    (dispatch_order "POST" "/api/images/upload" (by decide)).1 (by decide)⟩

set_option maxRecDepth 1000000 in
/-- C22 fails for the user file: at `POST /api/gallery/delete` with the
unexpired token of the administrator, who has been marked inactive,
`authenticateRequest` returns `authenticated: false` after `findUserById`
has read the user file; the handler answers 401 'User not found or
inactive', and the request has made a read of the user storage. -/
theorem handle_reads_users :
    authenticateRequest refNode defaultSecret deactivatedUsers 1700000100
        (some ("Bearer " ++ adminToken))
      = AuthResult.rejected "User not found or inactive"
    ∧ handle refNode defaultSecret deactivatedUsers 1700000100 BearerRoute.galleryDeletePost
        (some ("Bearer " ++ adminToken))
      = Handled.refused [Access.readUsers] 401
          (Json.obj [("error", Json.str "User not found or inactive")]) := by
  decide

/-- C22 as amended: authorization gate. On each of the nine bearer routes,
when `authenticateRequest` returns `authenticated: false`, the handler
answers 401 or 403 with a JSON object that holds an `error` and returns: the
storage accesses of the request are those of `authenticateRequest` alone,
none of the rest of the handler.  They are none at all, or the one read of
the user file made for a token that `verifyToken` accepted, in which case
the error is 'User not found or inactive'. -/
theorem handle_rejected (N : Node) (secret : String) (users : List User) (now : Int)
    (authorization : Option String) (error : String) (route : BearerRoute)
    (h : authenticateRequest N secret users now authorization = AuthResult.rejected error) :
    ∃ status message, (status = 401 ∨ status = 403)
      ∧ handle N secret users now route authorization
        = Handled.refused (authenticateAccesses N secret now authorization) status
            (Json.obj [("error", Json.str message)])
      ∧ (authenticateAccesses N secret now authorization = []
        ∨ (authenticateAccesses N secret now authorization = [Access.readUsers]
          ∧ error = "User not found or inactive")) := by
  have htrace : authenticateAccesses N secret now authorization = []
      ∨ (authenticateAccesses N secret now authorization = [Access.readUsers]
        ∧ error = "User not found or inactive") := by
    unfold authenticateAccesses
    unfold authenticateRequest at h
    cases authorization with
    | none => exact Or.inl rfl
    | some authHeader =>
      simp only at h ⊢
      by_cases hb : (authHeader = "" || !startsWith authHeader "Bearer ") = true
      · rw [if_pos hb]
        exact Or.inl rfl
      · rw [if_neg hb] at h ⊢
        cases hv : verifyToken N secret now ⟨authHeader.data.drop 7⟩ with
        | invalid e => exact Or.inl rfl
        | valid payload =>
          rw [hv] at h
          simp only at h
          cases hf : findUserById users (getProp payload "id") with
          | none =>
            rw [hf] at h
            injection h with h
            exact Or.inr ⟨rfl, h.symm⟩
          | some user =>
            rw [hf] at h
            cases h
  unfold handle
  rw [h]
  cases route
  case usersGet => exact ⟨401, "Admin access required", Or.inl rfl, rfl, htrace⟩
  case usersPost => exact ⟨401, "Admin access required", Or.inl rfl, rfl, htrace⟩
  case imagesUploadPost => exact ⟨403, "Forbidden", Or.inr rfl, rfl, htrace⟩
  all_goals exact ⟨401, error, Or.inl rfl, rfl, htrace⟩

/-- C22 as amended, at `POST /api/gallery/delete` without an `Authorization`
header: the request is refused and no storage is accessed. -/
theorem handle_rejected_witness :
    ∃ status message, (status = 401 ∨ status = 403)
      ∧ handle refNode defaultSecret downgradedUsers 1700000000 BearerRoute.galleryDeletePost
          none
        = Handled.refused [] status (Json.obj [("error", Json.str message)]) := by
  obtain ⟨status, message, hstatus, hhandle, _⟩ := handle_rejected refNode defaultSecret
    downgradedUsers 1700000000 none "No token provided" BearerRoute.galleryDeletePost rfl
  exact ⟨status, message, hstatus, hhandle⟩

/-- C23: traversal rejection of `POST /api/gallery/delete`. For every list
of filenames the answer holds one result per filename; a filename that
contains '/', a backslash or '..' gets the result `success: false, error:
'非法文件名'` with no call of the file system; for every other filename the
calls of the file system are made on `path.join(UPLOAD_DIR, filename)`,
which is the upload directory followed by '/' and the filename (the upload
directory itself for the filenames '' and '.'). -/
theorem galleryDelete_contained (root : String) (accessOk unlinkOk : String → Bool) :
    (∀ filenames, filenames ≠ [] →
      galleryDelete root accessOk unlinkOk filenames
        = GalleryAnswer.results (filenames.map (galleryDeleteOne root accessOk unlinkOk)))
    ∧ (∀ filename : String,
        '/' ∈ filename.data ∨ '\\' ∈ filename.data ∨ ['.', '.'] <:+: filename.data →
        galleryDeleteOne root accessOk unlinkOk filename
          = { filename := filename, success := false, error := some "非法文件名", calls := [] })
    ∧ ∀ filename : String,
        ¬ ('/' ∈ filename.data ∨ '\\' ∈ filename.data ∨ ['.', '.'] <:+: filename.data) →
        (∀ call ∈ (galleryDeleteOne root accessOk unlinkOk filename).calls,
          call = FsCall.access (pathJoin (uploadDir root) filename)
            ∨ call = FsCall.unlink (pathJoin (uploadDir root) filename))
        ∧ pathJoin (uploadDir root) filename
          = if filename.data = [] ∨ filename.data = ['.'] then uploadDir root
            else ⟨(uploadDir root).data ++ '/' :: filename.data⟩ := by
  have hcheck : ∀ filename : String,
      (includes filename ".." || includes filename "/" || includes filename "\\") = true
        ↔ ('/' ∈ filename.data ∨ '\\' ∈ filename.data ∨ ['.', '.'] <:+: filename.data) := by
    intro filename
    rw [Bool.or_eq_true, Bool.or_eq_true]
    have h1 := includes_char filename '/'
    have h2 := includes_char filename '\\'
    have h3 : includes filename ".." = true ↔ ['.', '.'] <:+: filename.data := by
      unfold includes
      rw [decide_eq_true_eq]
    constructor
    · rintro ((h | h) | h)
      · exact Or.inr (Or.inr (h3.1 h))
      · exact Or.inl (h1.1 h)
      · exact Or.inr (Or.inl (h2.1 h))
    · rintro (h | h | h)
      · exact Or.inl (Or.inr (h1.2 h))
      · exact Or.inr (h2.2 h)
      · exact Or.inl (Or.inl (h3.2 h))
  refine ⟨?_, ?_, ?_⟩
  · intro filenames hne
    unfold galleryDelete
    rw [if_neg hne]
  · intro filename hbad
    unfold galleryDeleteOne
    rw [if_pos ((hcheck filename).2 hbad)]
  · intro filename hgood
    have hpass : ¬ (includes filename ".." || includes filename "/"
        || includes filename "\\") = true := fun hc => hgood ((hcheck filename).1 hc)
    constructor
    · intro call hcall
      unfold galleryDeleteOne at hcall
      rw [if_neg hpass] at hcall
      simp only at hcall
      split at hcall
      · rw [List.mem_singleton] at hcall
        exact Or.inl hcall
      · split at hcall
        · simp only [List.mem_cons, List.mem_singleton, List.not_mem_nil, or_false] at hcall
          exact hcall
        · simp only [List.mem_cons, List.mem_singleton, List.not_mem_nil, or_false] at hcall
          exact hcall
    · obtain ⟨segs, hne, hclean, hdir⟩ := uploadDir_clean root
      rw [hdir]
      exact pathJoin_child segs filename hne hclean (fun hc => hgood (Or.inl hc))
        (fun hc => hgood (Or.inr (Or.inr (by rw [hc]))))

set_option maxRecDepth 1000000 in
/-- C23, at the filenames `../../etc/passwd` and `a.png` under the root
`/srv/app`: the first is refused without a call, the second is deleted at
`/srv/app/uploads/a.png`. -/
theorem galleryDelete_contained_witness :
    galleryDelete "/srv/app" (fun _ => true) (fun _ => true) ["../../etc/passwd", "a.png"]
      = GalleryAnswer.results
          [{ filename := "../../etc/passwd", success := false, error := some "非法文件名",
             calls := [] },
           { filename := "a.png", success := true, error := none,
             calls := [FsCall.access "/srv/app/uploads/a.png",
                       FsCall.unlink "/srv/app/uploads/a.png"] }] :=
  ((galleryDelete_contained "/srv/app" (fun _ => true) (fun _ => true)).1
    ["../../etc/passwd", "a.png"] (by decide)).trans (by decide)

set_option maxRecDepth 1000000 in
/-- C24 fails: on a user file whose stored id is 2^53 = 9007199254740992 the
sum `Math.max(...ids, 0) + 1` of doubles is 9007199254740992 again, so the
appended user 'alice' gets the id of the stored user, not the maximum plus
1; and on a file that cannot be written `addUser` does not succeed although
the username is free. -/
theorem addUser_repeats_id :
    (addUser refNode fullStore true "2025-06-01T00:00:00.000Z" aliceData).2.map
        (fun user => (user.username, user.id))
      = [("admin", 9007199254740992), ("alice", 9007199254740992)]
    ∧ addUser refNode (defaultUsers refNode "2025-01-01T00:00:00.000Z") false
        "2025-06-01T00:00:00.000Z" aliceData
      = (AddUserResult.failure "Failed to save user",
          defaultUsers refNode "2025-01-01T00:00:00.000Z") := by
  decide

/-- C24 as amended: `addUser(data)`. When no stored user has the username,
the password is a string and the file can be written, it succeeds and
appends exactly one user, with `passwordHash = hashPassword(data.password)`
and `isActive = true`, the stored users staying as they are; its id is the
sum of doubles `Math.max(...ids, 0) + 1`, which is 1 on the empty store and,
when the stored ids are below 2^53, 1 more than the maximum of the stored
ids and 0, greater than every stored id (the maximum stored id plus 1 on a
store of positive ids).  When the username is free and the file cannot be
written, it fails with 'Failed to save user'; when the username is free and
the password is not a string, with 'Internal error'; when a stored user has
the username, with 'Username already exists'; the store is then unchanged. -/
theorem addUser_result (N : Node) (users : List User) (isoNow : String) (userData : UserData) :
    ((∀ u ∈ users, u.username ≠ userData.username) →
      ∀ text, userData.password = Json.str text →
        (∃ user, addUser N users true isoNow userData
            = (AddUserResult.success user, users ++ [user])
          ∧ user.username = userData.username
          ∧ user.passwordHash = hashPassword N text
          ∧ user.isActive = true
          ∧ user.id = plusOne (maxId users)
          ∧ (users = [] → user.id = 1)
          ∧ ((∀ u ∈ users, u.id < 9007199254740992) →
              user.id = maxId users + 1
              ∧ (∀ u ∈ users, u.id < user.id)
              ∧ (users ≠ [] → (∀ u ∈ users, 0 < u.id) → ∃ u ∈ users, user.id = u.id + 1)))
        ∧ addUser N users false isoNow userData
          = (AddUserResult.failure "Failed to save user", users))
    ∧ ((∀ u ∈ users, u.username ≠ userData.username) →
      (∀ text, userData.password ≠ Json.str text) →
      ∀ writable, addUser N users writable isoNow userData
        = (AddUserResult.failure "Internal error", users))
    ∧ ∀ writable, (∃ u ∈ users, u.username = userData.username) →
        addUser N users writable isoNow userData
          = (AddUserResult.failure "Username already exists", users) := by
  refine ⟨?_, ?_, fun writable => addUser_of_taken N users writable isoNow userData⟩
  · intro hfree text htext
    have hhash : hashPasswordValue N userData.password = some (hashPassword N text) := by
      rw [htext]
      rfl
    refine ⟨⟨newUser users isoNow userData (hashPassword N text), ?_, rfl, rfl, rfl, rfl,
      ?_, ?_⟩, ?_⟩
    · rw [addUser_of_free N users true isoNow userData hfree, hhash]
      rfl
    · rintro rfl
      rfl
    · intro hsafe
      have hid : (newUser users isoNow userData (hashPassword N text)).id = maxId users + 1 :=
        plusOne_safe _ (maxId_lt users _ (by decide) hsafe)
      refine ⟨hid, ?_, ?_⟩
      · intro u hu
        rw [hid]
        exact Int.lt_add_one_iff.2 (le_maxId users u hu)
      · intro hne hpos
        obtain ⟨u, hu, hmax⟩ := maxId_mem users hne (fun u hu => le_of_lt (hpos u hu))
        exact ⟨u, hu, by rw [hid, hmax]⟩
    · rw [addUser_of_free N users false isoNow userData hfree, hhash]
      rfl
  · intro hfree hpass writable
    have hhash : hashPasswordValue N userData.password = none := by
      cases hp : userData.password with
      | str text => exact absurd hp (hpass text)
      | null => rfl
      | bool b => rfl
      | num n => rfl
      | arr items => rfl
      | obj fields => rfl
    rw [addUser_of_free N users writable isoNow userData hfree, hhash]

set_option maxRecDepth 1000000 in
/-- C24 as amended, on the bootstrapped user file: adding 'alice' gives the
user 2, and adding 'admin' again fails. -/
theorem addUser_result_witness :
    (∃ user, addUser refNode (defaultUsers refNode "2025-01-01T00:00:00.000Z") true
          "2025-06-01T00:00:00.000Z" aliceData
        = (AddUserResult.success user, defaultUsers refNode "2025-01-01T00:00:00.000Z" ++ [user])
      ∧ user.username = "alice" ∧ user.id = 2 ∧ user.isActive = true
      ∧ user.passwordHash = hashPassword refNode "s3cret")
    ∧ addUser refNode (defaultUsers refNode "2025-01-01T00:00:00.000Z") true
          "2025-06-01T00:00:00.000Z" { aliceData with username := "admin" }
        = (AddUserResult.failure "Username already exists",
            defaultUsers refNode "2025-01-01T00:00:00.000Z") := by
  have h := addUser_result refNode (defaultUsers refNode "2025-01-01T00:00:00.000Z")
    "2025-06-01T00:00:00.000Z" aliceData
  have h2 := addUser_result refNode (defaultUsers refNode "2025-01-01T00:00:00.000Z")
    "2025-06-01T00:00:00.000Z" { aliceData with username := "admin" }
  obtain ⟨⟨user, hadd, hname, hhash, hactive, _, _, hsafe⟩, _⟩ := h.1 (by decide) "s3cret" rfl
  exact ⟨⟨user, hadd, hname, (hsafe (by decide)).1, hactive, hhash⟩, h2.2.2 true (by decide)⟩

set_option maxRecDepth 1000000 in
/-- C25 fails: the user file whose only user has the id 2^53 =
9007199254740992 meets the invariant, and after `addUser` has added 'alice'
two users have that id. -/
theorem addUser_breaks_valid :
    ValidStore fullStore
    ∧ ¬ ValidStore (addUser refNode fullStore true "2025-06-01T00:00:00.000Z" aliceData).2 := by
  refine ⟨⟨by decide, List.pairwise_singleton _ _, List.pairwise_singleton _ _⟩, ?_⟩
  rintro ⟨_, hids, _⟩
  revert hids
  decide

/-- C25 as amended: store invariant. If the stored users have positive ids
below 2^53, pairwise distinct ids and pairwise distinct usernames, then
after any call of `addUser`, whether it succeeds or fails, the users of the
file have positive ids of at most 2^53, pairwise distinct ids and pairwise
distinct usernames. -/
theorem addUser_keeps_valid (N : Node) (users : List User) (writable : Bool) (isoNow : String)
    (userData : UserData) (h : ValidStore users)
    (hsafe : ∀ u ∈ users, u.id < 9007199254740992) :
    ValidStore (addUser N users writable isoNow userData).2
    ∧ ∀ u ∈ (addUser N users writable isoNow userData).2, u.id ≤ 9007199254740992 := by
  rcases addUser_store N users writable isoNow userData with hsame | ⟨hfree, hash, happ⟩
  · rw [hsame]
    exact ⟨h, fun u hu => le_of_lt (hsafe u hu)⟩
  · rw [happ]
    obtain ⟨hpos, hids, hnames⟩ := h
    have hmax := maxId_lt users _ (by decide) hsafe
    have hnew : (newUser users isoNow userData hash).id = maxId users + 1 :=
      plusOne_safe _ hmax
    refine ⟨⟨?_, ?_, ?_⟩, ?_⟩
    · intro u hu
      rcases List.mem_append.1 hu with hu | hu
      · exact hpos u hu
      · rw [List.mem_singleton.1 hu, hnew]
        exact Int.lt_add_one_iff.2 (maxId_nonneg users)
    · rw [List.pairwise_append]
      refine ⟨hids, List.pairwise_singleton _ _, ?_⟩
      intro a ha b hb
      rw [List.mem_singleton.1 hb, hnew]
      exact ne_of_lt (Int.lt_add_one_iff.2 (le_maxId users a ha))
    · rw [List.pairwise_append]
      refine ⟨hnames, List.pairwise_singleton _ _, ?_⟩
      intro a ha b hb
      rw [List.mem_singleton.1 hb]
      exact hfree a ha
    · intro u hu
      rcases List.mem_append.1 hu with hu | hu
      · exact le_of_lt (hsafe u hu)
      · rw [List.mem_singleton.1 hu, hnew]
        omega

set_option maxRecDepth 1000000 in
/-- C25 as amended, on the bootstrapped user file after 'alice' was added. -/
theorem addUser_keeps_valid_witness :
    ValidStore (defaultUsers refNode "2025-01-01T00:00:00.000Z")
    ∧ ValidStore (addUser refNode (defaultUsers refNode "2025-01-01T00:00:00.000Z") true
        "2025-06-01T00:00:00.000Z" aliceData).2 :=
  have hvalid : ValidStore (defaultUsers refNode "2025-01-01T00:00:00.000Z") :=
    ⟨by decide, List.pairwise_singleton _ _, List.pairwise_singleton _ _⟩
  ⟨hvalid, (addUser_keeps_valid refNode _ true "2025-06-01T00:00:00.000Z" aliceData hvalid
    (by decide)).1⟩

set_option maxRecDepth 1000000 in
/-- C26 fails on the code: `addPost` and `updatePost` restore the posts when
the save fails, the other operations do not.  With a failing save,
`addOrUpdatePost` keeps the pushed post and the changed post; the local
fallback of `deletePost` puts the post back and leaves the comments of the
post deleted; `addComment`, `addReply`, `deleteComment` and `deleteReply`
keep their change of the comments. -/
theorem rollback_missing :
    (∀ today postData blog, (addPost false today postData blog).2 = blog)
    ∧ (∀ id postData blog, (updatePost false id postData blog).2 = blog)
    ∧ (addOrUpdatePost false (Json.obj [("title", Json.str "Second")]) sampleBlog).2.posts
        = [firstPost, Json.obj [("id", Json.num 2), ("views", Json.num 0),
            ("title", Json.str "Second")]]
    ∧ (addOrUpdatePost false (Json.obj [("id", Json.num 1), ("title", Json.str "Changed")])
          sampleBlog).2.posts
        = [Json.obj [("id", Json.num 1), ("title", Json.str "Changed"),
            ("date", Json.str "2025-01-27"), ("published", Json.bool true),
            ("views", Json.num 7)]]
    ∧ ((deletePostLocal false false "1" sampleBlog).1 = false
      ∧ (deletePostLocal false false "1" sampleBlog).2.posts = sampleBlog.posts
      ∧ sampleBlog.comments "1" = some [firstComment]
      ∧ (deletePostLocal false false "1" sampleBlog).2.comments "1" = none)
    ∧ ((addComment Fetched.notOk false 1700000000000 "2025-06-01T00:00:00.000Z" "1"
          (Json.obj [("content", Json.str "new")]) sampleBlog).1 = none
      ∧ (addComment Fetched.notOk false 1700000000000 "2025-06-01T00:00:00.000Z" "1"
          (Json.obj [("content", Json.str "new")]) sampleBlog).2.comments "1"
        = some [firstComment, Json.obj [("id", Json.num 1700000000000),
            ("content", Json.str "new"), ("timestamp", Json.str "2025-06-01T00:00:00.000Z"),
            ("replies", Json.arr [])]])
    ∧ ((addReply Fetched.notOk false 1700000000000 "2025-06-01T00:00:00.000Z" "1" 10
          (Json.obj [("content", Json.str "new")]) sampleBlog).1 = none
      ∧ ((addReply Fetched.notOk false 1700000000000 "2025-06-01T00:00:00.000Z" "1" 10
          (Json.obj [("content", Json.str "new")]) sampleBlog).2.comments "1").map
            (List.map (fun comment => (repliesOf comment).length))
        = some [2])
    ∧ ((deleteComment Fetched.notOk false "1" 10 sampleBlog).1 = false
      ∧ (deleteComment Fetched.notOk false "1" 10 sampleBlog).2.comments "1" = some [])
    ∧ ((deleteReply Fetched.notOk false "1" 10 11 sampleBlog).1 = false
      ∧ ((deleteReply Fetched.notOk false "1" 10 11 sampleBlog).2.comments "1").map
            (List.map repliesOf)
        = some [[]]) := by
  refine ⟨addPost_rollback, updatePost_rollback, by decide, by decide, by decide, by decide,
    by decide, by decide, by decide⟩

set_option maxRecDepth 1000000 in
/-- C27 fails: a correctly signed token whose claims segment decodes to the
JSON text `5`, a number, is accepted as valid with the payload 5. -/
theorem verifyToken_accepts_number :
    refNode.fromBase64 (base64urlUnescape "NQ") = "5"
    ∧ verifyToken refNode defaultSecret 1700000000 numberToken
      = Verification.valid (Json.num 5) := by
  decide

/-- C27 as amended: for every correctly signed token of three dot-free
segments, `verifyToken` answers 'Token parsing failed' when the claims
segment does not decode to JSON text or decodes to `null`; when it decodes
to a number, a string, a boolean or an array, `verifyToken` returns that
value as valid payload. -/
theorem verifyToken_payload_shape (N : Node) (secret : String) (now : Int) (h p s : String)
    (hh : '.' ∉ h.data) (hp : '.' ∉ p.data) (hs : '.' ∉ s.data)
    (hsig : s = base64urlEscape (N.hmacSha256 secret (h ++ "." ++ p))) :
    (N.parse (N.fromBase64 (base64urlUnescape p)) = none →
      verifyToken N secret now (h ++ "." ++ p ++ "." ++ s)
        = Verification.invalid "Token parsing failed")
    ∧ (N.parse (N.fromBase64 (base64urlUnescape p)) = some Json.null →
      verifyToken N secret now (h ++ "." ++ p ++ "." ++ s)
        = Verification.invalid "Token parsing failed")
    ∧ ∀ payload, N.parse (N.fromBase64 (base64urlUnescape p)) = some payload →
        payload ≠ Json.null → (∀ fields, payload ≠ Json.obj fields) →
        verifyToken N secret now (h ++ "." ++ p ++ "." ++ s) = Verification.valid payload := by
  rw [verifyToken_segments N secret now h p s hh hp hs, if_neg (not_not.2 hsig)]
  refine ⟨?_, ?_, ?_⟩
  · intro hparse
    rw [hparse]
  · intro hparse
    rw [hparse]
    rfl
  · intro payload hparse hnull hobj
    rw [hparse]
    cases payload with
    | null => exact absurd rfl hnull
    | obj fields => exact absurd rfl (hobj fields)
    | bool b => rfl
    | num n => rfl
    | str t => rfl
    | arr items => rfl

set_option maxRecDepth 1000000 in
/-- C27 as amended, at a correctly signed token whose claims segment is the
base64url text of `not json`. -/
theorem verifyToken_payload_shape_witness :
    verifyToken refNode defaultSecret 1700000000
        ("eyJhbGciOiJIUzI1NiIsInR5cCI6IkpXVCJ9" ++ "." ++ "bm90IGpzb24" ++ "."
          ++ base64urlEscape (refNode.hmacSha256 defaultSecret
              ("eyJhbGciOiJIUzI1NiIsInR5cCI6IkpXVCJ9" ++ "." ++ "bm90IGpzb24")))
      = Verification.invalid "Token parsing failed" :=
  (verifyToken_payload_shape refNode defaultSecret 1700000000
    "eyJhbGciOiJIUzI1NiIsInR5cCI6IkpXVCJ9" "bm90IGpzb24"
    (base64urlEscape (refNode.hmacSha256 defaultSecret
      ("eyJhbGciOiJIUzI1NiIsInR5cCI6IkpXVCJ9" ++ "." ++ "bm90IGpzb24")))
    (by decide) (by decide) (by decide) rfl).1 (by decide)

/-- C28: `parseMultipart` terminates for every body and boundary. It
returns a list of parts; an iteration that finds the delimiter at `stop`
from `start` on goes on at `stop + length + 2`, beyond `start`; and
`body.length` iterations suffice to reach the result. -/
theorem parseMultipart_terminates (N : Node) (body : List Nat) (boundary : String) :
    (∃ result, parseMultipart N body boundary = some result
      ∧ parseLoop N body (bufferFrom ("--" ++ boundary))
          (bufferFrom ("--" ++ boundary ++ "--")) body.length 0
          (indexOf (bufferFrom ("--" ++ boundary)) body 0) [] = some result)
    ∧ ∀ start stop, indexOf (bufferFrom ("--" ++ boundary)) body start = some stop →
        start < stop + (bufferFrom ("--" ++ boundary)).length + 2
          ∧ stop ≤ body.length := by
  constructor
  · obtain ⟨result, hres⟩ := parseLoop_within_length N body boundary
    exact ⟨result, parseLoop_fuel N body _ _ _ _ _ _ _ hres, hres⟩
  · intro start stop hs
    have hd : bufferFrom ("--" ++ boundary) ≠ [] := by rw [bufferFrom_delimiter]; simp
    have hb := indexOf_start_le _ _ _ _ hd hs
    exact ⟨by omega, hb.2⟩

/-- C29: for every body without an occurrence of the closing delimiter
`'--' + boundary + '--'`, `parseMultipart` returns the empty list; and for
every body, each returned part was read from the bytes between a position
and the next delimiter such that a closing delimiter stands at that
delimiter or behind it. -/
theorem parseMultipart_needs_closing (N : Node) (body : List Nat) (boundary : String) :
    (¬ bufferFrom ("--" ++ boundary ++ "--") <:+: body →
      parseMultipart N body boundary = some [])
    ∧ ∀ result, parseMultipart N body boundary = some result →
        ∀ p ∈ result, ∃ start stop closing, 0 < start
          ∧ indexOf (bufferFrom ("--" ++ boundary)) body start = some stop
          ∧ indexOf (bufferFrom ("--" ++ boundary ++ "--")) body start = some closing
          ∧ stop ≤ closing
          ∧ readPart N (slice body start stop) = some p := by
  have hmem : ∀ result, parseMultipart N body boundary = some result →
      ∀ p ∈ result, ∃ start stop closing, 0 < start
        ∧ indexOf (bufferFrom ("--" ++ boundary)) body start = some stop
        ∧ indexOf (bufferFrom ("--" ++ boundary ++ "--")) body start = some closing
        ∧ stop ≤ closing
        ∧ readPart N (slice body start stop) = some p := by
    intro result hres p hp
    rcases parseLoop_mem_closing N body _ _ _ _ _ _ _ rfl
      (fun h0 => absurd h0 (Nat.lt_irrefl 0)) hres p hp with hnil | hq
    · cases hnil
    · exact hq
  refine ⟨?_, hmem⟩
  intro hno
  obtain ⟨result, hres⟩ := parseMultipart_total N body boundary
  rw [hres]
  cases result with
  | nil => rfl
  | cons p rest =>
    obtain ⟨start, stop, closing, _, _, hc, _⟩ := hmem _ hres p (List.mem_cons_self _ _)
    exact absurd (indexOf_occurs _ _ _ _ hc) hno

set_option maxRecDepth 1000000 in
/-- C29, at a body that holds the complete part `a` between two delimiters
and no closing delimiter. -/
theorem parseMultipart_needs_closing_witness :
    indexOf (bufferFrom ("--" ++ sampleBoundary)) openBody 7 = some 54
    ∧ readPart refNode (slice openBody 7 54)
      = some { name := "a", data := [49, 13, 10], filename := none, contentType := none }
    ∧ parseMultipart refNode openBody sampleBoundary = some [] :=
  ⟨by decide, by decide,
    (parseMultipart_needs_closing refNode openBody sampleBoundary).1 (by decide)⟩

set_option maxRecDepth 1000000 in
/-- C30 fails at every base64 text without padding: the header segment of a
token, 36 characters long, comes back from `base64urlUnescape` after
`base64urlEscape` with four `=` behind it. -/
theorem unescape_escape_appends_padding :
    refNode.toBase64 (refNode.stringify jwtHeader) = "eyJhbGciOiJIUzI1NiIsInR5cCI6IkpXVCJ9"
    ∧ base64urlUnescape (base64urlEscape "eyJhbGciOiJIUzI1NiIsInR5cCI6IkpXVCJ9")
      = "eyJhbGciOiJIUzI1NiIsInR5cCI6IkpXVCJ9====" := by
  decide

/-- C30 as amended: for every standard base64 text `s` (characters of the
alphabet, then at most two `=`, the length a multiple of 4),
`base64urlUnescape(base64urlEscape(s))` is `s` when `s` ends in padding, and
`s` followed by `====` when it has none. -/
theorem unescape_escape_standard (s : String) (h : isBase64Text s = true)
    (hlen : s.data.length % 4 = 0) (hpad : s.data.length ≤ (base64Body s).length + 2) :
    base64urlUnescape (base64urlEscape s) = if '=' ∈ s.data then s else s ++ "====" := by
  obtain ⟨k, hk⟩ := base64Text_data s h
  have hl := congrArg List.length hk
  rw [List.length_append, List.length_replicate] at hl
  rw [unescape_escape_eq s h]
  apply String.ext
  by_cases hmem : '=' ∈ s.data
  · rw [if_pos hmem]
    have hk0 : k ≠ 0 := by
      rintro rfl
      rw [hk] at hmem
      simp only [List.replicate_zero, List.append_nil] at hmem
      exact not_pad_mem_base64Body s hmem
    have hk2 : 4 - (base64Body s).length % 4 = k := by omega
    show base64Body s ++ List.replicate (4 - (base64Body s).length % 4) '=' = s.data
    rw [hk2, ← hk]
  · rw [if_neg hmem]
    have hk0 : k = 0 := by
      by_contra hne
      apply hmem
      rw [hk]
      exact List.mem_append_right _ (List.mem_replicate.2 ⟨hne, rfl⟩)
    subst hk0
    have hk2 : 4 - (base64Body s).length % 4 = 4 := by omega
    show base64Body s ++ List.replicate (4 - (base64Body s).length % 4) '='
      = s.data ++ "====".data
    rw [hk2]
    conv_rhs => rw [hk]
    simp

/-- C30 as amended, at the padded text `NQ==`. -/
theorem unescape_escape_standard_witness :
    base64urlUnescape (base64urlEscape "NQ==") = "NQ==" :=
  (unescape_escape_standard "NQ==" (by decide) (by decide) (by decide)).trans
    (if_pos (by decide))

end Homepage
